import Mathlib

/-!
# Korgi: configuration parser, control-surface catalog and MIDI action resolver

A shallow embedding of `src/control_surface_map.cpp` and of the functions
`tokenize`, `ReadConfigFile` and `HandleMidiInput` of `src/main.cpp`.

Conventions of the embedding

* A `char` is a `Char` whose code is the byte value; `NUL` is the byte 0.
* A `char*` into `linebuf` is a `Nat` index into the buffer, a null pointer is
  `none`.  The buffer itself is a `List Char` (256 entries in `ReadConfigFile`).
* Functions whose C++ original can run into undefined behaviour (a read past the
  end of a buffer, `strlen` of a null pointer, a call through the null
  `controlSurfaceMap`, a `sprintf` longer than its destination) return an
  `Option`; `none` stands for undefined behaviour, `some r` for a run that
  completes with result `r`.
* `std::string` values are `List Char`; `unordered_map<int, T>` is a function
  `Int → Option T`.
* `float` arithmetic, `atof` and the `%.3f` conversion are taken as a parameter
  (`FloatArith`); `exactArith` instantiates them with exact rationals.
-/

namespace Korgi

/-! ## Characters and C strings -/

/-- The terminator byte of C strings. -/
def NUL : Char := Char.ofNat 0

/-- The double-quote character. -/
def DQUOTE : Char := Char.ofNat 34

/-- The comment character of the configuration language. -/
def HASH : Char := Char.ofNat 35

/-- The line-feed character. -/
def LF : Char := Char.ofNat 10

/-- The delimiter set `" \t\r\n"` used by `ReadConfigFile`. -/
def delimiters : List Char := [Char.ofNat 32, Char.ofNat 9, Char.ofNat 13, Char.ofNat 10]

/-- The delimiter set `"\""` that `tokenize` switches to inside a quoted token. -/
def quoteDelimiters : List Char := [DQUOTE]

/-- The C string that starts at the head of a memory region: the bytes before the
first `NUL`.  `none` when the region ends before a `NUL` is found (the read would
run past the end of the buffer). -/
def cstr : List Char → Option (List Char)
  | [] => none
  | c :: rest => if c = NUL then some [] else (cstr rest).map (fun s => c :: s)

/-- The C string a pointer `p` into `buf` designates. -/
def cstrAt (buf : List Char) (p : Nat) : Option (List Char) :=
  cstr (buf.drop p)

/-- The call `strchr(s, c)` for a character `c` that is not `NUL`, on the region
`s` that starts at offset `p`: `some (some i)` is a pointer to the first `c`
before the terminator, `some none` the null pointer, `none` a read past the end. -/
def strchrFrom (c : Char) : List Char → Nat → Option (Option Nat)
  | [], _ => none
  | x :: rest, p =>
      if x = NUL then some none
      else if x = c then some (some p)
      else strchrFrom c rest (p + 1)

/-- The statement `{ char* t = strchr(buf, c); if (t) *t = 0; }`. -/
def cutAt (c : Char) (buf : List Char) : Option (List Char) :=
  match strchrFrom c buf 0 with
  | none => none
  | some none => some buf
  | some (some t) => some (buf.set t NUL)

/-- The value `s.c_str()` read back as a C string: the characters of a
`std::string` up to its first `NUL` (all of them when it holds none). -/
def c_str (s : List Char) : List Char :=
  s.takeWhile (fun c => decide (c ≠ NUL))

/-! ## control_surface_map.cpp -/

/-- Modelled from the spec: the enumeration `ControlSurface::Type` of the header
`control_surface_map.h`, which is not among the sources; the spec gives the kinds
`Button | Slider | RotaryKnob`, the names the macros `BUTTON`, `SLIDER` and `KNOB`
use. -/
inductive SurfaceType where
  | Button
  | Slider
  | RotaryKnob
  deriving DecidableEq, Repr

/-- Modelled from the spec: the struct `ControlSurface` of the header
`control_surface_map.h`, which is not among the sources; a descriptor is a kind
and a MIDI channel number, constructed as `ControlSurface(type, channel)`. -/
structure ControlSurface where
  type : SurfaceType
  channel : Int
  deriving DecidableEq, Repr

/-- The macro `BUTTON(__channel)`. -/
def BUTTON (channel : Int) : ControlSurface := ⟨SurfaceType.Button, channel⟩

/-- The macro `SLIDER(__channel)`. -/
def SLIDER (channel : Int) : ControlSurface := ⟨SurfaceType.Slider, channel⟩

/-- The macro `KNOB(__channel)`. -/
def KNOB (channel : Int) : ControlSurface := ⟨SurfaceType.RotaryKnob, channel⟩

/-- The type `std::map<std::string, ControlSurface>`, as the list of its entries;
`find` is `List.lookup`. -/
abbrev ControlSurfaceMap := List (List Char × ControlSurface)

/-- The table `controlMap_Korg_nanoKONTROL2`. -/
def controlMap_Korg_nanoKONTROL2 : ControlSurfaceMap :=
  [ ("rewind".toList, BUTTON 43),
    ("fwd".toList, BUTTON 44),
    ("stop".toList, BUTTON 42),
    ("play".toList, BUTTON 41),
    ("rec".toList, BUTTON 45),
    ("cycle".toList, BUTTON 46),
    ("marker_set".toList, BUTTON 60),
    ("marker_prev".toList, BUTTON 61),
    ("marker_next".toList, BUTTON 62),
    ("track_prev".toList, BUTTON 58),
    ("track_next".toList, BUTTON 59),
    ("S0".toList, BUTTON 32),
    ("S1".toList, BUTTON 33),
    ("S2".toList, BUTTON 34),
    ("S3".toList, BUTTON 35),
    ("S4".toList, BUTTON 36),
    ("S5".toList, BUTTON 37),
    ("S6".toList, BUTTON 38),
    ("S7".toList, BUTTON 39),
    ("M0".toList, BUTTON 48),
    ("M1".toList, BUTTON 49),
    ("M2".toList, BUTTON 50),
    ("M3".toList, BUTTON 51),
    ("M4".toList, BUTTON 52),
    ("M5".toList, BUTTON 53),
    ("M6".toList, BUTTON 54),
    ("M7".toList, BUTTON 55),
    ("R0".toList, BUTTON 64),
    ("R1".toList, BUTTON 65),
    ("R2".toList, BUTTON 66),
    ("R3".toList, BUTTON 67),
    ("R4".toList, BUTTON 68),
    ("R5".toList, BUTTON 69),
    ("R6".toList, BUTTON 70),
    ("R7".toList, BUTTON 71),
    ("sl0".toList, SLIDER 0),
    ("sl1".toList, SLIDER 1),
    ("sl2".toList, SLIDER 2),
    ("sl3".toList, SLIDER 3),
    ("sl4".toList, SLIDER 4),
    ("sl5".toList, SLIDER 5),
    ("sl6".toList, SLIDER 6),
    ("sl7".toList, SLIDER 7),
    ("kn0".toList, KNOB 16),
    ("kn1".toList, KNOB 17),
    ("kn2".toList, KNOB 18),
    ("kn3".toList, KNOB 19),
    ("kn4".toList, KNOB 20),
    ("kn5".toList, KNOB 21),
    ("kn6".toList, KNOB 22),
    ("kn7".toList, KNOB 23) ]

/-- The catalog `controlSurfaces`: profile name to control map. -/
def controlSurfaces : List (List Char × ControlSurfaceMap) :=
  [ ("nanoKONTROL2".toList, controlMap_Korg_nanoKONTROL2) ]

/-- The function `setControlSurfaceType(name)`, on the global pointer
`controlSurfaceMap` (`none` is `nullptr`): the return value and the pointer
after the call. -/
def setControlSurfaceType (controlSurfaceMap : Option ControlSurfaceMap) (name : List Char) :
    Bool × Option ControlSurfaceMap :=
  match controlSurfaces.lookup name with
  | none => (false, controlSurfaceMap)
  | some m => (true, some m)

/-- The function `mapControl(out, name)`.  The body starts with
`controlSurfaceMap->find(name)`: with the pointer still `nullptr` the call is
undefined (`none`).  Otherwise `some none` is the return value `false` and
`some (some s)` the return value `true` with `out = s`. -/
def mapControl (controlSurfaceMap : Option ControlSurfaceMap) (name : List Char) :
    Option (Option ControlSurface) :=
  match controlSurfaceMap with
  | none => none
  | some m => some (m.lookup name)

/-! ## tokenize -/

/-- The tokenizer works on one buffer and keeps the cursor `next` (the
`static char* next` of `tokenize`) between calls. -/
structure TokState where
  buf : List Char
  next : Nat
  deriving DecidableEq, Repr

/-- The first loop of `tokenize`: advance `next` while it points at a delimiter.
The argument list is the memory from `next` on. -/
def skipDelimiters (delims : List Char) : List Char → Nat → Option Nat
  | [], _ => none
  | c :: rest, next =>
      if c = NUL then some next
      else if c ∈ delims then skipDelimiters delims rest (next + 1)
      else some next

/-- The second loop of `tokenize`: advance `next` to the first delimiter (result
`(next, true)`: the loop then writes `0` there and steps over it) or to the
terminator (result `(next, false)`). -/
def scanToken (delims : List Char) : List Char → Nat → Option (Nat × Bool)
  | [], _ => none
  | c :: rest, next =>
      if c = NUL then some (next, false)
      else if c ∈ delims then some (next, true)
      else scanToken delims rest (next + 1)

/-- The function `tokenize(str, delimiters)`: `str = some p` restarts the cursor at
`p`, `str = none` (a null `str`) continues from the saved cursor.  The result is
the returned pointer (`none` for `NULL`) and the buffer and cursor afterwards. -/
def tokenize (st : TokState) (str : Option Nat) (delims : List Char) :
    Option (Option Nat × TokState) :=
  let next := match str with
    | some p => p
    | none => st.next
  match skipDelimiters delims (st.buf.drop next) next with
  | none => none
  | some n1 =>
    match st.buf.get? n1 with
    | none => none
    | some c =>
      if c = NUL then some (none, { buf := st.buf, next := n1 })
      else
        let n2 := if c = DQUOTE then n1 + 1 else n1
        let delims2 := if c = DQUOTE then quoteDelimiters else delims
        match scanToken delims2 (st.buf.drop n2) n2 with
        | none => none
        | some (n3, true) => some (some n2, { buf := st.buf.set n3 NUL, next := n3 + 1 })
        | some (n3, false) => some (some n2, { buf := st.buf, next := n3 })

/-- Repeated calls `tokenize(line, d)`, `tokenize(NULL, d)`, ... until `NULL` comes
back: the token strings in order, each read right after the call that returned it.
The result is `none` when a call is undefined or when `fuel` calls have not
produced the final `NULL`. -/
def tokensLoop (delims : List Char) : Nat → TokState → Option Nat → Option (List (List Char))
  | 0, _, _ => none
  | fuel + 1, st, str =>
    match tokenize st str delims with
    | none => none
    | some (none, _) => some []
    | some (some p, st1) =>
      match cstrAt st1.buf p with
      | none => none
      | some tok => (tokensLoop delims fuel st1 none).map (fun toks => tok :: toks)

/-- All tokens of a line held in a buffer as a C string (`line`, then the
terminator); `line.length + 1` calls are enough for every line. -/
def tokens (line : List Char) : Option (List (List Char)) :=
  tokensLoop delimiters (line.length + 1) { buf := line ++ [NUL], next := 0 } (some 0)

/-! ## Library functions used by the parser -/

/-- The C function `isspace` in the "C" locale: space and the characters 9 to 13. -/
def isspace (c : Char) : Bool :=
  decide (c.toNat = 32) || (decide (9 ≤ c.toNat) && decide (c.toNat ≤ 13))

/-- The C function `isdigit`. -/
def isdigit (c : Char) : Bool :=
  decide (48 ≤ c.toNat) && decide (c.toNat ≤ 57)

/-- The number of value bits of `long`: the Linux build (LP64) is modelled. -/
def LONG_BITS : Nat := 64

/-- Saturation of `strtol` at `LONG_MIN` and `LONG_MAX`. -/
def clampLong (v : Int) : Int :=
  if v < -(2 : Int) ^ (LONG_BITS - 1) then -(2 : Int) ^ (LONG_BITS - 1)
  else if (2 : Int) ^ (LONG_BITS - 1) - 1 < v then (2 : Int) ^ (LONG_BITS - 1) - 1
  else v

/-- Conversion of a `long` to the 32-bit `int` it is assigned to (reduction modulo
`2^32` into the signed range). -/
def toInt32 (v : Int) : Int :=
  (v + 2 ^ 31) % 2 ^ 32 - 2 ^ 31

/-- The value of a run of decimal digits. -/
def digitsValue (ds : List Char) : Nat :=
  ds.foldl (fun acc c => 10 * acc + (c.toNat - 48)) 0

/-- The call `strtol(s, &endptr, 10)` on the C string `s`: the returned value and
`endptr - s`.  Leading white space and one sign are skipped; without a digit
nothing is converted (`0`, `endptr = s`). -/
def strtol (s : List Char) : Int × Nat :=
  let ws := s.takeWhile isspace
  let s1 := s.dropWhile isspace
  let neg := decide (s1.head? = some (Char.ofNat 45))
  let signLen := if s1.head? = some (Char.ofNat 45) ∨ s1.head? = some (Char.ofNat 43) then 1 else 0
  let ds := (s1.drop signLen).takeWhile isdigit
  if ds = [] then (0, 0)
  else
    let v : Int := if neg then -(digitsValue ds : Int) else (digitsValue ds : Int)
    (clampLong v, ws.length + signLen + ds.length)

/-- The call `atoi(s)`, which is `(int) strtol(s, NULL, 10)`. -/
def atoi (s : List Char) : Int :=
  toInt32 (strtol s).1

/-- The `float` operations the program uses, taken as a parameter: conversion
of an integer (`(float)midiValue` and the literals `0.f`, `1.f`, `127.f`), the
four operations, the comparison behind `std::min` and `std::max`,
`float(atof(s))` and the text `printf("%.3f", x)` produces (which holds no `NUL`). -/
structure FloatArith where
  F : Type
  ofNat : Nat → F
  add : F → F → F
  sub : F → F → F
  mul : F → F → F
  div : F → F → F
  lt : F → F → Bool
  atof : List Char → F
  fmt3 : F → List Char
  fmt3_noNUL : ∀ x, NUL ∉ fmt3 x

/-- The template `std::max(a, b)`: `(a < b) ? b : a`. -/
def FloatArith.max (A : FloatArith) (a b : A.F) : A.F :=
  if A.lt a b then b else a

/-- The template `std::min(a, b)`: `(b < a) ? b : a`. -/
def FloatArith.min (A : FloatArith) (a b : A.F) : A.F :=
  if A.lt b a then b else a

/-! ## The configuration -/

/-- The struct `KnobMapping`. -/
structure KnobMapping (F : Type) where
  name : List Char
  min_value : F
  max_value : F

/-- The struct `KorgiConfig`. -/
structure KorgiConfig (F : Type) where
  address : List Char
  port : Int
  password : List Char
  device : Int
  device_name : List Char
  buttons : Int → Option (List Char)
  knobs : Int → Option (KnobMapping F)

/-- The initial value of `g_config`: the default member initialisers of
`KorgiConfig`. -/
def g_config_init (F : Type) : KorgiConfig F :=
  { address := "127.0.0.1".toList
    port := 27910
    password := []
    device := 0
    device_name := "nanoKONTROL2".toList
    buttons := fun _ => none
    knobs := fun _ => none }

/-- The assignment `m[key] = value` on an `unordered_map<int, T>`. -/
def assign {T : Type} (m : Int → Option T) (key : Int) (value : T) : Int → Option T :=
  fun k => if k = key then some value else m k

/-! ## ReadConfigFile -/

/-- The size of `linebuf`. -/
def LINEBUF_SIZE : Nat := 256

/-- The successive strings that `fgets(linebuf, sizeof(linebuf), file)` delivers
for a file with content `text`: each holds at most `limit = sizeof(linebuf) - 1`
characters and ends after the first line feed.  `cur` is the string being read, in
reverse. -/
def fgetsChunks (limit : Nat) : List Char → List Char → List (List Char)
  | [], cur => if cur = [] then [] else [cur.reverse]
  | c :: rest, cur =>
      if c = LF ∨ cur.length + 1 = limit then (c :: cur).reverse :: fgetsChunks limit rest []
      else fgetsChunks limit rest (c :: cur)

/-- The texts of the messages written to `stderr`. -/
inductive Diag where
  | cannotOpen
  | insufficient (directive : List Char)
  | unsupportedSurface (name : List Char)
  | invalidChannel (what : List Char) (token : List Char)
  | wrongKind (token : List Char) (what : List Char)
  | unknownDirective (directive : List Char)
  | passwordNotSpecified
  deriving DecidableEq, Repr

/-- One message on `stderr`, with the line number it carries, if any. -/
structure Diagnostic where
  lineno : Option Nat
  diag : Diag
  deriving DecidableEq, Repr

/-- The variables of `ReadConfigFile` that live across loop iterations, together
with the global `controlSurfaceMap` and the output on `stderr`. -/
structure ParseState (F : Type) where
  new_config : KorgiConfig F
  controlSurfaceMap : Option ControlSurfaceMap
  linebuf : List Char
  success : Bool
  lineno : Nat
  stderr : List Diagnostic

/-- The three statements `fprintf(stderr, ...); success = false; continue;`. -/
def ParseState.fail {F : Type} (st : ParseState F) (d : Diag) : ParseState F :=
  { st with success := false, stderr := st.stderr ++ [⟨some st.lineno, d⟩] }

/-- The branch `connect`. -/
def directiveConnect {F : Type} (st : ParseState F) (t1 : TokState) : Option (ParseState F) :=
  match tokenize t1 none delimiters with
  | none => none
  | some (addr, t2) =>
    match tokenize t2 none delimiters with
    | none => none
    | some (port, t3) =>
      let st3 := { st with linebuf := t3.buf }
      match addr with
      | none => some (st3.fail (Diag.insufficient "connect".toList))
      | some a =>
        match cstrAt t3.buf a with
        | none => none
        | some addrS =>
          match port with
          | none => some { st3 with new_config := { st3.new_config with address := addrS } }
          | some p =>
            match cstrAt t3.buf p with
            | none => none
            | some portS =>
              some { st3 with
                new_config := { st3.new_config with address := addrS, port := atoi portS } }

/-- The branch `password`. -/
def directivePassword {F : Type} (st : ParseState F) (t1 : TokState) : Option (ParseState F) :=
  match tokenize t1 none delimiters with
  | none => none
  | some (password, t2) =>
    let st2 := { st with linebuf := t2.buf }
    match password with
    | none => some (st2.fail (Diag.insufficient "password".toList))
    | some p =>
      match cstrAt t2.buf p with
      | none => none
      | some s => some { st2 with new_config := { st2.new_config with password := s } }

/-- The branch `device`. -/
def directiveDevice {F : Type} (st : ParseState F) (t1 : TokState) : Option (ParseState F) :=
  match tokenize t1 none delimiters with
  | none => none
  | some (device, t2) =>
    let st2 := { st with linebuf := t2.buf }
    match device with
    | none => some (st2.fail (Diag.insufficient "device".toList))
    | some p =>
      match cstrAt t2.buf p with
      | none => none
      | some s => some { st2 with new_config := { st2.new_config with device := atoi s } }

/-- The branch `device_name`. -/
def directiveDeviceName {F : Type} (st : ParseState F) (t1 : TokState) : Option (ParseState F) :=
  match tokenize t1 none delimiters with
  | none => none
  | some (device_name, t2) =>
    let st2 := { st with linebuf := t2.buf }
    match device_name with
    | none => some (st2.fail (Diag.insufficient "device_name".toList))
    | some p =>
      match cstrAt t2.buf p with
      | none => none
      | some s => some { st2 with new_config := { st2.new_config with device_name := s } }

/-- The branch `device_map`. -/
def directiveDeviceMap {F : Type} (st : ParseState F) (t1 : TokState) : Option (ParseState F) :=
  match tokenize t1 none delimiters with
  | none => none
  | some (device_map, t2) =>
    let st2 := { st with linebuf := t2.buf }
    match device_map with
    | none => some (st2.fail (Diag.insufficient "device_map".toList))
    | some p =>
      match cstrAt t2.buf p with
      | none => none
      | some s =>
        match setControlSurfaceType st2.controlSurfaceMap s with
        | (false, csm) =>
            some ({ st2 with controlSurfaceMap := csm }.fail (Diag.unsupportedSurface s))
        | (true, csm) => some { st2 with controlSurfaceMap := csm }

/-- The branch `button`.  The pointer `command` is computed as
`channel + strlen(channel) + 1` before `channel` is tested, so a missing channel
token is a `strlen` of the null pointer; `*command` and the string at `command`
are read from the buffer at that index. -/
def directiveButton {F : Type} (st : ParseState F) (t1 : TokState) : Option (ParseState F) :=
  match tokenize t1 none delimiters with
  | none => none
  | some (channel, t2) =>
    let st2 := { st with linebuf := t2.buf }
    match channel with
    | none => none
    | some ch =>
      match cstrAt t2.buf ch with
      | none => none
      | some chS =>
        let command := ch + chS.length + 1
        match t2.buf.get? command with
        | none => none
        | some c0 =>
          if c0 = NUL then some (st2.fail (Diag.insufficient "button".toList))
          else if (strtol chS).2 ≠ chS.length then
            match mapControl st2.controlSurfaceMap chS with
            | none => none
            | some none => some (st2.fail (Diag.invalidChannel "button".toList chS))
            | some (some surf) =>
              if surf.type ≠ SurfaceType.Button then
                some (st2.fail (Diag.wrongKind chS "button".toList))
              else
                match cstrAt t2.buf command with
                | none => none
                | some cmdS =>
                  some { st2 with new_config := { st2.new_config with
                    buttons := assign st2.new_config.buttons surf.channel cmdS } }
          else
            match cstrAt t2.buf command with
            | none => none
            | some cmdS =>
              some { st2 with new_config := { st2.new_config with
                buttons := assign st2.new_config.buttons (toInt32 (strtol chS).1) cmdS } }

/-- The branch `knob` / `slider`; `what` is the directive token (`command`). -/
def directiveKnob (A : FloatArith) (st : ParseState A.F) (t1 : TokState) (what : List Char) :
    Option (ParseState A.F) :=
  let isKnob := decide (what = "knob".toList)
  match tokenize t1 none delimiters with
  | none => none
  | some (channel, t2) =>
  match tokenize t2 none delimiters with
  | none => none
  | some (cvar, t3) =>
  match tokenize t3 none delimiters with
  | none => none
  | some (vmin, t4) =>
  match tokenize t4 none delimiters with
  | none => none
  | some (vmax, t5) =>
    let st5 := { st with linebuf := t5.buf }
    match channel, cvar, vmin, vmax with
    | some ch, some cv, some mn, some mx =>
      match cstrAt t5.buf cv, cstrAt t5.buf mn, cstrAt t5.buf mx, cstrAt t5.buf ch with
      | some cvS, some mnS, some mxS, some chS =>
        let mapping : KnobMapping A.F :=
          { name := cvS, min_value := A.atof mnS, max_value := A.atof mxS }
        if (strtol chS).2 ≠ chS.length then
          match mapControl st5.controlSurfaceMap chS with
          | none => none
          | some none => some (st5.fail (Diag.invalidChannel what chS))
          | some (some surf) =>
            if (isKnob && decide (surf.type ≠ SurfaceType.RotaryKnob)) ||
                (!isKnob && decide (surf.type ≠ SurfaceType.Slider)) then
              some (st5.fail (Diag.wrongKind chS what))
            else
              some { st5 with new_config := { st5.new_config with
                knobs := assign st5.new_config.knobs surf.channel mapping } }
        else
          some { st5 with new_config := { st5.new_config with
            knobs := assign st5.new_config.knobs (toInt32 (strtol chS).1) mapping } }
      | _, _, _, _ => none
    | _, _, _, _ => some (st5.fail (Diag.insufficient what))

/-- The body of the loop from the first `tokenize` call on: the dispatch on the
directive token.  `st` holds the line number of the line, `buf` is `linebuf` after
the comment and the line feed have been cut off. -/
def dispatchLine (A : FloatArith) (st : ParseState A.F) (buf : List Char) :
    Option (ParseState A.F) :=
  match tokenize { buf := buf, next := 0 } (some 0) delimiters with
  | none => none
  | some (none, t1) => some { st with linebuf := t1.buf }
  | some (some cmd, t1) =>
    match cstrAt t1.buf cmd with
    | none => none
    | some command =>
      if command = "connect".toList then directiveConnect st t1
      else if command = "password".toList then directivePassword st t1
      else if command = "device".toList then directiveDevice st t1
      else if command = "device_name".toList then directiveDeviceName st t1
      else if command = "device_map".toList then directiveDeviceMap st t1
      else if command = "button".toList then directiveButton st t1
      else if command = "knob".toList ∨ command = "slider".toList then
        directiveKnob A st t1 command
      else some ({ st with linebuf := t1.buf }.fail (Diag.unknownDirective command))

/-- One iteration of the `while (fgets(...))` loop, for the string `chunk` that
`fgets` has just delivered: `fgets` stores it and a terminator at the start of
`linebuf` and leaves the rest of the buffer as it was; the line number is
incremented, the comment and the line feed are cut off, and the line is
dispatched. -/
def processLine (A : FloatArith) (st : ParseState A.F) (chunk : List Char) :
    Option (ParseState A.F) :=
  let buf0 := chunk ++ NUL :: st.linebuf.drop (chunk.length + 1)
  let st0 := { st with lineno := st.lineno + 1 }
  match cutAt HASH buf0 with
  | none => none
  | some buf1 =>
    match cutAt LF buf1 with
    | none => none
    | some buf2 => dispatchLine A st0 buf2

/-- The `while (fgets(...))` loop over the strings `fgets` delivers. -/
def processLines (A : FloatArith) : ParseState A.F → List (List Char) → Option (ParseState A.F)
  | st, [] => some st
  | st, chunk :: rest =>
    match processLine A st chunk with
    | none => none
    | some st1 => processLines A st1 rest

/-- What a call of `ReadConfigFile` leaves behind: the return value, the globals
`g_config` and `controlSurfaceMap`, the local `new_config` at the end of the call
and the output on `stderr`. -/
structure ReadResult (F : Type) where
  ret : Bool
  g_config : KorgiConfig F
  controlSurfaceMap : Option ControlSurfaceMap
  new_config : KorgiConfig F
  stderr : List Diagnostic

/-- The part of `ReadConfigFile` after the loop: the password check, the commit
and the return. -/
def finishRead {F : Type} (g_config : KorgiConfig F) (st : ParseState F) : ReadResult F :=
  let noPassword := decide (st.new_config.password.length = 0)
  let success := st.success && !noPassword
  { ret := success
    g_config := if success then st.new_config else g_config
    controlSurfaceMap := st.controlSurfaceMap
    new_config := st.new_config
    stderr := if noPassword then st.stderr ++ [⟨none, Diag.passwordNotSpecified⟩] else st.stderr }

/-- The function `ReadConfigFile`, as a function of the globals `g_config` and
`controlSurfaceMap`, of the bytes `stack` that `linebuf` holds on entry and of the
file (`none` when `fopen` fails, else its content). -/
def ReadConfigFile (A : FloatArith) (g_config : KorgiConfig A.F)
    (controlSurfaceMap : Option ControlSurfaceMap) (stack : List Char)
    (file : Option (List Char)) : Option (ReadResult A.F) :=
  match file with
  | none =>
    some { ret := false, g_config := g_config, controlSurfaceMap := controlSurfaceMap,
           new_config := g_config, stderr := [⟨none, Diag.cannotOpen⟩] }
  | some text =>
    let st0 : ParseState A.F :=
      { new_config := g_config, controlSurfaceMap := controlSurfaceMap, linebuf := stack,
        success := true, lineno := 0, stderr := [] }
    match processLines A st0 (fgetsChunks (LINEBUF_SIZE - 1) text []) with
    | none => none
    | some st => some (finishRead g_config st)

/-! ## HandleMidiInput -/

/-- The size of the arrays `command` and `udp_message`. -/
def COMMAND_SIZE : Nat := 256

/-- A `strcpy` or `sprintf` of the text `s` into a `char[256]`: the text and its
terminator have to fit. -/
def writeBuffer (s : List Char) : Option (List Char) :=
  if s.length < COMMAND_SIZE then some s else none

/-- The value `fvalue` of `HandleMidiInput`: `(float)midiValue / 127.f`, clamped
by `max(0.f, min(1.f, fvalue))`. -/
def normalize (A : FloatArith) (midiValue : Nat) : A.F :=
  A.max (A.ofNat 0) (A.min (A.ofNat 1) (A.div (A.ofNat midiValue) (A.ofNat 127)))

/-- The value `variable_value` of `HandleMidiInput`. -/
def interpolate (A : FloatArith) (k : KnobMapping A.F) (midiValue : Nat) : A.F :=
  A.add (A.mul k.min_value (A.sub (A.ofNat 1) (normalize A midiValue)))
    (A.mul k.max_value (normalize A midiValue))

/-- Lines 140 to 168 of `HandleMidiInput`: the content of the array `command`
when the `if (*command)` test is reached; the empty text means that no command
is emitted.  The arguments are `unsigned char`. -/
def resolveCommand (A : FloatArith) (g_config : KorgiConfig A.F) (midiChannel midiValue : Nat) :
    Option (List Char) :=
  let channel : Int := ((midiChannel % 256 : Nat) : Int)
  let value := midiValue % 256
  match g_config.buttons channel with
  | some button =>
    if 0 < value then writeBuffer (c_str button) else some []
  | none =>
    match g_config.knobs channel with
    | some knob =>
      writeBuffer (c_str knob.name ++ Char.ofNat 32 :: A.fmt3 (interpolate A knob value))
    | none => some []

/-- The text `"\xff\xff\xff\xffrcon %s %s"` formatted with a password and a
command. -/
def rconMessage (password command : List Char) : List Char :=
  List.replicate 4 (Char.ofNat 255) ++ "rcon ".toList ++ c_str password ++
    Char.ofNat 32 :: command

/-- The function `HandleMidiInput`, as a function of `g_config` and the event: the
bytes handed to `sendto` (`strlen(udp_message) + 1` bytes of `udp_message`), or
`some none` when nothing is sent. -/
def HandleMidiInput (A : FloatArith) (g_config : KorgiConfig A.F) (midiChannel midiValue : Nat) :
    Option (Option (List Char)) :=
  match resolveCommand A g_config midiChannel midiValue with
  | none => none
  | some command =>
    if command = [] then some none
    else
      match writeBuffer (rconMessage g_config.password command) with
      | none => none
      | some udp_message => some (some (c_str udp_message ++ [NUL]))

/-! ## Exact arithmetic -/

/-- The decimal digit character of `d % 10`. -/
def digitChar (d : Nat) : Char := Char.ofNat (48 + d % 10)

/-- The decimal digits of `n`, most significant first (`fuel` bounds their
number). -/
def decimalDigits : Nat → Nat → List Char
  | 0, _ => []
  | fuel + 1, n =>
      if n < 10 then [digitChar n] else decimalDigits fuel (n / 10) ++ [digitChar n]

/-- The decimal text of a natural number. -/
def natText (n : Nat) : List Char := decimalDigits (n + 1) n

/-- The number of thousandths nearest to the non-negative rational `a`, a tie
going to the even neighbour. -/
def roundThousandths (a : ℚ) : Nat :=
  let scaled := a * 1000
  let fl := scaled.floor.toNat
  let frac := scaled - (fl : ℚ)
  if frac < 1 / 2 then fl
  else if 1 / 2 < frac then fl + 1
  else if fl % 2 = 0 then fl else fl + 1

/-- The conversion `%.3f` of an exact rational: sign, integer part, point and
three decimals. -/
def fmt3Exact (q : ℚ) : List Char :=
  let r := roundThousandths |q|
  (if q < 0 then [Char.ofNat 45] else []) ++ natText (r / 1000) ++
    [Char.ofNat 46, digitChar (r / 100), digitChar (r / 10), digitChar r]

/-- The decimal part of the grammar of `atof`, read exactly: white space, a sign,
digits with an optional point, an optional exponent.  A text with no digit gives
`0`. -/
def atofExact (s : List Char) : ℚ :=
  let s1 := s.dropWhile isspace
  let neg := decide (s1.head? = some (Char.ofNat 45))
  let signLen := if s1.head? = some (Char.ofNat 45) ∨ s1.head? = some (Char.ofNat 43) then 1 else 0
  let s2 := s1.drop signLen
  let ip := s2.takeWhile isdigit
  let s3 := s2.dropWhile isdigit
  let hasPoint := decide (s3.head? = some (Char.ofNat 46))
  let fp := if hasPoint then (s3.drop 1).takeWhile isdigit else []
  let s4 := if hasPoint then (s3.drop 1).dropWhile isdigit else s3
  if ip = [] ∧ fp = [] then 0
  else
    let mant : ℚ := (digitsValue (ip ++ fp) : ℚ) / 10 ^ fp.length
    let hasE := decide (s4.head? = some (Char.ofNat 101) ∨ s4.head? = some (Char.ofNat 69))
    let s5 := s4.drop 1
    let eneg := decide (s5.head? = some (Char.ofNat 45))
    let esl := if s5.head? = some (Char.ofNat 45) ∨ s5.head? = some (Char.ofNat 43) then 1 else 0
    let ed := (s5.drop esl).takeWhile isdigit
    let scale : ℚ :=
      if hasE ∧ ed ≠ [] then (if eneg then 1 / 10 ^ digitsValue ed else 10 ^ digitsValue ed)
      else 1
    (if neg then -mant else mant) * scale

/-- Exact rational arithmetic in place of `float`. -/
def exactArith : FloatArith where
  F := ℚ
  ofNat := fun n => (n : ℚ)
  add := fun a b => a + b
  sub := fun a b => a - b
  mul := fun a b => a * b
  div := fun a b => a / b
  lt := fun a b => decide (a < b)
  atof := atofExact
  fmt3 := fmt3Exact
  fmt3_noNUL := by
    intro q
    have hd : ∀ d, NUL ≠ digitChar d := by
      intro d
      have h : ∀ k, k < 10 → NUL ≠ Char.ofNat (48 + k) := by decide
      exact h (d % 10) (Nat.mod_lt _ (by norm_num))
    have hdd : ∀ fuel n, NUL ∉ decimalDigits fuel n := by
      intro fuel
      induction fuel with
      | zero => intro n; simp [decimalDigits]
      | succ k ih =>
        intro n
        unfold decimalDigits
        split
        · simpa using hd n
        · simp only [List.mem_append, List.mem_singleton, not_or]
          exact ⟨ih _, hd n⟩
    have h45 : NUL ≠ Char.ofNat 45 := by decide
    have h46 : NUL ≠ Char.ofNat 46 := by decide
    unfold fmt3Exact
    simp only [List.mem_append, List.mem_cons, not_or, List.not_mem_nil, or_false]
    refine ⟨⟨?_, hdd _ _⟩, h46, hd _, hd _, hd _⟩
    split
    · simpa using h45
    · simp

/-! ## The tokenizer as the specification words it -/

/-- Where the reading of a line stands: between tokens, inside an unquoted token
or inside a quoted token (with the characters of the token read so far, in
reverse). -/
inductive LexMode where
  | between
  | word (acc : List Char)
  | quoted (acc : List Char)

/-- The token sequence of a line as section 4.2 of the specification describes
it, read character by character: delimiters between tokens are skipped; a
double-quote that starts a token opens a quoted token, which ends before the next
double-quote (delimiters are kept, the quotes are dropped) or at the end of the
line; any other character starts a token that runs to the next delimiter or to
the end of the line. -/
def specTokensFrom : LexMode → List Char → List (List Char)
  | LexMode.between, [] => []
  | LexMode.word acc, [] => [acc.reverse]
  | LexMode.quoted acc, [] => [acc.reverse]
  | LexMode.between, c :: r =>
      if c ∈ delimiters then specTokensFrom LexMode.between r
      else if c = DQUOTE then specTokensFrom (LexMode.quoted []) r
      else specTokensFrom (LexMode.word [c]) r
  | LexMode.word acc, c :: r =>
      if c ∈ delimiters then acc.reverse :: specTokensFrom LexMode.between r
      else specTokensFrom (LexMode.word (c :: acc)) r
  | LexMode.quoted acc, c :: r =>
      if c = DQUOTE then acc.reverse :: specTokensFrom LexMode.between r
      else specTokensFrom (LexMode.quoted (c :: acc)) r

/-- The token sequence of a line according to the specification. -/
def specTokens (line : List Char) : List (List Char) :=
  specTokensFrom LexMode.between line

/-! ## Vocabulary of the theorems -/

/-- The effect of one loop iteration of `ReadConfigFile` on the error state:
either the flag `success` and `stderr` are as before (the line is accepted or
blank), or the flag is cleared and exactly one message, carrying the line number
`lineno`, is appended (the line fails). -/
def StepEffect {F : Type} (lineno : Nat) (st st1 : ParseState F) : Prop :=
  st1.lineno = lineno ∧
  ((st1.success = st.success ∧ st1.stderr = st.stderr) ∨
   (st1.success = false ∧ ∃ d, st1.stderr = st.stderr ++ [⟨some lineno, d⟩]))

/-- The configuration file of the overflow example: a password of 240
characters and one button. -/
def longPasswordFile : List Char :=
  "password ".toList ++ List.replicate 240 (Char.ofNat 97) ++
    "\nbutton 41 say hello\n".toList

/-- The space character that separates the tokens of the example lines. -/
def SP : Char := Char.ofNat 32

/-- A plain token: not empty, not starting with a double-quote, and free of
`NUL`, of the comment character and of delimiters. -/
def isWord (w : List Char) : Bool :=
  !w.isEmpty && decide (w.head? ≠ some DQUOTE) &&
    w.all (fun c => decide (c ≠ NUL) && decide (c ≠ HASH) && decide (c ∉ delimiters))

/-- A command text: not empty and free of `NUL`, of the comment character and of
line feeds (it may hold spaces, also in first place). -/
def isCommandText (cmd : List Char) : Bool :=
  !cmd.isEmpty && cmd.all (fun c => decide (c ≠ NUL) && decide (c ≠ HASH) && decide (c ≠ LF))

/-- The line `button <channel> <cmd>`. -/
def buttonLine (channel cmd : List Char) : List Char :=
  "button".toList ++ SP :: (channel ++ SP :: cmd)

/-- The line `<what> <channel> <cvar> <min> <max>`, for `what` one of `knob` and
`slider`. -/
def knobLine (what channel cvar vmin vmax : List Char) : List Char :=
  what ++ SP :: (channel ++ SP :: (cvar ++ SP :: (vmin ++ SP :: vmax)))

/-- A line is accepted when it leaves the flag `success` and `stderr` as they
were. -/
def LineAccepted {F : Type} (st st1 : ParseState F) : Prop :=
  st1.success = st.success ∧ st1.stderr = st.stderr

/-- A line is rejected with the message `d` when it clears the flag `success`,
appends `d` with the number of the line to `stderr` and leaves the working
configuration as it was. -/
def LineRejected {F : Type} (st st1 : ParseState F) (d : Diag) : Prop :=
  st1.success = false ∧ st1.stderr = st.stderr ++ [⟨some (st.lineno + 1), d⟩] ∧
    st1.new_config = st.new_config

/-- Every command in `buttons` is a non-empty C string that fits the array
`command` of `HandleMidiInput` together with its terminator. -/
def ButtonsWellFormed {F : Type} (cfg : KorgiConfig F) : Prop :=
  ∀ k v, cfg.buttons k = some v → v ≠ [] ∧ NUL ∉ v ∧ v.length < COMMAND_SIZE

/-- What a directive other than `button` leaves behind: a buffer of the same length
and the same `buttons`. -/
def KeepsButtons {F : Type} (n : Nat) (st st1 : ParseState F) : Prop :=
  st1.linebuf.length = n ∧ st1.new_config.buttons = st.new_config.buttons

/-- The configurations `g_config` can hold: the initial one and every one left
behind by a completed call of `ReadConfigFile` (on a 256-byte line buffer of any
content) from a configuration it can hold. -/
inductive Reachable (A : FloatArith) : KorgiConfig A.F → Prop where
  | init : Reachable A (g_config_init A.F)
  | read (g_config : KorgiConfig A.F) (controlSurfaceMap : Option ControlSurfaceMap)
      (stack : List Char) (file : Option (List Char)) (r : ReadResult A.F) :
      Reachable A g_config → stack.length = LINEBUF_SIZE →
      ReadConfigFile A g_config controlSurfaceMap stack file = some r →
      Reachable A r.g_config

/-- The loop state of the examples: the initial configuration as working copy,
the profile `nanoKONTROL2` active, a zeroed line buffer, no line read yet. -/
def exampleState : ParseState ℚ :=
  { new_config := g_config_init ℚ
    controlSurfaceMap := some controlMap_Korg_nanoKONTROL2
    linebuf := List.replicate 256 NUL
    success := true
    lineno := 0
    stderr := [] }

/-- The value `variable_value` of `HandleMidiInput` over exact arithmetic, as a
rational number. -/
def interpolateExact (k : KnobMapping ℚ) (midiValue : Nat) : ℚ :=
  interpolate exactArith k midiValue

/-! ## Vocabulary of the theorems on lines and files -/

/-- The text of a line as the parser sees it: the characters that `fgets`
delivered, up to the first terminator, comment character or line feed. -/
def lineText (chunk : List Char) : List Char :=
  chunk.takeWhile (fun c => decide (c ≠ NUL) && decide (c ≠ HASH) && decide (c ≠ LF))

/-- The tokenizer stands at its cursor with the text `rest` left to read: the
buffer holds `rest` and a terminator at the cursor. -/
def AtRest (st : TokState) (rest : List Char) : Prop :=
  NUL ∉ rest ∧ ∃ done z, st.buf = done ++ (rest ++ NUL :: z) ∧ st.next = done.length

/-- Two runs treat a value alike: both keep it, or both replace it by the same
value. -/
def KeptOrSame {T : Type} (a b a1 b1 : T) : Prop :=
  (a1 = a ∧ b1 = b) ∨ a1 = b1

/-- Two runs treat a configuration alike, member by member and key by key. -/
def ConfigSim {F : Type} (a b a1 b1 : KorgiConfig F) : Prop :=
  KeptOrSame a.address b.address a1.address b1.address ∧
  KeptOrSame a.port b.port a1.port b1.port ∧
  KeptOrSame a.password b.password a1.password b1.password ∧
  KeptOrSame a.device b.device a1.device b1.device ∧
  KeptOrSame a.device_name b.device_name a1.device_name b1.device_name ∧
  (∀ k, KeptOrSame (a.buttons k) (b.buttons k) (a1.buttons k) (b1.buttons k)) ∧
  (∀ k, KeptOrSame (a.knobs k) (b.knobs k) (a1.knobs k) (b1.knobs k))

/-- The active profiles of two runs, the second of which started with the
profile `cfin`: they are the same, or the first run has none and the second
still has `cfin`. -/
def CsmRel (cfin c c' : Option ControlSurfaceMap) : Prop :=
  c = c' ∨ (c = none ∧ c' = cfin)

/-- The loop states of two runs agree on everything but the working
configuration, up to `CsmRel`. -/
def StateSim {F : Type} (cfin : Option ControlSurfaceMap) (st st' : ParseState F) : Prop :=
  CsmRel cfin st.controlSurfaceMap st'.controlSurfaceMap ∧ st.success = st'.success ∧
    st.lineno = st'.lineno ∧ st.stderr = st'.stderr

/-- What a step of two runs in agreement leaves behind: states in agreement, the
same line buffer, and configurations treated alike. -/
def StepSim {F : Type} (cfin : Option ControlSurfaceMap) (st st' st1 st1' : ParseState F) :
    Prop :=
  StateSim cfin st1 st1' ∧ st1.linebuf = st1'.linebuf ∧
    ConfigSim st.new_config st'.new_config st1.new_config st1'.new_config

/-- The active profile is one of the catalog `controlSurfaces`. -/
def IsCatalogProfile (c : Option ControlSurfaceMap) : Prop :=
  ∃ p ∈ controlSurfaces, c = some p.2

/-- The channel a channel token stands for under the active profile `csm`: the
value `strtol` gives when it converts the whole token, else the channel of the
alias (none when the profile has no such alias or no profile is active). -/
def tokenChannel (csm : Option ControlSurfaceMap) (tok : List Char) : Option Int :=
  if (strtol tok).2 ≠ tok.length then
    match csm with
    | none => none
    | some m => (m.lookup tok).map (fun s => s.channel)
  else some (toInt32 (strtol tok).1)

/-- The lines of a file, as the calls of `fgets` in `ReadConfigFile` deliver
them. -/
def fileLines (text : List Char) : List (List Char) :=
  fgetsChunks (LINEBUF_SIZE - 1) text []

/-- The tokens of a line of the file: the tokens the specification gives for the
text of the line. -/
def lineTokens (chunk : List Char) : List (List Char) :=
  specTokens (lineText chunk)

/-- The first token of the line is the directive `d`. -/
def hasDirective (d : List Char) (toks : List (List Char)) : Bool :=
  decide (toks.head? = some d)

/-- The line is a `connect` line with an address and a port. -/
def givesPort (toks : List (List Char)) : Bool :=
  match toks with
  | cmd :: _ :: _ :: _ => decide (cmd = "connect".toList)
  | _ => false

/-- The channel token `tok` can stand for channel `k`: under the profile `csm0`
active when the file is opened, or under a profile of the catalog. -/
def namesChannel (csm0 : Option ControlSurfaceMap) (tok : List Char) (k : Int) : Bool :=
  decide (tokenChannel csm0 tok = some k) ||
    controlSurfaces.any (fun p => decide (tokenChannel (some p.2) tok = some k))

/-- The line is a `button` line whose channel token can stand for channel `k`. -/
def assignsButton (csm0 : Option ControlSurfaceMap) (k : Int) (toks : List (List Char)) : Bool :=
  match toks with
  | cmd :: tok :: _ => decide (cmd = "button".toList) && namesChannel csm0 tok k
  | _ => false

/-- The line is a `knob` or `slider` line whose channel token can stand for
channel `k`. -/
def assignsKnob (csm0 : Option ControlSurfaceMap) (k : Int) (toks : List (List Char)) : Bool :=
  match toks with
  | cmd :: tok :: _ =>
      (decide (cmd = "knob".toList) || decide (cmd = "slider".toList)) && namesChannel csm0 tok k
  | _ => false

/-- The active profile is the one the file was opened with, or one of the
catalog. -/
def CsmOk (csm0 c : Option ControlSurfaceMap) : Prop :=
  c = csm0 ∨ IsCatalogProfile c

/-- What the lines with the token lists `ls` leave as it was: each scalar member
whose directive is on none of the lines, each key of `buttons` and of `knobs`
that none of the lines assigns, and the active profile when none of the lines is
a `device_map` line. -/
def Frame {F : Type} (csm0 : Option ControlSurfaceMap) (ls : List (List (List Char)))
    (st st1 : ParseState F) : Prop :=
  ((∀ t ∈ ls, hasDirective "connect".toList t = false) →
    st1.new_config.address = st.new_config.address) ∧
  ((∀ t ∈ ls, givesPort t = false) → st1.new_config.port = st.new_config.port) ∧
  ((∀ t ∈ ls, hasDirective "password".toList t = false) →
    st1.new_config.password = st.new_config.password) ∧
  ((∀ t ∈ ls, hasDirective "device".toList t = false) →
    st1.new_config.device = st.new_config.device) ∧
  ((∀ t ∈ ls, hasDirective "device_name".toList t = false) →
    st1.new_config.device_name = st.new_config.device_name) ∧
  (∀ k, (∀ t ∈ ls, assignsButton csm0 k t = false) →
    st1.new_config.buttons k = st.new_config.buttons k) ∧
  (∀ k, (∀ t ∈ ls, assignsKnob csm0 k t = false) →
    st1.new_config.knobs k = st.new_config.knobs k) ∧
  ((∀ t ∈ ls, hasDirective "device_map".toList t = false) →
    st1.controlSurfaceMap = st.controlSurfaceMap)

/-- The key a `button` line with the channel token `tok` writes under the active
profile `csm`: the value `strtol` gives when it converts the whole token, else
the channel of the alias when it is of kind Button; none when the line is
rejected or undefined. -/
def buttonChannel (csm : Option ControlSurfaceMap) (tok : List Char) : Option Int :=
  if (strtol tok).2 ≠ tok.length then
    match mapControl csm tok with
    | some (some surf) => if surf.type ≠ SurfaceType.Button then none else some surf.channel
    | _ => none
  else some (toInt32 (strtol tok).1)

/-- The text left after the first token of `text` and the one character that
ends it (a delimiter, or the closing quote of a quoted token), as `tokenize`
leaves it to read; none when `text` has no token or its first token runs to the
end of `text`. -/
def afterToken (text : List Char) : Option (List Char) :=
  match text.dropWhile (fun c => decide (c ∈ delimiters)) with
  | [] => none
  | c :: r =>
    if c = DQUOTE then
      match r.dropWhile (fun x => decide (x ≠ DQUOTE)) with
      | [] => none
      | _ :: tail => some tail
    else
      match r.dropWhile (fun x => decide (x ∉ delimiters)) with
      | [] => none
      | _ :: tail => some tail

/-- The tokenizer stands at its cursor with the text `rest` left to read, and `z`
are the bytes after the terminator of the text. -/
def AtText (st : TokState) (rest z : List Char) : Prop :=
  NUL ∉ rest ∧ ∃ done, st.buf = done ++ (rest ++ NUL :: z) ∧ st.next = done.length

/-- The text after the first two tokens of a line and the character that ends the
second: for a `button` line, the text after the channel token and the character
that ends it. -/
def buttonCommand (text : List Char) : Option (List Char) :=
  (afterToken text).bind afterToken

/-! ## Binary floating point -/

/-- The number of binary digits of `n` (`fuel` bounds their number). -/
def bitLengthFuel : Nat → Nat → Nat
  | 0, _ => 0
  | fuel + 1, n => if n = 0 then 0 else bitLengthFuel fuel (n / 2) + 1

/-- The number of binary digits of `n`. -/
def bitLength (n : Nat) : Nat := bitLengthFuel n n

/-- The natural number nearest to `num / den`, a tie going to the even
neighbour. -/
def roundHalfEven (num den : Nat) : Nat :=
  let q := num / den
  let r := num % den
  if 2 * r < den then q
  else if den < 2 * r then q + 1
  else if q % 2 = 0 then q else q + 1

/-- The power of two with the exponent `z` when `z` is positive, else 1: the
numerator of `2 ^ z`, and with `-z` its denominator. -/
def pow2Num (z : Int) : Nat := 2 ^ z.toNat

/-- Rounding to the binary floating-point format with `p` significant binary
digits and least exponent `emin`, to nearest with a tie going to the even
significand: the exponent `e` of the value is found from the lengths of
numerator and denominator, the unit in the last place is
`2 ^ (max e emin - (p - 1))`, and the value is rounded to a multiple of it. -/
def roundBinary (p : Nat) (emin : Int) (q : ℚ) : ℚ :=
  let n := q.num.natAbs
  let d := q.den
  if n = 0 then 0
  else
    let e0 : Int := (bitLength n : Int) - (bitLength d : Int)
    let e : Int := if n * pow2Num (-e0) < d * pow2Num e0 then e0 - 1 else e0
    let s : Int := max e emin - ((p : Int) - 1)
    let k := roundHalfEven (n * pow2Num (-s)) (d * pow2Num s)
    let mag : ℚ := ((k * pow2Num s : Nat) : ℚ) / ((pow2Num (-s) : Nat) : ℚ)
    if q < 0 then -mag else mag

/-- Rounding to `float` (IEEE 754 binary32: 24 significant digits, least
exponent -126). -/
def roundBinary32 (q : ℚ) : ℚ := roundBinary 24 (-126) q

/-- Rounding to `double` (IEEE 754 binary64: 53 significant digits, least
exponent -1022). -/
def roundBinary64 (q : ℚ) : ℚ := roundBinary 53 (-1022) q

/-- The arithmetic of `float` as IEEE 754 binary32 with rounding to nearest, each
operation rounded on its own: a value is carried as the rational number it
denotes, `float(atof(s))` rounds the decimal text to `double` and then to
`float`, and `%.3f` prints the exact value of the `float`.  The instance covers
the finite values: an infinity, a NaN and the sign of a zero are not carried, and
a division by zero is not a value of it. -/
def binary32Arith : FloatArith where
  F := ℚ
  ofNat := fun n => roundBinary32 (n : ℚ)
  add := fun a b => roundBinary32 (a + b)
  sub := fun a b => roundBinary32 (a - b)
  mul := fun a b => roundBinary32 (a * b)
  div := fun a b => roundBinary32 (a / b)
  lt := fun a b => decide (a < b)
  atof := fun s => roundBinary32 (roundBinary64 (atofExact s))
  fmt3 := fmt3Exact
  fmt3_noNUL := exactArith.fmt3_noNUL

/-- The configuration file of the knob example of the specification: the knob of
channel 16 drives `sensitivity` between 0.0 and 5.0. -/
def sensitivityFile : List Char := "password x\nknob 16 sensitivity 0.0 5.0\n".toList

/-- The configuration file of the long knob command: channel 1 drives a variable
whose name has 230 characters, between 0 and 1e30. -/
def longKnobFile : List Char :=
  "password x\nknob 1 ".toList ++ List.replicate 230 (Char.ofNat 97) ++ " 0 1e30\n".toList

/-! ## The active profile along a file -/

/-- What a line with the tokens `toks` does to the active profile `c`: a
`device_map` line with a parameter calls `setControlSurfaceType` on it, every
other line leaves the profile as it is. -/
def profileStep (c : Option ControlSurfaceMap) (toks : List (List Char)) :
    Option ControlSurfaceMap :=
  match toks with
  | d :: name :: _ => if d = "device_map".toList then (setControlSurfaceType c name).2 else c
  | _ => c

/-- The profile active after the lines with the token lists `ls`, when `c` was
active before them. -/
def profileAfter (c : Option ControlSurfaceMap) (ls : List (List (List Char))) :
    Option ControlSurfaceMap :=
  ls.foldl profileStep c

/-- The configuration file of the alias example: with the profile
`nanoKONTROL2`, channel 41 is named by its number and then by its alias
`play`. -/
def aliasButtonFile : List Char :=
  "password x\ndevice_map nanoKONTROL2\nbutton 41 a\nbutton play b\nknob 41 c 0 1\n".toList

/-! ## Theorems: memory and tokenizer lemmas -/

theorem drop_at (a b : List Char) (n : Nat) (h : n = a.length) : (a ++ b).drop n = b := by
  subst h; exact List.drop_left a b

theorem get_at (a b : List Char) (c : Char) (n : Nat) (h : n = a.length) :
    (a ++ c :: b).get? n = some c := by
  subst h
  induction a with
  | nil => rfl
  | cons x a ih => simpa using ih

theorem set_at (a b : List Char) (c x : Char) (n : Nat) (h : n = a.length) :
    (a ++ c :: b).set n x = a ++ x :: b := by
  subst h; simp

theorem cstr_append (w t : List Char) (hw : NUL ∉ w) :
    cstr (w ++ NUL :: t) = some w := by
  induction w with
  | nil => simp [cstr]
  | cons c w ih =>
    have hc : c ≠ NUL := fun e => hw (by simp [e])
    have hw2 : NUL ∉ w := fun e => hw (by simp [e])
    simp [cstr, hc, ih hw2]

theorem cstrAt_token (buf a w t : List Char) (p : Nat) (hbuf : buf = a ++ (w ++ NUL :: t))
    (hp : p = a.length) (hw : NUL ∉ w) : cstrAt buf p = some w := by
  subst hbuf
  unfold cstrAt
  rw [drop_at _ _ _ hp, cstr_append _ _ hw]

theorem skipDelimiters_append (dl ds t : List Char) (n : Nat)
    (h : ∀ c ∈ ds, c ≠ NUL ∧ c ∈ dl) :
    skipDelimiters dl (ds ++ t) n = skipDelimiters dl t (n + ds.length) := by
  induction ds generalizing n with
  | nil => simp
  | cons c ds ih =>
    have hc := h c (by simp +arith)
    have hds : ∀ x ∈ ds, x ≠ NUL ∧ x ∈ dl := fun x hx => h x (by simp [hx])
    have e : n + 1 + ds.length = n + (ds.length + 1) := by omega
    show skipDelimiters dl (c :: (ds ++ t)) n = _
    simp only [skipDelimiters, hc.1, hc.2, if_true, if_false, List.length_cons]
    rw [ih _ hds, e]

theorem skipDelimiters_stop (dl t : List Char) (c : Char) (n : Nat) (h : c = NUL ∨ c ∉ dl) :
    skipDelimiters dl (c :: t) n = some n := by
  rcases h with h | h
  · simp [skipDelimiters, h]
  · by_cases hc : c = NUL
    · simp [skipDelimiters, hc]
    · simp [skipDelimiters, hc, h]

theorem scanToken_append (dl w t : List Char) (n : Nat)
    (h : ∀ c ∈ w, c ≠ NUL ∧ c ∉ dl) :
    scanToken dl (w ++ t) n = scanToken dl t (n + w.length) := by
  induction w generalizing n with
  | nil => simp
  | cons c w ih =>
    have hc := h c (by simp +arith)
    have hw : ∀ x ∈ w, x ≠ NUL ∧ x ∉ dl := fun x hx => h x (by simp [hx])
    have e : n + 1 + w.length = n + (w.length + 1) := by omega
    show scanToken dl (c :: (w ++ t)) n = _
    simp only [scanToken, hc.1, hc.2, if_false, List.length_cons]
    rw [ih _ hw, e]

theorem scanToken_NUL (dl t : List Char) (n : Nat) :
    scanToken dl (NUL :: t) n = some (n, false) := by
  simp [scanToken]

theorem scanToken_delim (dl t : List Char) (d : Char) (n : Nat) (hd : d ≠ NUL) (hdl : d ∈ dl) :
    scanToken dl (d :: t) n = some (n, true) := by
  simp [scanToken, hd, hdl]

theorem tokenize_restart (st : TokState) (p : Nat) (dl : List Char) :
    tokenize st (some p) dl = tokenize { buf := st.buf, next := p } none dl := rfl

/-- A call of `tokenize` that finds only delimiters before the terminator. -/
theorem tokenize_end (st : TokState) (done ds z : List Char)
    (hbuf : st.buf = done ++ (ds ++ NUL :: z)) (hnext : st.next = done.length)
    (hds : ∀ c ∈ ds, c ≠ NUL ∧ c ∈ delimiters) :
    tokenize st none delimiters =
      some (none, { buf := st.buf, next := done.length + ds.length }) := by
  unfold tokenize
  simp only [hnext, hbuf]
  rw [drop_at _ _ _ rfl, skipDelimiters_append _ _ _ _ hds,
    skipDelimiters_stop _ _ _ _ (Or.inl rfl)]
  simp only
  rw [← List.append_assoc, get_at _ _ _ _ (by simp +arith)]
  simp

/-- A call of `tokenize` that finds an unquoted token ended by a delimiter. -/
theorem tokenize_word_delim (st : TokState) (done ds w tail : List Char) (d : Char)
    (hbuf : st.buf = done ++ (ds ++ (w ++ d :: tail))) (hnext : st.next = done.length)
    (hds : ∀ c ∈ ds, c ≠ NUL ∧ c ∈ delimiters)
    (hw : ∀ c ∈ w, c ≠ NUL ∧ c ∉ delimiters) (hne : w ≠ [])
    (hq : w.head? ≠ some DQUOTE) (hd : d ≠ NUL) (hdl : d ∈ delimiters) :
    tokenize st none delimiters =
      some (some (done.length + ds.length),
        { buf := done ++ (ds ++ (w ++ NUL :: tail)),
          next := done.length + ds.length + w.length + 1 }) := by
  obtain ⟨c, w1, rfl⟩ := List.exists_cons_of_ne_nil hne
  have hc := hw c (by simp +arith)
  have hcq : c ≠ DQUOTE := by simpa using hq
  unfold tokenize
  simp only [hnext, hbuf]
  rw [drop_at _ _ _ rfl, skipDelimiters_append _ _ _ _ hds]
  rw [List.cons_append, skipDelimiters_stop _ _ _ _ (Or.inr hc.2)]
  simp only
  rw [← List.append_assoc, get_at _ _ _ _ (by simp +arith)]
  simp only [hc.1, hcq, if_false]
  rw [drop_at _ _ _ (by simp +arith), ← List.cons_append, scanToken_append _ _ _ _ hw,
    scanToken_delim _ _ _ _ hd hdl]
  simp only
  rw [← List.append_assoc, set_at _ _ _ _ _ (by simp +arith)]
  simp

/-- A call of `tokenize` that finds an unquoted token running to the terminator. -/
theorem tokenize_word_end (st : TokState) (done ds w z : List Char)
    (hbuf : st.buf = done ++ (ds ++ (w ++ NUL :: z))) (hnext : st.next = done.length)
    (hds : ∀ c ∈ ds, c ≠ NUL ∧ c ∈ delimiters)
    (hw : ∀ c ∈ w, c ≠ NUL ∧ c ∉ delimiters) (hne : w ≠ [])
    (hq : w.head? ≠ some DQUOTE) :
    tokenize st none delimiters =
      some (some (done.length + ds.length),
        { buf := st.buf, next := done.length + ds.length + w.length }) := by
  obtain ⟨c, w1, rfl⟩ := List.exists_cons_of_ne_nil hne
  have hc := hw c (by simp +arith)
  have hcq : c ≠ DQUOTE := by simpa using hq
  unfold tokenize
  simp only [hnext, hbuf]
  rw [drop_at _ _ _ rfl, skipDelimiters_append _ _ _ _ hds]
  rw [List.cons_append, skipDelimiters_stop _ _ _ _ (Or.inr hc.2)]
  simp only
  rw [← List.append_assoc, get_at _ _ _ _ (by simp +arith)]
  simp only [hc.1, hcq, if_false]
  rw [drop_at _ _ _ (by simp +arith), ← List.cons_append, scanToken_append _ _ _ _ hw,
    scanToken_NUL]

/-- A call of `tokenize` that finds a quoted token with its closing quote. -/
theorem tokenize_quoted_closed (st : TokState) (done ds w tail : List Char)
    (hbuf : st.buf = done ++ (ds ++ DQUOTE :: (w ++ DQUOTE :: tail)))
    (hnext : st.next = done.length)
    (hds : ∀ c ∈ ds, c ≠ NUL ∧ c ∈ delimiters)
    (hw : ∀ c ∈ w, c ≠ NUL ∧ c ≠ DQUOTE) :
    tokenize st none delimiters =
      some (some (done.length + ds.length + 1),
        { buf := done ++ (ds ++ DQUOTE :: (w ++ NUL :: tail)),
          next := done.length + ds.length + 1 + w.length + 1 }) := by
  have hqd : DQUOTE ∉ delimiters := by decide
  have hqn : DQUOTE ≠ NUL := by decide
  have hw2 : ∀ c ∈ w, c ≠ NUL ∧ c ∉ quoteDelimiters := by
    intro c hc
    exact ⟨(hw c hc).1, by simpa [quoteDelimiters] using (hw c hc).2⟩
  unfold tokenize
  simp only [hnext, hbuf]
  rw [drop_at _ _ _ rfl, skipDelimiters_append _ _ _ _ hds,
    skipDelimiters_stop _ _ _ _ (Or.inr hqd)]
  simp only
  rw [← List.append_assoc, get_at _ _ _ _ (by simp +arith)]
  simp only [hqn, if_false, if_true]
  have e1 : done ++ ds ++ DQUOTE :: (w ++ DQUOTE :: tail)
      = (done ++ ds ++ [DQUOTE]) ++ (w ++ DQUOTE :: tail) := by simp
  rw [e1, drop_at _ _ _ (by simp +arith), scanToken_append _ _ _ _ hw2,
    scanToken_delim _ _ _ _ hqn (by simp [quoteDelimiters])]
  simp only
  rw [← List.append_assoc, set_at _ _ _ _ _ (by simp +arith)]
  simp

/-- A call of `tokenize` that finds a quoted token without a closing quote. -/
theorem tokenize_quoted_open (st : TokState) (done ds w z : List Char)
    (hbuf : st.buf = done ++ (ds ++ DQUOTE :: (w ++ NUL :: z)))
    (hnext : st.next = done.length)
    (hds : ∀ c ∈ ds, c ≠ NUL ∧ c ∈ delimiters)
    (hw : ∀ c ∈ w, c ≠ NUL ∧ c ≠ DQUOTE) :
    tokenize st none delimiters =
      some (some (done.length + ds.length + 1),
        { buf := st.buf, next := done.length + ds.length + 1 + w.length }) := by
  have hqd : DQUOTE ∉ delimiters := by decide
  have hqn : DQUOTE ≠ NUL := by decide
  have hw2 : ∀ c ∈ w, c ≠ NUL ∧ c ∉ quoteDelimiters := by
    intro c hc
    exact ⟨(hw c hc).1, by simpa [quoteDelimiters] using (hw c hc).2⟩
  unfold tokenize
  simp only [hnext, hbuf]
  rw [drop_at _ _ _ rfl, skipDelimiters_append _ _ _ _ hds,
    skipDelimiters_stop _ _ _ _ (Or.inr hqd)]
  simp only
  rw [← List.append_assoc, get_at _ _ _ _ (by simp +arith)]
  simp only [hqn, if_false, if_true]
  have e1 : done ++ ds ++ DQUOTE :: (w ++ NUL :: z)
      = (done ++ ds ++ [DQUOTE]) ++ (w ++ NUL :: z) := by simp
  rw [e1, drop_at _ _ _ (by simp +arith), scanToken_append _ _ _ _ hw2, scanToken_NUL]


theorem run_split (p : Char → Bool) (l : List Char) :
    ∃ a b, l = a ++ b ∧ (∀ c ∈ a, p c = true) ∧
      (b = [] ∨ ∃ d t, b = d :: t ∧ p d = false) := by
  induction l with
  | nil => exact ⟨[], [], rfl, by simp, Or.inl rfl⟩
  | cons x l ih =>
    by_cases hx : p x = true
    · obtain ⟨a, b, hl, ha, hb⟩ := ih
      refine ⟨x :: a, b, by simp [hl], ?_, hb⟩
      intro c hc
      rcases List.mem_cons.1 hc with h | h
      · rw [h]; exact hx
      · exact ha c h
    · exact ⟨[], x :: l, rfl, by simp, Or.inr ⟨x, l, rfl, by simpa using hx⟩⟩

theorem spec_between_run (ds t : List Char) (h : ∀ c ∈ ds, c ∈ delimiters) :
    specTokensFrom LexMode.between (ds ++ t) = specTokensFrom LexMode.between t := by
  induction ds with
  | nil => rfl
  | cons c ds ih =>
    have hc := h c (by simp)
    have hds : ∀ x ∈ ds, x ∈ delimiters := fun x hx => h x (by simp [hx])
    show specTokensFrom LexMode.between (c :: (ds ++ t)) = _
    simp only [specTokensFrom, hc, if_true, ih hds]

theorem spec_word_run (w t acc : List Char) (h : ∀ c ∈ w, c ∉ delimiters) :
    specTokensFrom (LexMode.word acc) (w ++ t)
      = specTokensFrom (LexMode.word (w.reverse ++ acc)) t := by
  induction w generalizing acc with
  | nil => rfl
  | cons c w ih =>
    have hc := h c (by simp)
    have hw : ∀ x ∈ w, x ∉ delimiters := fun x hx => h x (by simp [hx])
    show specTokensFrom (LexMode.word acc) (c :: (w ++ t)) = _
    simp only [specTokensFrom, hc, if_false, ih _ hw, List.reverse_cons, List.append_assoc,
      List.singleton_append]

theorem spec_quoted_run (w t acc : List Char) (h : ∀ c ∈ w, c ≠ DQUOTE) :
    specTokensFrom (LexMode.quoted acc) (w ++ t)
      = specTokensFrom (LexMode.quoted (w.reverse ++ acc)) t := by
  induction w generalizing acc with
  | nil => rfl
  | cons c w ih =>
    have hc := h c (by simp)
    have hw : ∀ x ∈ w, x ≠ DQUOTE := fun x hx => h x (by simp [hx])
    show specTokensFrom (LexMode.quoted acc) (c :: (w ++ t)) = _
    simp only [specTokensFrom, hc, if_false, ih _ hw, List.reverse_cons, List.append_assoc,
      List.singleton_append]

theorem tokensLoop_unfold (fuel : Nat) (st st1 : TokState) (p : Nat) (tok : List Char)
    (ht : tokenize st none delimiters = some (some p, st1))
    (hc : cstrAt st1.buf p = some tok) :
    tokensLoop delimiters (fuel + 1) st none
      = (tokensLoop delimiters fuel st1 none).map (fun toks => tok :: toks) := by
  simp only [tokensLoop, ht, hc]

/-- The loop of `tokenize` calls on a buffer that holds the rest `rest` of a line
at the cursor yields the tokens the specification gives for `rest`. -/
theorem tokensLoop_spec (fuel : Nat) :
    ∀ (rest done z : List Char) (st : TokState), NUL ∉ rest → rest.length < fuel →
      st.buf = done ++ (rest ++ NUL :: z) → st.next = done.length →
      tokensLoop delimiters fuel st none = some (specTokensFrom LexMode.between rest) := by
  induction fuel with
  | zero => intro rest done z st _ hlen; omega
  | succ n ih =>
    intro rest done z st hnul hlen hbuf hnext
    obtain ⟨ds, r1, hsplit, hds, hr1⟩ := run_split (fun c => decide (c ∈ delimiters)) rest
    subst hsplit
    have hds1 : ∀ c ∈ ds, c ≠ NUL ∧ c ∈ delimiters := by
      intro c hc
      exact ⟨fun e => hnul (by simp [← e, hc]), by simpa using hds c hc⟩
    rw [spec_between_run ds r1 (fun c hc => (hds1 c hc).2)]
    rcases hr1 with rfl | ⟨c, r2, rfl, hcd⟩
    · -- only delimiters are left
      have ht := tokenize_end st done ds z (by simpa using hbuf) hnext hds1
      simp [tokensLoop, ht, specTokensFrom]
    · have hcd1 : c ∉ delimiters := by simpa using hcd
      have hcn : c ≠ NUL := fun e => hnul (by simp [← e])
      have hr2n : NUL ∉ r2 := fun e => hnul (by simp [e])
      have hn : 0 < n := by
        simp only [List.length_append, List.length_cons] at hlen; omega
      by_cases hq : c = DQUOTE
      · -- a quoted token
        subst hq
        obtain ⟨w, r3, hsplit, hw, hr3⟩ := run_split (fun c => decide (c ≠ DQUOTE)) r2
        subst hsplit
        have hw1 : ∀ c ∈ w, c ≠ NUL ∧ c ≠ DQUOTE := by
          intro c hc
          exact ⟨fun e => hr2n (by simp [← e, hc]), by simpa using hw c hc⟩
        have hwn : NUL ∉ w := fun e => (hw1 _ e).1 rfl
        have hspec : specTokensFrom LexMode.between (DQUOTE :: (w ++ r3))
            = specTokensFrom (LexMode.quoted w.reverse) r3 := by
          have hqd : DQUOTE ∉ delimiters := by decide
          simp only [specTokensFrom, hqd, if_false, if_true]
          rw [spec_quoted_run w r3 [] (fun c hc => (hw1 c hc).2)]
          simp
        rw [hspec]
        rcases hr3 with rfl | ⟨d, tail, rfl, hd⟩
        · have ht := tokenize_quoted_open st done ds w z (by simpa using hbuf) hnext hds1 hw1
          have hc : cstrAt st.buf (done.length + ds.length + 1) = some w :=
            cstrAt_token _ (done ++ ds ++ [DQUOTE]) w z _ (by simpa using hbuf)
              (by simp +arith) hwn
          rw [tokensLoop_unfold n st _ _ w ht hc]
          rw [ih [] (done ++ ds ++ DQUOTE :: w) z _ (by simp) hn (by simpa using hbuf)
            (by simp +arith)]
          simp [specTokensFrom]
        · have hdq : d = DQUOTE := by simpa using hd
          subst hdq
          have ht := tokenize_quoted_closed st done ds w (tail ++ NUL :: z)
            (by simpa using hbuf) hnext hds1 hw1
          have hc : cstrAt (done ++ (ds ++ DQUOTE :: (w ++ NUL :: (tail ++ NUL :: z))))
              (done.length + ds.length + 1) = some w :=
            cstrAt_token _ (done ++ ds ++ [DQUOTE]) w (tail ++ NUL :: z) _ (by simp)
              (by simp +arith) hwn
          rw [tokensLoop_unfold n st _ _ w ht hc]
          rw [ih tail (done ++ ds ++ DQUOTE :: w ++ [NUL]) z _
            (fun e => hr2n (by simp [e]))
            (by simp only [List.length_append, List.length_cons] at hlen; omega)
            (by simp) (by simp +arith)]
          simp [specTokensFrom]
      · -- an unquoted token
        obtain ⟨w0, r3, hsplit, hw, hr3⟩ := run_split (fun c => decide (c ∉ delimiters)) r2
        subst hsplit
        have hw1 : ∀ x ∈ c :: w0, x ≠ NUL ∧ x ∉ delimiters := by
          intro x hx
          rcases List.mem_cons.1 hx with h | h
          · rw [h]; exact ⟨hcn, hcd1⟩
          · exact ⟨fun e => hr2n (by simp [← e, h]), by simpa using hw x h⟩
        have hwn : NUL ∉ c :: w0 := fun e => (hw1 _ e).1 rfl
        have hspec : specTokensFrom LexMode.between (c :: (w0 ++ r3))
            = specTokensFrom (LexMode.word (c :: w0).reverse) r3 := by
          simp only [specTokensFrom, hcd1, hq, if_false]
          rw [spec_word_run w0 r3 [c] (fun x hx => (hw1 x (by simp [hx])).2)]
          simp
        rw [hspec]
        rcases hr3 with rfl | ⟨d, tail, rfl, hd⟩
        · have ht := tokenize_word_end st done ds (c :: w0) z (by simpa using hbuf) hnext hds1
            hw1 (by simp) (by simpa using hq)
          have hc : cstrAt st.buf (done.length + ds.length) = some (c :: w0) :=
            cstrAt_token _ (done ++ ds) (c :: w0) z _ (by simpa using hbuf)
              (by simp +arith) hwn
          rw [tokensLoop_unfold n st _ _ (c :: w0) ht hc]
          rw [ih [] (done ++ ds ++ c :: w0) z _ (by simp) hn (by simpa using hbuf)
            (by simp +arith)]
          simp [specTokensFrom]
        · have hdd : d ∈ delimiters := by simpa using hd
          have hdn : d ≠ NUL := fun e => hr2n (by simp [← e])
          have ht := tokenize_word_delim st done ds (c :: w0) (tail ++ NUL :: z) d
            (by simpa using hbuf) hnext hds1 hw1 (by simp) (by simpa using hq) hdn hdd
          have hc : cstrAt (done ++ (ds ++ (c :: w0 ++ NUL :: (tail ++ NUL :: z))))
              (done.length + ds.length) = some (c :: w0) :=
            cstrAt_token _ (done ++ ds) (c :: w0) (tail ++ NUL :: z) _ (by simp)
              (by simp +arith) hwn
          rw [tokensLoop_unfold n st _ _ (c :: w0) ht hc]
          rw [ih tail (done ++ ds ++ c :: w0 ++ [NUL]) z _
            (fun e => hr2n (by simp [e]))
            (by simp only [List.length_append, List.length_cons] at hlen; omega)
            (by simp) (by simp +arith)]
          simp [specTokensFrom, hdd]

/-- C8. Tokenizer quoting: for every line (a C string, so free of `NUL`), the
repeated calls of `tokenize` with the delimiters `" \t\r\n"` return exactly the
tokens the specification describes and then `NULL`: each unquoted run of
non-delimiters as one token, each quoted text without its quotes and with its
delimiters as one token, an unterminated quoted text up to the end of the line.
The line `play the "funky test" part` gives `play`, `the`, `funky test`, `part`. -/
theorem C8_tokenizer_quoting (line : List Char) (hline : NUL ∉ line) :
    tokens line = some (specTokens line) ∧
    tokens "play the \"funky test\" part".toList
      = some ["play".toList, "the".toList, "funky test".toList, "part".toList] ∧
    tokens "say \"hello world".toList = some ["say".toList, "hello world".toList] := by
  refine ⟨?_, by decide, by decide⟩
  unfold tokens specTokens
  cases hl : line.length + 1 with
  | zero => omega
  | succ n =>
    have h := tokensLoop_spec (n + 1) line [] [] { buf := line ++ [NUL], next := 0 } hline
      (by omega) (by simp) rfl
    rw [← h]
    simp only [tokensLoop, tokenize_restart]

/-- Witness for C8: the line of the specification. -/
theorem C8_tokenizer_quoting_witness :
    NUL ∉ "play the \"funky test\" part".toList ∧
    tokens "play the \"funky test\" part".toList
      = some (specTokens "play the \"funky test\" part".toList) :=
  ⟨by decide, (C8_tokenizer_quoting _ (by decide)).1⟩

/-! ## Theorems: the control-surface catalog -/

/-- C9. Catalog lookup: selecting `nanoKONTROL2` returns true, and afterwards
`play` resolves to the button on channel 41 while `nope` is not found; selecting
a name that is not a profile of the catalog returns false and leaves the active
profile as it was. -/
theorem C9_catalog_lookup (controlSurfaceMap : Option ControlSurfaceMap) (name : List Char)
    (hname : name ∉ controlSurfaces.map Prod.fst) :
    (setControlSurfaceType controlSurfaceMap "nanoKONTROL2".toList).1 = true ∧
    mapControl (setControlSurfaceType controlSurfaceMap "nanoKONTROL2".toList).2 "play".toList
      = some (some ⟨SurfaceType.Button, 41⟩) ∧
    mapControl (setControlSurfaceType controlSurfaceMap "nanoKONTROL2".toList).2 "nope".toList
      = some none ∧
    setControlSurfaceType controlSurfaceMap name = (false, controlSurfaceMap) := by
  have hsel : setControlSurfaceType controlSurfaceMap "nanoKONTROL2".toList
      = (true, some controlMap_Korg_nanoKONTROL2) := by
    simp [setControlSurfaceType, controlSurfaces, List.lookup]
  refine ⟨by rw [hsel], ?_, ?_, ?_⟩
  · rw [hsel]; decide
  · rw [hsel]; decide
  · have hne : name ≠ "nanoKONTROL2".toList := by
      intro h
      apply hname
      simp [controlSurfaces, h]
    have hb : (name == "nanoKONTROL2".toList) = false := by simpa using hne
    unfold setControlSurfaceType controlSurfaces
    simp only [List.lookup, hb]

/-- Witness for C9: the name `bogus`, with the profile `nanoKONTROL2` active
before the call. -/
theorem C9_catalog_lookup_witness :
    "bogus".toList ∉ controlSurfaces.map Prod.fst ∧
    setControlSurfaceType (some controlMap_Korg_nanoKONTROL2) "bogus".toList
      = (false, some controlMap_Korg_nanoKONTROL2) :=
  ⟨by decide,
   (C9_catalog_lookup (some controlMap_Korg_nanoKONTROL2) "bogus".toList (by decide)).2.2.2⟩

/-- C10. With no profile selected (`controlSurfaceMap` still null) the call
`mapControl(out, name)` is undefined for every name: it does not come back with
"not found".  A parse that meets the line `button play say hello` before any
`device_map` directive is therefore undefined too, whatever the committed
configuration and the content of the line buffer are, instead of recording an
ordinary failure of that line. -/
theorem C10_mapControl_without_profile (A : FloatArith) (g_config : KorgiConfig A.F)
    (stack name : List Char) :
    mapControl none name = none ∧
    ReadConfigFile A g_config none stack
      (some "password x\nbutton play say hello\n".toList) = none :=
  ⟨rfl, rfl⟩

/-! ## Theorems: the action resolver -/

theorem c_str_of_noNUL (s : List Char) (h : NUL ∉ s) : c_str s = s := by
  unfold c_str
  rw [List.takeWhile_eq_self_iff]
  intro c hc
  have : c ≠ NUL := fun e => h (e ▸ hc)
  simpa using this

theorem c_str_noNUL (s : List Char) : NUL ∉ c_str s := by
  intro h
  have := List.mem_takeWhile_imp h
  simp at this

theorem writeBuffer_eq_some (s t : List Char) (h : writeBuffer s = some t) :
    t = s ∧ s.length < COMMAND_SIZE := by
  unfold writeBuffer at h
  split at h
  · exact ⟨(Option.some.inj h).symm, by assumption⟩
  · cases h

theorem writeBuffer_of_fits (s : List Char) (h : s.length < 256) : writeBuffer s = some s := by
  simp [writeBuffer, COMMAND_SIZE, h]

/-- Every command the resolver leaves in `command` is free of `NUL`. -/
theorem resolveCommand_noNUL (A : FloatArith) (g : KorgiConfig A.F) (ch v : Nat)
    (c : List Char) (h : resolveCommand A g ch v = some c) : NUL ∉ c := by
  have h32 : NUL ≠ Char.ofNat 32 := by decide
  simp only [resolveCommand] at h
  split at h
  · split at h
    · rw [(writeBuffer_eq_some _ _ h).1]; exact c_str_noNUL _
    · cases h; simp
  · split at h
    · rw [(writeBuffer_eq_some _ _ h).1]
      simp only [List.mem_append, List.mem_cons, not_or]
      exact ⟨c_str_noNUL _, h32, A.fmt3_noNUL _⟩
    · cases h; simp

/-- The datagram of a command that fits: four bytes `0xFF`, the text
`rcon <password> <command>` and one terminator; no command, no datagram. -/
theorem HandleMidiInput_frame (A : FloatArith) (g : KorgiConfig A.F) (ch v : Nat)
    (c : List Char) (hres : resolveCommand A g ch v = some c) (hp : NUL ∉ g.password) :
    (c = [] → HandleMidiInput A g ch v = some none) ∧
    (c ≠ [] → 4 + 5 + g.password.length + 1 + c.length + 1 ≤ 256 →
      HandleMidiInput A g ch v = some (some (List.replicate 4 (Char.ofNat 255) ++
        ("rcon ".toList ++ g.password ++ Char.ofNat 32 :: c) ++ [NUL]))) := by
  have hc := resolveCommand_noNUL A g ch v c hres
  constructor
  · intro h
    simp [HandleMidiInput, hres, h]
  · intro hne hfit
    have hmsg : NUL ∉ rconMessage g.password c := by
      have h255 : NUL ≠ Char.ofNat 255 := by decide
      have h32 : NUL ≠ Char.ofNat 32 := by decide
      have hr : NUL ∉ "rcon ".toList := by decide
      unfold rconMessage
      simp only [List.mem_append, List.mem_cons, not_or, List.mem_replicate]
      exact ⟨⟨⟨fun h => h255 h.2, hr⟩, c_str_noNUL _⟩, h32, hc⟩
    have hlen : (rconMessage g.password c).length < 256 := by
      unfold rconMessage
      rw [c_str_of_noNUL _ hp]
      simp only [List.length_append, List.length_replicate, List.length_cons]
      have : "rcon ".toList.length = 5 := by decide
      omega
    unfold HandleMidiInput
    rw [hres]
    simp only [hne, if_false, writeBuffer_of_fits _ hlen, c_str_of_noNUL _ hmsg]
    unfold rconMessage
    rw [c_str_of_noNUL _ hp]
    simp

/-- C5. Resolver button edge: on a channel present in `buttons`, whose command
is a C string that fits the array `command` (as it is in every configuration the
program reaches, see `reachable_buttons`), the value 0 leaves `command` empty and
sends nothing, and every value above 0 puts exactly the mapped command, unchanged,
into `command`. -/
theorem C5_button_edge (A : FloatArith) (g : KorgiConfig A.F) (midiChannel : Nat)
    (cmd : List Char) (hch : midiChannel < 256)
    (hmap : g.buttons (midiChannel : Int) = some cmd)
    (hnul : NUL ∉ cmd) (hlen : cmd.length < 256) :
    resolveCommand A g midiChannel 0 = some [] ∧
    HandleMidiInput A g midiChannel 0 = some none ∧
    ∀ midiValue, 0 < midiValue → midiValue < 256 →
      resolveCommand A g midiChannel midiValue = some cmd := by
  have hmod : midiChannel % 256 = midiChannel := Nat.mod_eq_of_lt hch
  have h0 : resolveCommand A g midiChannel 0 = some [] := by
    simp [resolveCommand, hmod, hmap]
  refine ⟨h0, ?_, ?_⟩
  · simp [HandleMidiInput, h0]
  · intro v hv hv256
    have hvm : v % 256 = v := Nat.mod_eq_of_lt hv256
    simp [resolveCommand, hmod, hmap, hvm, hv, c_str_of_noNUL _ hnul,
      writeBuffer_of_fits _ hlen]

/-- Witness for C5: the button `say hello` on channel 41, released and pressed. -/
theorem C5_button_edge_witness :
    resolveCommand exactArith
      { g_config_init ℚ with buttons := assign (fun _ => none) 41 "say hello".toList } 41 0
      = some [] ∧
    resolveCommand exactArith
      { g_config_init ℚ with buttons := assign (fun _ => none) 41 "say hello".toList } 41 1
      = some "say hello".toList :=
  have h := C5_button_edge exactArith
    { g_config_init ℚ with buttons := assign (fun _ => none) 41 "say hello".toList } 41
    "say hello".toList (by decide) rfl (by decide) (by decide)
  ⟨h.1, h.2.2 1 (by decide) (by decide)⟩

set_option maxRecDepth 100000 in
/-- C7. The frame does not always reach the transport as described: the file
`longPasswordFile` parses successfully from the initial state and commits its
password of 240 characters and the button `say hello` on channel 41; the frame
for the event (41, 127) would take 4 + 5 + 240 + 1 + 9 + 1 = 260 bytes, which
`sprintf` writes into the 256 bytes of `udp_message`, so the call is undefined. -/
theorem C7_frame_overflows_udp_message :
    (ReadConfigFile exactArith (g_config_init ℚ) none (List.replicate 256 NUL)
        (some longPasswordFile)).map (fun r => (r.ret, r.g_config.password.length,
          r.g_config.buttons 41, resolveCommand exactArith r.g_config 41 127,
          HandleMidiInput exactArith r.g_config 41 127))
      = some (true, 240, some "say hello".toList, some "say hello".toList, none) := by
  rfl



/-! ## Theorems: the configuration parser -/

theorem directiveConnect_effect {F : Type} (st st1 : ParseState F) (t1 : TokState)
    (h : directiveConnect st t1 = some st1) : StepEffect st.lineno st st1 := by
  unfold directiveConnect at h
  repeat' first
    | split at h
    | dsimp only at h
  all_goals (cases h; try simp [StepEffect, ParseState.fail])

theorem directivePassword_effect {F : Type} (st st1 : ParseState F) (t1 : TokState)
    (h : directivePassword st t1 = some st1) : StepEffect st.lineno st st1 := by
  unfold directivePassword at h
  repeat' first
    | split at h
    | dsimp only at h
  all_goals (cases h; try simp [StepEffect, ParseState.fail])

theorem directiveDevice_effect {F : Type} (st st1 : ParseState F) (t1 : TokState)
    (h : directiveDevice st t1 = some st1) : StepEffect st.lineno st st1 := by
  unfold directiveDevice at h
  repeat' first
    | split at h
    | dsimp only at h
  all_goals (cases h; try simp [StepEffect, ParseState.fail])

theorem directiveDeviceName_effect {F : Type} (st st1 : ParseState F) (t1 : TokState)
    (h : directiveDeviceName st t1 = some st1) : StepEffect st.lineno st st1 := by
  unfold directiveDeviceName at h
  repeat' first
    | split at h
    | dsimp only at h
  all_goals (cases h; try simp [StepEffect, ParseState.fail])

theorem directiveDeviceMap_effect {F : Type} (st st1 : ParseState F) (t1 : TokState)
    (h : directiveDeviceMap st t1 = some st1) : StepEffect st.lineno st st1 := by
  unfold directiveDeviceMap at h
  repeat' first
    | split at h
    | dsimp only at h
  all_goals (cases h; try simp [StepEffect, ParseState.fail])

theorem directiveButton_effect {F : Type} (st st1 : ParseState F) (t1 : TokState)
    (h : directiveButton st t1 = some st1) : StepEffect st.lineno st st1 := by
  unfold directiveButton at h
  repeat' first
    | split at h
    | dsimp only at h
  all_goals (cases h; try simp [StepEffect, ParseState.fail])

theorem directiveKnob_effect (A : FloatArith) (st st1 : ParseState A.F) (t1 : TokState)
    (what : List Char) (h : directiveKnob A st t1 what = some st1) :
    StepEffect st.lineno st st1 := by
  unfold directiveKnob at h
  repeat' first
    | split at h
    | dsimp only at h
  all_goals (cases h; try simp [StepEffect, ParseState.fail])

theorem dispatchLine_effect (A : FloatArith) (st st1 : ParseState A.F) (buf : List Char)
    (h : dispatchLine A st buf = some st1) : StepEffect st.lineno st st1 := by
  unfold dispatchLine at h
  split at h
  · cases h
  · cases h; simp [StepEffect]
  split at h
  · cases h
  split at h
  · exact directiveConnect_effect _ _ _ h
  split at h
  · exact directivePassword_effect _ _ _ h
  split at h
  · exact directiveDevice_effect _ _ _ h
  split at h
  · exact directiveDeviceName_effect _ _ _ h
  split at h
  · exact directiveDeviceMap_effect _ _ _ h
  split at h
  · exact directiveButton_effect _ _ _ h
  split at h
  · exact directiveKnob_effect _ _ _ _ _ h
  · cases h; simp [StepEffect, ParseState.fail]

/-- Every loop iteration that completes either leaves the error state alone or
records exactly one message with the number of its line. -/
theorem processLine_effect (A : FloatArith) (st st1 : ParseState A.F) (chunk : List Char)
    (h : processLine A st chunk = some st1) : StepEffect (st.lineno + 1) st st1 := by
  unfold processLine at h
  dsimp only at h
  split at h
  · cases h
  split at h
  · cases h
  exact dispatchLine_effect A _ st1 _ h

/-- The flag `success` is set exactly as long as nothing has been written to
`stderr`. -/
theorem processLines_success_iff (A : FloatArith) (chunks : List (List Char)) :
    ∀ (st st1 : ParseState A.F), processLines A st chunks = some st1 →
      (st.success = true ↔ st.stderr = []) → (st1.success = true ↔ st1.stderr = []) := by
  induction chunks with
  | nil =>
    intro st st1 h hinv
    simp only [processLines] at h
    cases h
    exact hinv
  | cons chunk rest ih =>
    intro st st1 h hinv
    simp only [processLines] at h
    split at h
    · cases h
    · rename_i st2 h2
      refine ih st2 st1 h ?_
      obtain ⟨_, he⟩ := processLine_effect A st st2 chunk h2
      rcases he with ⟨hs, hd⟩ | ⟨hs, d, hd⟩
      · rw [hs, hd]; exact hinv
      · rw [hs, hd]; simp

/-- C1. Parser atomicity: when a call of `ReadConfigFile` on a file text
completes and the parse is unsuccessful (a message with a line number has been
written, that is, at least one line failed, or the working password is empty
after the last line), the call returns false and `g_config` is, in every field,
the configuration it was before the call. -/
theorem C1_parser_atomicity (A : FloatArith) (g_config : KorgiConfig A.F)
    (controlSurfaceMap : Option ControlSurfaceMap) (stack text : List Char)
    (r : ReadResult A.F)
    (hrun : ReadConfigFile A g_config controlSurfaceMap stack (some text) = some r)
    (hfail : (∃ d ∈ r.stderr, d.lineno ≠ none) ∨ r.new_config.password = []) :
    r.ret = false ∧ r.g_config = g_config := by
  simp only [ReadConfigFile] at hrun
  split at hrun
  · cases hrun
  · rename_i st hst
    cases hrun
    have hinv := processLines_success_iff A _ _ st hst (by simp)
    have hret : (finishRead g_config st).ret = false := by
      rcases hfail with ⟨d, hd, hline⟩ | hpw
      · have hne : st.stderr ≠ [] := by
          intro he
          simp only [finishRead, he] at hd
          split at hd
          · simp at hd; rw [hd] at hline; exact hline rfl
          · simp at hd
        have hs : st.success = false := by
          cases hb : st.success with
          | false => rfl
          | true => exact absurd (hinv.1 hb) hne
        simp [finishRead, hs]
      · have : st.new_config.password = [] := hpw
        simp [finishRead, this]
    refine ⟨hret, ?_⟩
    have hg : (finishRead g_config st).g_config
        = if (finishRead g_config st).ret = true then st.new_config else g_config := rfl
    rw [hg, hret]
    simp

/-- Witness for C1: from a committed configuration with the password `old`, a
file that is valid except for its last line, a `knob` line with too few
parameters. -/
theorem C1_parser_atomicity_witness :
    ∃ r, ReadConfigFile exactArith { g_config_init ℚ with password := "old".toList }
        (some controlMap_Korg_nanoKONTROL2) (List.replicate 256 NUL)
        (some "password x\nbutton play say hello\nknob kn0 sensitivity\n".toList) = some r ∧
      r.stderr = [⟨some 3, Diag.insufficient "knob".toList⟩] ∧
      r.ret = false ∧ r.g_config = { g_config_init ℚ with password := "old".toList } :=
  have hrun : ∃ r, ReadConfigFile exactArith { g_config_init ℚ with password := "old".toList }
      (some controlMap_Korg_nanoKONTROL2) (List.replicate 256 NUL)
      (some "password x\nbutton play say hello\nknob kn0 sensitivity\n".toList) = some r ∧
      r.stderr = [⟨some 3, Diag.insufficient "knob".toList⟩] := ⟨_, rfl, rfl⟩
  hrun.elim fun r hr =>
    ⟨r, hr.1, hr.2, C1_parser_atomicity exactArith _ _ _ _ r hr.1
      (Or.inl ⟨⟨some 3, Diag.insufficient "knob".toList⟩, by rw [hr.2]; simp, by decide⟩)⟩

set_option maxRecDepth 100000 in
/-- C2. End to end: from the initial configuration with no active profile, the
four-line text of the specification parses successfully and commits the password
`x`, the address `10.0.0.1`, the port 1234 and the button `say hello` on channel
41; the event (41, 127) then puts exactly `say hello` into `command`, and the
datagram is `FF FF FF FF`, `rcon x say hello`, `00`.  This holds for every
`float` arithmetic and every initial content of the line buffer. -/
theorem C2_end_to_end (A : FloatArith) (stack : List Char) :
    ∃ r, ReadConfigFile A (g_config_init A.F) none stack
        (some ("password x\nconnect 10.0.0.1 1234\ndevice_map nanoKONTROL2\n".toList ++
          "button play say hello".toList)) = some r ∧
      r.ret = true ∧ r.stderr = [] ∧
      r.g_config.password = "x".toList ∧ r.g_config.address = "10.0.0.1".toList ∧
      r.g_config.port = 1234 ∧ r.g_config.buttons 41 = some "say hello".toList ∧
      resolveCommand A r.g_config 41 127 = some "say hello".toList ∧
      HandleMidiInput A r.g_config 41 127
        = some (some (List.replicate 4 (Char.ofNat 255) ++ "rcon x say hello".toList ++ [NUL])) :=
  ⟨_, rfl, rfl, rfl, rfl, rfl, rfl, rfl, rfl, rfl⟩


/-! ## Theorems: directive lines -/

theorem strchrFrom_append (c : Char) (X t : List Char) (p : Nat)
    (hX : ∀ x ∈ X, x ≠ NUL ∧ x ≠ c) :
    strchrFrom c (X ++ t) p = strchrFrom c t (p + X.length) := by
  induction X generalizing p with
  | nil => simp
  | cons x X ih =>
    have hx := hX x (by simp)
    have hX2 : ∀ y ∈ X, y ≠ NUL ∧ y ≠ c := fun y hy => hX y (by simp [hy])
    have e : p + 1 + X.length = p + (X.length + 1) := by omega
    show strchrFrom c (x :: (X ++ t)) p = _
    simp only [strchrFrom, hx.1, hx.2, if_false, List.length_cons]
    rw [ih _ hX2, e]

theorem cutAt_absent (c : Char) (X t : List Char) (hX : ∀ x ∈ X, x ≠ NUL ∧ x ≠ c) :
    cutAt c (X ++ NUL :: t) = some (X ++ NUL :: t) := by
  unfold cutAt
  rw [strchrFrom_append _ _ _ _ hX]
  simp [strchrFrom]

theorem cutAt_present (c : Char) (hc : c ≠ NUL) (X t : List Char)
    (hX : ∀ x ∈ X, x ≠ NUL ∧ x ≠ c) :
    cutAt c (X ++ c :: t) = some (X ++ NUL :: t) := by
  unfold cutAt
  rw [strchrFrom_append _ _ _ _ hX]
  simp only [strchrFrom, hc, if_false, if_true, Nat.zero_add]
  rw [set_at _ _ _ _ _ rfl]

/-- A line free of `NUL`, comment character and line feed, with or without the
line feed that ends it: after the two cuts `linebuf` holds the line and a
terminator. -/
theorem processLine_plain (A : FloatArith) (st : ParseState A.F) (X eol : List Char)
    (hX : ∀ x ∈ X, x ≠ NUL ∧ x ≠ HASH ∧ x ≠ LF) (heol : eol = [] ∨ eol = [LF]) :
    ∃ z, processLine A st (X ++ eol)
      = dispatchLine A { st with lineno := st.lineno + 1 } (X ++ NUL :: z) := by
  have hLF : LF ≠ NUL := by decide
  have hLH : LF ≠ HASH := by decide
  rcases heol with rfl | rfl
  · refine ⟨st.linebuf.drop (X.length + 1), ?_⟩
    unfold processLine
    simp only [List.append_nil]
    rw [cutAt_absent HASH X _ (fun x hx => ⟨(hX x hx).1, (hX x hx).2.1⟩)]
    simp only
    rw [cutAt_absent LF X _ (fun x hx => ⟨(hX x hx).1, (hX x hx).2.2⟩)]
  · refine ⟨NUL :: st.linebuf.drop (X.length + 1 + 1), ?_⟩
    unfold processLine
    have hXL : ∀ x ∈ X ++ [LF], x ≠ NUL ∧ x ≠ HASH := by
      intro x hx
      rcases List.mem_append.1 hx with h | h
      · exact ⟨(hX x h).1, (hX x h).2.1⟩
      · rw [List.mem_singleton.1 h]; exact ⟨hLF, hLH⟩
    simp only
    rw [cutAt_absent HASH (X ++ [LF]) _ hXL]
    simp only [List.append_assoc, List.singleton_append, List.length_append, List.length_singleton]
    rw [cutAt_present LF hLF X _ (fun x hx => ⟨(hX x hx).1, (hX x hx).2.2⟩)]

theorem isWord_spec (w : List Char) (h : isWord w = true) :
    w ≠ [] ∧ w.head? ≠ some DQUOTE ∧
      (∀ c ∈ w, c ≠ NUL ∧ c ∉ delimiters) ∧ (∀ c ∈ w, c ≠ NUL ∧ c ≠ HASH ∧ c ≠ LF) := by
  simp only [isWord, Bool.and_eq_true, Bool.not_eq_true', List.isEmpty_eq_false,
    decide_eq_true_eq, List.all_eq_true] at h
  obtain ⟨⟨h1, h2⟩, h3⟩ := h
  refine ⟨h1, h2, fun c hc => ⟨(h3 c hc).1.1, (h3 c hc).2⟩, fun c hc => ⟨(h3 c hc).1.1,
    (h3 c hc).1.2, ?_⟩⟩
  intro e
  apply (h3 c hc).2
  rw [e]; decide

theorem isCommandText_spec (cmd : List Char) (h : isCommandText cmd = true) :
    cmd ≠ [] ∧ (∀ c ∈ cmd, c ≠ NUL ∧ c ≠ HASH ∧ c ≠ LF) := by
  simp only [isCommandText, Bool.and_eq_true, Bool.not_eq_true', List.isEmpty_eq_false,
    decide_eq_true_eq, List.all_eq_true] at h
  exact ⟨h.1, fun c hc => ⟨(h.2 c hc).1.1, (h.2 c hc).1.2, (h.2 c hc).2⟩⟩


/-- The first `tokenize` call on a buffer that starts with a plain directive token
followed by a space. -/
theorem tokenize_first (w tail : List Char) (hw : isWord w = true) :
    ∃ t1, tokenize { buf := w ++ SP :: tail, next := 0 } (some 0) delimiters = some (some 0, t1) ∧
      t1.buf = w ++ NUL :: tail ∧ t1.next = (w ++ [NUL]).length ∧
      cstrAt t1.buf 0 = some w := by
  obtain ⟨hne, hq, hwd, _⟩ := isWord_spec w hw
  have hsp : SP ≠ NUL := by decide
  have hspd : SP ∈ delimiters := by decide
  have ht := tokenize_word_delim { buf := w ++ SP :: tail, next := 0 } [] [] w tail SP
    (by simp) rfl (by simp) hwd hne hq hsp hspd
  refine ⟨_, by rw [tokenize_restart]; exact ht, by simp, by simp, ?_⟩
  exact cstrAt_token _ [] w tail 0 (by simp) rfl (fun h => (hwd _ h).1 rfl)

/-- A further `tokenize` call that finds a plain token followed by a space. -/
theorem tokenize_next_word (t : TokState) (done w tail : List Char) (hw : isWord w = true)
    (hbuf : t.buf = done ++ (w ++ SP :: tail)) (hnext : t.next = done.length) :
    ∃ t1, tokenize t none delimiters = some (some done.length, t1) ∧
      t1.buf = done ++ (w ++ NUL :: tail) ∧ t1.next = (done ++ (w ++ [NUL])).length := by
  obtain ⟨hne, hq, hwd, _⟩ := isWord_spec w hw
  have hsp : SP ≠ NUL := by decide
  have hspd : SP ∈ delimiters := by decide
  have ht := tokenize_word_delim t done [] w tail SP
    (by simpa using hbuf) hnext (by simp) hwd hne hq hsp hspd
  exact ⟨_, by simpa using ht, by simp, by simp +arith⟩

/-- A further `tokenize` call that finds a plain token running to the terminator. -/
theorem tokenize_last_word (t : TokState) (done w z : List Char) (hw : isWord w = true)
    (hbuf : t.buf = done ++ (w ++ NUL :: z)) (hnext : t.next = done.length) :
    ∃ t1, tokenize t none delimiters = some (some done.length, t1) ∧ t1.buf = t.buf := by
  obtain ⟨hne, hq, hwd, _⟩ := isWord_spec w hw
  have ht := tokenize_word_end t done [] w z (by simpa using hbuf) hnext (by simp) hwd hne hq
  exact ⟨{ buf := t.buf, next := done.length + w.length }, by simpa using ht, rfl⟩

/-- The line `button <tok> <cmd>` in the buffer: what the `button` branch does
with the channel token `tok` and the command `cmd`. -/
theorem dispatchLine_button (A : FloatArith) (st : ParseState A.F) (tok cmd z : List Char)
    (htok : isWord tok = true) (hcmd : isCommandText cmd = true) :
    ∃ buf, dispatchLine A st (buttonLine tok cmd ++ NUL :: z) =
      (if (strtol tok).2 ≠ tok.length then
        match mapControl st.controlSurfaceMap tok with
        | none => none
        | some none =>
            some ({ st with linebuf := buf }.fail (Diag.invalidChannel "button".toList tok))
        | some (some surf) =>
            if surf.type ≠ SurfaceType.Button then
              some ({ st with linebuf := buf }.fail (Diag.wrongKind tok "button".toList))
            else
              some { st with linebuf := buf, new_config := { st.new_config with
                buttons := assign st.new_config.buttons surf.channel cmd } }
      else
        some { st with linebuf := buf, new_config := { st.new_config with
          buttons := assign st.new_config.buttons (toInt32 (strtol tok).1) cmd } }) := by
  obtain ⟨hcne, hcc⟩ := isCommandText_spec cmd hcmd
  obtain ⟨c0, cmd1, rfl⟩ := List.exists_cons_of_ne_nil hcne
  have hc0 : c0 ≠ NUL := (hcc c0 (by simp)).1
  have htn : NUL ∉ tok := fun h => ((isWord_spec tok htok).2.2.1 _ h).1 rfl
  have hcn : NUL ∉ c0 :: cmd1 := fun h => (hcc _ h).1 rfl
  obtain ⟨t1, ht1, hb1, hn1, hs1⟩ :=
    tokenize_first "button".toList (tok ++ SP :: (c0 :: cmd1 ++ NUL :: z)) (by decide)
  obtain ⟨t2, ht2, hb2, _⟩ := tokenize_next_word t1 ("button".toList ++ [NUL]) tok
    (c0 :: cmd1 ++ NUL :: z) htok (by simpa using hb1) hn1
  have hch : cstrAt t2.buf ("button".toList ++ [NUL]).length = some tok :=
    cstrAt_token _ ("button".toList ++ [NUL]) tok _ _ hb2 rfl htn
  have hget : t2.buf.get? (("button".toList ++ [NUL]).length + tok.length + 1) = some c0 := by
    rw [hb2]
    have e : "button".toList ++ [NUL] ++ (tok ++ NUL :: (c0 :: cmd1 ++ NUL :: z))
        = ("button".toList ++ [NUL] ++ tok ++ [NUL]) ++ c0 :: (cmd1 ++ NUL :: z) := by simp
    rw [e]
    exact get_at _ _ _ _ (by simp +arith)
  have hcmdS : cstrAt t2.buf (("button".toList ++ [NUL]).length + tok.length + 1)
      = some (c0 :: cmd1) :=
    cstrAt_token _ ("button".toList ++ [NUL] ++ tok ++ [NUL]) (c0 :: cmd1) z _
      (by rw [hb2]; simp) (by simp +arith) hcn
  refine ⟨t2.buf, ?_⟩
  have hd : dispatchLine A st (buttonLine tok (c0 :: cmd1) ++ NUL :: z) = directiveButton st t1 := by
    have hbuf : buttonLine tok (c0 :: cmd1) ++ NUL :: z
        = "button".toList ++ SP :: (tok ++ SP :: (c0 :: cmd1 ++ NUL :: z)) := by
      simp [buttonLine]
    unfold dispatchLine
    rw [hbuf, ht1]
    simp only [hs1]
    rw [if_neg (by decide), if_neg (by decide), if_neg (by decide), if_neg (by decide),
      if_neg (by decide)]
    exact if_pos trivial
  rw [hd]
  unfold directiveButton
  rw [ht2]
  simp only [hch, hget, hcmdS, hc0, if_false]


/-- The line `<what> <tok> <cvar> <vmin> <vmax>` in the buffer, for `what` one of
`knob` and `slider`: what the `knob` / `slider` branch does with the channel token
`tok` and the three parameters. -/
theorem dispatchLine_knob (A : FloatArith) (st : ParseState A.F)
    (what tok cvar vmin vmax z : List Char)
    (hwhat : what = "knob".toList ∨ what = "slider".toList)
    (htok : isWord tok = true) (hcvar : isWord cvar = true)
    (hvmin : isWord vmin = true) (hvmax : isWord vmax = true) :
    ∃ buf, dispatchLine A st (knobLine what tok cvar vmin vmax ++ NUL :: z) =
      (if (strtol tok).2 ≠ tok.length then
        match mapControl st.controlSurfaceMap tok with
        | none => none
        | some none => some ({ st with linebuf := buf }.fail (Diag.invalidChannel what tok))
        | some (some surf) =>
            if (decide (what = "knob".toList) && decide (surf.type ≠ SurfaceType.RotaryKnob)) ||
                (!decide (what = "knob".toList) && decide (surf.type ≠ SurfaceType.Slider)) then
              some ({ st with linebuf := buf }.fail (Diag.wrongKind tok what))
            else
              some { st with linebuf := buf, new_config := { st.new_config with
                knobs := assign st.new_config.knobs surf.channel
                  { name := cvar, min_value := A.atof vmin, max_value := A.atof vmax } } }
      else
        some { st with linebuf := buf, new_config := { st.new_config with
          knobs := assign st.new_config.knobs (toInt32 (strtol tok).1)
            { name := cvar, min_value := A.atof vmin, max_value := A.atof vmax } } }) := by
  have hn : ∀ w, isWord w = true → NUL ∉ w :=
    fun w hw h => ((isWord_spec w hw).2.2.1 _ h).1 rfl
  have hwhatW : isWord what = true := by rcases hwhat with rfl | rfl <;> decide
  obtain ⟨t1, ht1, hb1, hn1, hs1⟩ := tokenize_first what
    (tok ++ SP :: (cvar ++ SP :: (vmin ++ SP :: (vmax ++ NUL :: z)))) hwhatW
  obtain ⟨t2, ht2, hb2, hn2⟩ := tokenize_next_word t1 (what ++ [NUL]) tok
    (cvar ++ SP :: (vmin ++ SP :: (vmax ++ NUL :: z))) htok (by simpa using hb1) hn1
  obtain ⟨t3, ht3, hb3, hn3⟩ := tokenize_next_word t2 (what ++ [NUL] ++ (tok ++ [NUL])) cvar
    (vmin ++ SP :: (vmax ++ NUL :: z)) hcvar (by simpa using hb2) hn2
  obtain ⟨t4, ht4, hb4, hn4⟩ := tokenize_next_word t3
    (what ++ [NUL] ++ (tok ++ [NUL]) ++ (cvar ++ [NUL])) vmin
    (vmax ++ NUL :: z) hvmin (by simpa using hb3) hn3
  obtain ⟨t5, ht5, hb5⟩ := tokenize_last_word t4
    (what ++ [NUL] ++ (tok ++ [NUL]) ++ (cvar ++ [NUL]) ++ (vmin ++ [NUL])) vmax z hvmax
    (by simpa using hb4) hn4
  have hch : cstrAt t5.buf (what ++ [NUL]).length = some tok :=
    cstrAt_token _ (what ++ [NUL]) tok _ _ (by rw [hb5, hb4]; simp; rfl) rfl (hn _ htok)
  have hcv : cstrAt t5.buf (what ++ [NUL] ++ (tok ++ [NUL])).length = some cvar :=
    cstrAt_token _ (what ++ [NUL] ++ (tok ++ [NUL])) cvar _ _ (by rw [hb5, hb4]; simp; rfl) rfl
      (hn _ hcvar)
  have hmn : cstrAt t5.buf (what ++ [NUL] ++ (tok ++ [NUL]) ++ (cvar ++ [NUL])).length
      = some vmin :=
    cstrAt_token _ (what ++ [NUL] ++ (tok ++ [NUL]) ++ (cvar ++ [NUL])) vmin _ _
      (by rw [hb5, hb4]) rfl (hn _ hvmin)
  have hmx : cstrAt t5.buf
      (what ++ [NUL] ++ (tok ++ [NUL]) ++ (cvar ++ [NUL]) ++ (vmin ++ [NUL])).length
      = some vmax :=
    cstrAt_token _ (what ++ [NUL] ++ (tok ++ [NUL]) ++ (cvar ++ [NUL]) ++ (vmin ++ [NUL])) vmax z _
      (by rw [hb5, hb4]; simp) rfl (hn _ hvmax)
  refine ⟨t5.buf, ?_⟩
  have hd : dispatchLine A st (knobLine what tok cvar vmin vmax ++ NUL :: z)
      = directiveKnob A st t1 what := by
    have hbuf : knobLine what tok cvar vmin vmax ++ NUL :: z
        = what ++ SP :: (tok ++ SP :: (cvar ++ SP :: (vmin ++ SP :: (vmax ++ NUL :: z)))) := by
      simp [knobLine]
    unfold dispatchLine
    rw [hbuf, ht1]
    simp only [hs1]
    rcases hwhat with rfl | rfl
    · rw [if_neg (by decide), if_neg (by decide), if_neg (by decide), if_neg (by decide),
        if_neg (by decide), if_neg (by decide)]
      exact if_pos (Or.inl rfl)
    · rw [if_neg (by decide), if_neg (by decide), if_neg (by decide), if_neg (by decide),
        if_neg (by decide), if_neg (by decide)]
      exact if_pos (Or.inr rfl)
  rw [hd]
  unfold directiveKnob
  rw [ht2]
  simp only [ht3, ht4, ht5, hch, hcv, hmn, hmx]


theorem plain_of_isWord (w : List Char) (h : isWord w = true) :
    ∀ c ∈ w, c ≠ NUL ∧ c ≠ HASH ∧ c ≠ LF :=
  (isWord_spec w h).2.2.2

theorem plain_append (X Y : List Char) (hX : ∀ c ∈ X, c ≠ NUL ∧ c ≠ HASH ∧ c ≠ LF)
    (hY : ∀ c ∈ Y, c ≠ NUL ∧ c ≠ HASH ∧ c ≠ LF) :
    ∀ c ∈ X ++ SP :: Y, c ≠ NUL ∧ c ≠ HASH ∧ c ≠ LF := by
  intro c hc
  rcases List.mem_append.1 hc with h | h
  · exact hX c h
  · rcases List.mem_cons.1 h with h | h
    · rw [h]; decide
    · exact hY c h

theorem buttonLine_plain (tok cmd : List Char) (htok : isWord tok = true)
    (hcmd : isCommandText cmd = true) :
    ∀ c ∈ buttonLine tok cmd, c ≠ NUL ∧ c ≠ HASH ∧ c ≠ LF :=
  plain_append _ _ (plain_of_isWord _ (by decide))
    (plain_append _ _ (plain_of_isWord _ htok) (isCommandText_spec cmd hcmd).2)

theorem knobLine_plain (what tok cvar vmin vmax : List Char) (hwhat : isWord what = true)
    (htok : isWord tok = true) (hcvar : isWord cvar = true) (hvmin : isWord vmin = true)
    (hvmax : isWord vmax = true) :
    ∀ c ∈ knobLine what tok cvar vmin vmax, c ≠ NUL ∧ c ≠ HASH ∧ c ≠ LF :=
  plain_append _ _ (plain_of_isWord _ hwhat)
    (plain_append _ _ (plain_of_isWord _ htok)
      (plain_append _ _ (plain_of_isWord _ hcvar)
        (plain_append _ _ (plain_of_isWord _ hvmin) (plain_of_isWord _ hvmax))))

theorem mem_of_lookup (a : List Char) (s : ControlSurface) :
    ∀ (m : ControlSurfaceMap), m.lookup a = some s → (a, s) ∈ m := by
  intro m
  induction m with
  | nil => intro h; simp [List.lookup] at h
  | cons p m ih =>
    intro h
    obtain ⟨k, v⟩ := p
    simp only [List.lookup] at h
    split at h
    · rename_i hk
      have hak : a = k := by simpa using hk
      cases h
      simp [hak]
    · exact List.mem_cons_of_mem _ (ih h)

set_option maxRecDepth 100000 in
/-- Every alias of the profile `nanoKONTROL2` is a plain token that `strtol` does
not consume completely. -/
theorem alias_is_word (a : List Char) (s : ControlSurface)
    (h : controlMap_Korg_nanoKONTROL2.lookup a = some s) :
    isWord a = true ∧ (strtol a).2 ≠ a.length := by
  have hall : ∀ p ∈ controlMap_Korg_nanoKONTROL2,
      isWord p.1 = true ∧ (strtol p.1).2 ≠ p.1.length := by decide
  exact hall (a, s) (mem_of_lookup a s _ h)

theorem not_accepted_of_fail {F : Type} (st st0 : ParseState F) (d : Diag)
    (h : st0.stderr = st.stderr) : ¬ LineAccepted st (st0.fail d) := by
  intro hacc
  have := congrArg List.length hacc.2
  simp [ParseState.fail, h] at this

/-- C3. Alias kind compatibility: with the profile `nanoKONTROL2` active, for
every alias `a` of the profile, the line `button a <cmd>` is accepted iff the kind
of `a` is Button, the line `knob a <cvar> <min> <max>` iff it is RotaryKnob and
the line `slider a <cvar> <min> <max>` iff it is Slider.  An accepted line stores
its mapping under the channel of `a`; a line of the wrong kind fails with the
kind-mismatch message and leaves the working configuration, so `buttons` and
`knobs`, as it was. -/
theorem C3_alias_kind_compatibility (A : FloatArith) (st : ParseState A.F)
    (a : List Char) (s : ControlSurface) (cmd cvar vmin vmax eol : List Char)
    (hprofile : st.controlSurfaceMap = some controlMap_Korg_nanoKONTROL2)
    (halias : controlMap_Korg_nanoKONTROL2.lookup a = some s)
    (hcmd : isCommandText cmd = true) (hcvar : isWord cvar = true)
    (hvmin : isWord vmin = true) (hvmax : isWord vmax = true)
    (heol : eol = [] ∨ eol = [LF]) :
    (∃ st1, processLine A st (buttonLine a cmd ++ eol) = some st1 ∧
      (LineAccepted st st1 ↔ s.type = SurfaceType.Button) ∧
      (s.type = SurfaceType.Button → st1.new_config =
        { st.new_config with buttons := assign st.new_config.buttons s.channel cmd }) ∧
      (s.type ≠ SurfaceType.Button →
        LineRejected st st1 (Diag.wrongKind a "button".toList))) ∧
    (∃ st1, processLine A st (knobLine "knob".toList a cvar vmin vmax ++ eol) = some st1 ∧
      (LineAccepted st st1 ↔ s.type = SurfaceType.RotaryKnob) ∧
      (s.type = SurfaceType.RotaryKnob → st1.new_config =
        { st.new_config with
          knobs := assign st.new_config.knobs s.channel
            { name := cvar, min_value := A.atof vmin, max_value := A.atof vmax } }) ∧
      (s.type ≠ SurfaceType.RotaryKnob →
        LineRejected st st1 (Diag.wrongKind a "knob".toList))) ∧
    (∃ st1, processLine A st (knobLine "slider".toList a cvar vmin vmax ++ eol) = some st1 ∧
      (LineAccepted st st1 ↔ s.type = SurfaceType.Slider) ∧
      (s.type = SurfaceType.Slider → st1.new_config =
        { st.new_config with
          knobs := assign st.new_config.knobs s.channel
            { name := cvar, min_value := A.atof vmin, max_value := A.atof vmax } }) ∧
      (s.type ≠ SurfaceType.Slider →
        LineRejected st st1 (Diag.wrongKind a "slider".toList))) := by
  obtain ⟨haw, hanum⟩ := alias_is_word a s halias
  have hmap : mapControl (some controlMap_Korg_nanoKONTROL2) a = some (some s) := by
    simp [mapControl, halias]
  refine ⟨?_, ?_, ?_⟩
  · obtain ⟨z, hz⟩ := processLine_plain A st (buttonLine a cmd) eol
      (buttonLine_plain a cmd haw hcmd) heol
    obtain ⟨buf, hb⟩ := dispatchLine_button A { st with lineno := st.lineno + 1 } a cmd z haw hcmd
    rw [hz, hb, if_pos hanum]
    simp only [hprofile, hmap]
    by_cases hk : s.type = SurfaceType.Button
    · rw [if_neg (not_not.2 hk)]
      exact ⟨_, rfl, ⟨fun _ => hk, fun _ => ⟨rfl, rfl⟩⟩, fun _ => rfl, fun h => absurd hk h⟩
    · rw [if_pos hk]
      exact ⟨_, rfl, ⟨fun h => absurd h (not_accepted_of_fail st _ _ rfl), fun h => absurd h hk⟩,
        fun h => absurd h hk, fun _ => ⟨rfl, rfl, rfl⟩⟩
  · obtain ⟨z, hz⟩ := processLine_plain A st (knobLine "knob".toList a cvar vmin vmax) eol
      (knobLine_plain _ a cvar vmin vmax (by decide) haw hcvar hvmin hvmax) heol
    obtain ⟨buf, hb⟩ := dispatchLine_knob A { st with lineno := st.lineno + 1 } "knob".toList
      a cvar vmin vmax z (Or.inl rfl) haw hcvar hvmin hvmax
    rw [hz, hb, if_pos hanum]
    simp only [hprofile, hmap]
    by_cases hk : s.type = SurfaceType.RotaryKnob
    · rw [if_neg (by simp [hk])]
      exact ⟨_, rfl, ⟨fun _ => hk, fun _ => ⟨rfl, rfl⟩⟩, fun _ => rfl, fun h => absurd hk h⟩
    · rw [if_pos (by simp [hk])]
      exact ⟨_, rfl, ⟨fun h => absurd h (not_accepted_of_fail st _ _ rfl), fun h => absurd h hk⟩,
        fun h => absurd h hk, fun _ => ⟨rfl, rfl, rfl⟩⟩
  · obtain ⟨z, hz⟩ := processLine_plain A st (knobLine "slider".toList a cvar vmin vmax) eol
      (knobLine_plain _ a cvar vmin vmax (by decide) haw hcvar hvmin hvmax) heol
    obtain ⟨buf, hb⟩ := dispatchLine_knob A { st with lineno := st.lineno + 1 } "slider".toList
      a cvar vmin vmax z (Or.inr rfl) haw hcvar hvmin hvmax
    rw [hz, hb, if_pos hanum]
    simp only [hprofile, hmap]
    have hsl : decide ("slider".toList = "knob".toList) = false := by decide
    by_cases hk : s.type = SurfaceType.Slider
    · rw [if_neg (by simp [hk, hsl])]
      exact ⟨_, rfl, ⟨fun _ => hk, fun _ => ⟨rfl, rfl⟩⟩, fun _ => rfl, fun h => absurd hk h⟩
    · rw [if_pos (by simp [hk, hsl])]
      exact ⟨_, rfl, ⟨fun h => absurd h (not_accepted_of_fail st _ _ rfl), fun h => absurd h hk⟩,
        fun h => absurd h hk, fun _ => ⟨rfl, rfl, rfl⟩⟩


/-- Witness for C3: the alias `kn0`, a rotary knob, in a `button` line (rejected)
and in a `knob` line (accepted). -/
theorem C3_alias_kind_compatibility_witness :
    (∃ st1, processLine exactArith exampleState
        (buttonLine "kn0".toList "say hi".toList ++ [LF]) = some st1 ∧
      LineRejected exampleState st1 (Diag.wrongKind "kn0".toList "button".toList)) ∧
    (∃ st1, processLine exactArith exampleState
        (knobLine "knob".toList "kn0".toList "sens".toList "0".toList "5".toList ++ [LF])
          = some st1 ∧
      LineAccepted exampleState st1) :=
  have h := C3_alias_kind_compatibility exactArith exampleState "kn0".toList (KNOB 16)
    "say hi".toList "sens".toList "0".toList "5".toList [LF] rfl (by decide) (by decide)
    (by decide) (by decide) (by decide) (Or.inr rfl)
  ⟨h.1.elim (fun st1 hs => ⟨st1, hs.1, hs.2.2.2 (by decide)⟩),
   h.2.1.elim (fun st1 hs => ⟨st1, hs.1, hs.2.1.2 rfl⟩)⟩

theorem not_isspace_of_isdigit (c : Char) (h : isdigit c = true) : isspace c = false := by
  simp only [isdigit, Bool.and_eq_true, decide_eq_true_eq] at h
  simp only [isspace, Bool.or_eq_false_iff, decide_eq_false_iff_not, Bool.and_eq_false_iff]
  omega

theorem not_sign_of_isdigit (c : Char) (h : isdigit c = true) :
    c ≠ Char.ofNat 45 ∧ c ≠ Char.ofNat 43 := by
  constructor <;> (intro e; rw [e] at h; revert h; decide)

/-- On a non-empty run of decimal digits whose value fits an `int`, `strtol`
consumes the whole text and the channel key is its decimal value. -/
theorem strtol_digits (ds : List Char) (hne : ds ≠ []) (hd : ∀ c ∈ ds, isdigit c = true)
    (hv : digitsValue ds < 2 ^ 31) :
    (strtol ds).2 = ds.length ∧ toInt32 (strtol ds).1 = (digitsValue ds : Int) := by
  obtain ⟨c, r, rfl⟩ := List.exists_cons_of_ne_nil hne
  have hc := hd c (by simp)
  have hsp := not_isspace_of_isdigit c hc
  have hsg := not_sign_of_isdigit c hc
  have htw : (c :: r).takeWhile isdigit = c :: r := by
    rw [List.takeWhile_eq_self_iff]; exact hd
  have h0 : (0 : Int) ≤ (digitsValue (c :: r) : Int) := Int.ofNat_nonneg _
  have h1 : (digitsValue (c :: r) : Int) < 2 ^ 31 := by exact_mod_cast hv
  have hcl : clampLong (digitsValue (c :: r) : Int) = (digitsValue (c :: r) : Int) := by
    have h2 : (2 : Int) ^ (64 - 1) = 9223372036854775808 := by norm_num
    unfold clampLong LONG_BITS
    rw [h2]
    split_ifs <;> omega
  have e1 : (c :: r).takeWhile isspace = [] := by
    rw [List.takeWhile_cons, hsp]; rfl
  have e2 : (c :: r).dropWhile isspace = c :: r := by
    rw [List.dropWhile_cons, hsp]; rfl
  have e3 : ¬ ((c :: r).head? = some (Char.ofNat 45) ∨ (c :: r).head? = some (Char.ofNat 43)) := by
    rw [List.head?_cons]
    intro h
    rcases h with h | h
    · exact hsg.1 (Option.some.inj h)
    · exact hsg.2 (Option.some.inj h)
  have e4 : ¬ ((c :: r).head? = some (Char.ofNat 45)) := fun h => e3 (Or.inl h)
  have hst : strtol (c :: r) = ((digitsValue (c :: r) : Int), (c :: r).length) := by
    unfold strtol
    simp only [e1, e2, if_neg e3, List.drop_zero, htw, decide_eq_false e4]
    simp [hcl]
  rw [hst]
  refine ⟨rfl, ?_⟩
  unfold toInt32
  simp only
  omega

/-- C4. Channel resolution precedence: when `strtol` consumes the whole channel
token of a `button`, `knob` or `slider` line, the line is accepted and the mapping
is stored under the integer `strtol` returns (converted to `int`), whatever
`controlSurfaceMap` is (no profile included): the catalog is not consulted, and
`controlSurfaceMap` is left as it was.  For a token that is a run of decimal
digits of value below `2^31` that integer is the decimal value of the token. -/
theorem C4_numeric_channel_precedence (A : FloatArith) (st : ParseState A.F)
    (tok cmd cvar vmin vmax eol : List Char)
    (htok : isWord tok = true) (hnum : (strtol tok).2 = tok.length)
    (hcmd : isCommandText cmd = true) (hcvar : isWord cvar = true)
    (hvmin : isWord vmin = true) (hvmax : isWord vmax = true)
    (heol : eol = [] ∨ eol = [LF]) :
    (∃ st1, processLine A st (buttonLine tok cmd ++ eol) = some st1 ∧
      LineAccepted st st1 ∧ st1.controlSurfaceMap = st.controlSurfaceMap ∧
      st1.new_config = { st.new_config with
        buttons := assign st.new_config.buttons (toInt32 (strtol tok).1) cmd }) ∧
    (∃ st1, processLine A st (knobLine "knob".toList tok cvar vmin vmax ++ eol) = some st1 ∧
      LineAccepted st st1 ∧ st1.controlSurfaceMap = st.controlSurfaceMap ∧
      st1.new_config = { st.new_config with
        knobs := assign st.new_config.knobs (toInt32 (strtol tok).1)
          { name := cvar, min_value := A.atof vmin, max_value := A.atof vmax } }) ∧
    (∃ st1, processLine A st (knobLine "slider".toList tok cvar vmin vmax ++ eol) = some st1 ∧
      LineAccepted st st1 ∧ st1.controlSurfaceMap = st.controlSurfaceMap ∧
      st1.new_config = { st.new_config with
        knobs := assign st.new_config.knobs (toInt32 (strtol tok).1)
          { name := cvar, min_value := A.atof vmin, max_value := A.atof vmax } }) ∧
    ((∀ c ∈ tok, isdigit c = true) → digitsValue tok < 2 ^ 31 →
      toInt32 (strtol tok).1 = (digitsValue tok : Int)) := by
  refine ⟨?_, ?_, ?_, ?_⟩
  · obtain ⟨z, hz⟩ := processLine_plain A st (buttonLine tok cmd) eol
      (buttonLine_plain tok cmd htok hcmd) heol
    obtain ⟨buf, hb⟩ := dispatchLine_button A { st with lineno := st.lineno + 1 } tok cmd z
      htok hcmd
    rw [hz, hb, if_neg (not_not.2 hnum)]
    exact ⟨_, rfl, ⟨rfl, rfl⟩, rfl, rfl⟩
  · obtain ⟨z, hz⟩ := processLine_plain A st (knobLine "knob".toList tok cvar vmin vmax) eol
      (knobLine_plain _ tok cvar vmin vmax (by decide) htok hcvar hvmin hvmax) heol
    obtain ⟨buf, hb⟩ := dispatchLine_knob A { st with lineno := st.lineno + 1 } "knob".toList
      tok cvar vmin vmax z (Or.inl rfl) htok hcvar hvmin hvmax
    rw [hz, hb, if_neg (not_not.2 hnum)]
    exact ⟨_, rfl, ⟨rfl, rfl⟩, rfl, rfl⟩
  · obtain ⟨z, hz⟩ := processLine_plain A st (knobLine "slider".toList tok cvar vmin vmax) eol
      (knobLine_plain _ tok cvar vmin vmax (by decide) htok hcvar hvmin hvmax) heol
    obtain ⟨buf, hb⟩ := dispatchLine_knob A { st with lineno := st.lineno + 1 } "slider".toList
      tok cvar vmin vmax z (Or.inr rfl) htok hcvar hvmin hvmax
    rw [hz, hb, if_neg (not_not.2 hnum)]
    exact ⟨_, rfl, ⟨rfl, rfl⟩, rfl, rfl⟩
  · intro hd hv
    exact (strtol_digits tok (isWord_spec tok htok).1 hd hv).2

/-- Witness for C4: the line `button 36 say hi` with the profile `nanoKONTROL2`
active, where channel 36 belongs to the button `S4`: the command is stored under
key 36. -/
theorem C4_numeric_channel_precedence_witness :
    ∃ st1, processLine exactArith exampleState
        (buttonLine "36".toList "say hi".toList ++ [LF]) = some st1 ∧
      LineAccepted exampleState st1 ∧
      st1.new_config.buttons 36 = some "say hi".toList :=
  have h := C4_numeric_channel_precedence exactArith exampleState "36".toList
    "say hi".toList "sens".toList "0".toList "5".toList [LF] (by decide) (by decide)
    (by decide) (by decide) (by decide) (by decide) (Or.inr rfl)
  h.1.elim (fun st1 hs => ⟨st1, hs.1, hs.2.1, by rw [hs.2.2.2]; rfl⟩)


/-! ## Theorems: the commands stored by the parser -/

theorem cstr_props : ∀ (l s : List Char), cstr l = some s → NUL ∉ s ∧ s.length < l.length := by
  intro l
  induction l with
  | nil => intro s h; simp [cstr] at h
  | cons c l ih =>
    intro s h
    simp only [cstr] at h
    split at h
    · cases h; simp
    · rename_i hc
      cases hr : cstr l with
      | none => simp [hr] at h
      | some r =>
        simp only [hr, Option.map_some', Option.some.injEq] at h
        subst h
        obtain ⟨h1, h2⟩ := ih r hr
        refine ⟨?_, by simp only [List.length_cons]; omega⟩
        intro hm
        rcases List.mem_cons.1 hm with e | e
        · exact hc e.symm
        · exact h1 e

theorem tokenize_length (st st1 : TokState) (str p : Option Nat) (dl : List Char)
    (h : tokenize st str dl = some (p, st1)) : st1.buf.length = st.buf.length := by
  unfold tokenize at h
  repeat' first
    | split at h
    | dsimp only at h
  all_goals (cases h; try simp)

theorem cutAt_length (c : Char) (b b1 : List Char) (h : cutAt c b = some b1) :
    b1.length = b.length := by
  unfold cutAt at h
  repeat' split at h
  all_goals (cases h; try simp)

theorem fgetsChunks_length (limit : Nat) (hl : 0 < limit) :
    ∀ (text cur : List Char), cur.length < limit →
      ∀ chunk ∈ fgetsChunks limit text cur, chunk.length ≤ limit := by
  intro text
  induction text with
  | nil =>
    intro cur hc chunk hm
    simp only [fgetsChunks] at hm
    split at hm
    · simp at hm
    · simp only [List.mem_singleton] at hm
      rw [hm, List.length_reverse]; omega
  | cons c text ih =>
    intro cur hc chunk hm
    simp only [fgetsChunks] at hm
    split at hm
    · rcases List.mem_cons.1 hm with e | e
      · rw [e, List.length_reverse, List.length_cons]; omega
      · exact ih [] (by simpa using hl) chunk e
    · rename_i hcond
      refine ih (c :: cur) ?_ chunk hm
      simp only [List.length_cons]
      have : ¬ (cur.length + 1 = limit) := fun e => hcond (Or.inr e)
      omega

theorem buttons_assign {F : Type} (cfg : KorgiConfig F) (key : Int) (cmd : List Char)
    (h : ButtonsWellFormed cfg) (hc : cmd ≠ [] ∧ NUL ∉ cmd ∧ cmd.length < COMMAND_SIZE) :
    ButtonsWellFormed { cfg with buttons := assign cfg.buttons key cmd } := by
  intro k v hv
  simp only [assign] at hv
  split at hv
  · cases hv; exact hc
  · exact h k v hv

theorem directiveConnect_keeps {F : Type} (st st1 : ParseState F) (t1 : TokState)
    (h : directiveConnect st t1 = some st1) : KeepsButtons t1.buf.length st st1 := by
  unfold directiveConnect at h
  split at h
  · cases h
  rename_i addr t2 ht2
  have hl2 := tokenize_length _ _ _ _ _ ht2
  split at h
  · cases h
  rename_i port t3 ht3
  have hl3 := tokenize_length _ _ _ _ _ ht3
  repeat' first
    | split at h
    | dsimp only at h
  all_goals (cases h; try simp [KeepsButtons, ParseState.fail, hl2, hl3])

theorem directivePassword_keeps {F : Type} (st st1 : ParseState F) (t1 : TokState)
    (h : directivePassword st t1 = some st1) : KeepsButtons t1.buf.length st st1 := by
  unfold directivePassword at h
  split at h
  · cases h
  rename_i tok t2 ht2
  have hl2 := tokenize_length _ _ _ _ _ ht2
  repeat' first
    | split at h
    | dsimp only at h
  all_goals (cases h; try simp [KeepsButtons, ParseState.fail, hl2])

theorem directiveDevice_keeps {F : Type} (st st1 : ParseState F) (t1 : TokState)
    (h : directiveDevice st t1 = some st1) : KeepsButtons t1.buf.length st st1 := by
  unfold directiveDevice at h
  split at h
  · cases h
  rename_i tok t2 ht2
  have hl2 := tokenize_length _ _ _ _ _ ht2
  repeat' first
    | split at h
    | dsimp only at h
  all_goals (cases h; try simp [KeepsButtons, ParseState.fail, hl2])

theorem directiveDeviceName_keeps {F : Type} (st st1 : ParseState F) (t1 : TokState)
    (h : directiveDeviceName st t1 = some st1) : KeepsButtons t1.buf.length st st1 := by
  unfold directiveDeviceName at h
  split at h
  · cases h
  rename_i tok t2 ht2
  have hl2 := tokenize_length _ _ _ _ _ ht2
  repeat' first
    | split at h
    | dsimp only at h
  all_goals (cases h; try simp [KeepsButtons, ParseState.fail, hl2])

theorem directiveDeviceMap_keeps {F : Type} (st st1 : ParseState F) (t1 : TokState)
    (h : directiveDeviceMap st t1 = some st1) : KeepsButtons t1.buf.length st st1 := by
  unfold directiveDeviceMap at h
  split at h
  · cases h
  rename_i tok t2 ht2
  have hl2 := tokenize_length _ _ _ _ _ ht2
  repeat' first
    | split at h
    | dsimp only at h
  all_goals (cases h; try simp [KeepsButtons, ParseState.fail, hl2])

theorem directiveKnob_keeps (A : FloatArith) (st st1 : ParseState A.F) (t1 : TokState)
    (what : List Char) (h : directiveKnob A st t1 what = some st1) :
    KeepsButtons t1.buf.length st st1 := by
  unfold directiveKnob at h
  dsimp only at h
  split at h
  · cases h
  rename_i tok2 t2 ht2
  have hl2 := tokenize_length _ _ _ _ _ ht2
  split at h
  · cases h
  rename_i tok3 t3 ht3
  have hl3 := tokenize_length _ _ _ _ _ ht3
  split at h
  · cases h
  rename_i tok4 t4 ht4
  have hl4 := tokenize_length _ _ _ _ _ ht4
  split at h
  · cases h
  rename_i tok5 t5 ht5
  have hl5 := tokenize_length _ _ _ _ _ ht5
  repeat' first
    | split at h
    | dsimp only at h
  all_goals (cases h; try simp [KeepsButtons, ParseState.fail, hl2, hl3, hl4, hl5])

/-- The `button` branch keeps the length of the buffer and either leaves
`buttons` alone or assigns one key a non-empty C string read from the buffer. -/
theorem directiveButton_stores {F : Type} (st st1 : ParseState F) (t1 : TokState)
    (h : directiveButton st t1 = some st1) :
    st1.linebuf.length = t1.buf.length ∧
    (st1.new_config.buttons = st.new_config.buttons ∨
      ∃ key cmd, st1.new_config.buttons = assign st.new_config.buttons key cmd ∧
        cmd ≠ [] ∧ NUL ∉ cmd ∧ cmd.length < t1.buf.length) := by
  unfold directiveButton at h
  split at h
  · cases h
  rename_i channel t2 ht2
  have hl2 := tokenize_length _ _ _ _ _ ht2
  split at h
  · cases h
  rename_i ch
  split at h
  · cases h
  rename_i chS hchS
  dsimp only at h
  split at h
  · cases h
  rename_i c0 hget
  split at h
  · cases h; simp [ParseState.fail, hl2]
  rename_i hc0
  have key : ∀ cmdS, cstrAt t2.buf (ch + chS.length + 1) = some cmdS →
      cmdS ≠ [] ∧ NUL ∉ cmdS ∧ cmdS.length < t1.buf.length := by
    intro cmdS hcmd
    unfold cstrAt at hcmd
    obtain ⟨h1, h2⟩ := cstr_props _ _ hcmd
    refine ⟨?_, h1, ?_⟩
    · intro e
      subst e
      have hd : (t2.buf.drop (ch + chS.length + 1)).head? = some c0 := by
        rw [List.head?_drop]; simpa using hget
      cases hdl : t2.buf.drop (ch + chS.length + 1) with
      | nil => simp [hdl] at hd
      | cons x r =>
        rw [hdl] at hd hcmd
        simp only [List.head?_cons, Option.some.injEq] at hd
        subst hd
        simp [cstr, hc0] at hcmd
    · simp only [List.length_drop] at h2
      omega
  repeat' first
    | split at h
    | dsimp only at h
  all_goals (cases h; try simp [ParseState.fail, hl2])
  all_goals (right; exact ⟨_, _, rfl, key _ (by assumption)⟩)


theorem buttons_of_keeps {F : Type} (n : Nat) (st st1 : ParseState F)
    (hk : KeepsButtons n st st1) (h : ButtonsWellFormed st.new_config) :
    st1.linebuf.length = n ∧ ButtonsWellFormed st1.new_config := by
  refine ⟨hk.1, ?_⟩
  intro k v hv
  rw [hk.2] at hv
  exact h k v hv

theorem dispatchLine_buttons (A : FloatArith) (st st1 : ParseState A.F) (buf : List Char)
    (h : dispatchLine A st buf = some st1) (hlen : buf.length ≤ LINEBUF_SIZE)
    (hb : ButtonsWellFormed st.new_config) :
    st1.linebuf.length = buf.length ∧ ButtonsWellFormed st1.new_config := by
  unfold dispatchLine at h
  split at h
  · cases h
  · rename_i t1 ht1
    have hl1 := tokenize_length _ _ _ _ _ ht1
    cases h
    exact ⟨hl1, hb⟩
  rename_i cmd t1 ht1
  have hl1 : t1.buf.length = buf.length := tokenize_length _ _ _ _ _ ht1
  split at h
  · cases h
  split at h
  · rw [← hl1]; exact buttons_of_keeps _ _ _ (directiveConnect_keeps _ _ _ h) hb
  split at h
  · rw [← hl1]; exact buttons_of_keeps _ _ _ (directivePassword_keeps _ _ _ h) hb
  split at h
  · rw [← hl1]; exact buttons_of_keeps _ _ _ (directiveDevice_keeps _ _ _ h) hb
  split at h
  · rw [← hl1]; exact buttons_of_keeps _ _ _ (directiveDeviceName_keeps _ _ _ h) hb
  split at h
  · rw [← hl1]; exact buttons_of_keeps _ _ _ (directiveDeviceMap_keeps _ _ _ h) hb
  split at h
  · obtain ⟨hl, hs⟩ := directiveButton_stores _ _ _ h
    refine ⟨by rw [hl, hl1], ?_⟩
    rcases hs with hs | ⟨key, cmd1, hs, hne, hnul, hlt⟩
    · intro k v hv
      rw [hs] at hv
      exact hb k v hv
    · intro k v hv
      rw [hs] at hv
      simp only [assign] at hv
      split at hv
      · cases hv
        refine ⟨hne, hnul, ?_⟩
        unfold COMMAND_SIZE
        unfold LINEBUF_SIZE at hlen
        omega
      · exact hb k v hv
  split at h
  · rw [← hl1]; exact buttons_of_keeps _ _ _ (directiveKnob_keeps _ _ _ _ _ h) hb
  · cases h
    exact ⟨hl1, hb⟩

theorem processLine_buttons (A : FloatArith) (st st1 : ParseState A.F) (chunk : List Char)
    (h : processLine A st chunk = some st1) (hchunk : chunk.length ≤ LINEBUF_SIZE - 1)
    (hlen : st.linebuf.length ≤ LINEBUF_SIZE) (hb : ButtonsWellFormed st.new_config) :
    st1.linebuf.length ≤ LINEBUF_SIZE ∧ ButtonsWellFormed st1.new_config := by
  unfold processLine at h
  dsimp only at h
  split at h
  · cases h
  rename_i buf1 h1
  split at h
  · cases h
  rename_i buf2 h2
  have hl1 := cutAt_length _ _ _ h1
  have hl2 := cutAt_length _ _ _ h2
  have hl0 : (chunk ++ NUL :: List.drop (chunk.length + 1) st.linebuf).length ≤ LINEBUF_SIZE := by
    simp only [List.length_append, List.length_cons, List.length_drop]
    unfold LINEBUF_SIZE at hchunk hlen ⊢
    omega
  obtain ⟨ha, hb1⟩ := dispatchLine_buttons A _ st1 buf2 h (by omega) hb
  exact ⟨by omega, hb1⟩

theorem processLines_buttons (A : FloatArith) (chunks : List (List Char)) :
    ∀ (st st1 : ParseState A.F), processLines A st chunks = some st1 →
      (∀ chunk ∈ chunks, chunk.length ≤ LINEBUF_SIZE - 1) →
      st.linebuf.length ≤ LINEBUF_SIZE → ButtonsWellFormed st.new_config →
      ButtonsWellFormed st1.new_config := by
  induction chunks with
  | nil =>
    intro st st1 h _ _ hb
    simp only [processLines] at h
    cases h
    exact hb
  | cons chunk rest ih =>
    intro st st1 h hc hlen hb
    simp only [processLines] at h
    split at h
    · cases h
    · rename_i st2 h2
      obtain ⟨hl2, hb2⟩ := processLine_buttons A st st2 chunk h2 (hc chunk (by simp)) hlen hb
      exact ih st2 st1 h (fun c hm => hc c (by simp [hm])) hl2 hb2

/-- Every command that `ReadConfigFile` commits is a non-empty C string shorter
than 256 characters, provided the commands committed before are. -/
theorem ReadConfigFile_buttons (A : FloatArith) (g_config : KorgiConfig A.F)
    (controlSurfaceMap : Option ControlSurfaceMap) (stack : List Char)
    (file : Option (List Char)) (r : ReadResult A.F)
    (hstack : stack.length = LINEBUF_SIZE) (hg : ButtonsWellFormed g_config)
    (hrun : ReadConfigFile A g_config controlSurfaceMap stack file = some r) :
    ButtonsWellFormed r.g_config := by
  unfold ReadConfigFile at hrun
  split at hrun
  · cases hrun; exact hg
  · dsimp only at hrun
    split at hrun
    · cases hrun
    · rename_i st hst
      cases hrun
      have hb := processLines_buttons A _ _ st hst
        (fgetsChunks_length _ (by decide) _ [] (by decide)) (by simp [hstack]) hg
      unfold finishRead
      dsimp only
      split
      · exact hb
      · exact hg

theorem g_config_init_buttons (F : Type) : ButtonsWellFormed (g_config_init F) := by
  intro k v hv
  simp [g_config_init] at hv


/-- In every configuration the program reaches, the commands in `buttons` are
non-empty C strings shorter than 256 characters. -/
theorem reachable_buttons (A : FloatArith) (g : KorgiConfig A.F) (h : Reachable A g) :
    ButtonsWellFormed g := by
  induction h with
  | init => exact g_config_init_buttons A.F
  | read g csm stack file r _ hstack hrun ih =>
    exact ReadConfigFile_buttons A g csm stack file r hstack ih hrun

/-- With a channel token that `strtol` consumes completely, the `button` branch
does not depend on `controlSurfaceMap`, for every state of the tokenizer. -/
theorem directiveButton_numeric {F : Type} (st : ParseState F) (t1 t2 : TokState) (ch : Nat)
    (tok : List Char) (ht2 : tokenize t1 none delimiters = some (some ch, t2))
    (hs : cstrAt t2.buf ch = some tok) (hnum : (strtol tok).2 = tok.length)
    (csm : Option ControlSurfaceMap) :
    directiveButton { st with controlSurfaceMap := csm } t1
      = (directiveButton st t1).map (fun s => { s with controlSurfaceMap := csm }) := by
  unfold directiveButton
  rw [ht2]
  simp only [hs, hnum, ne_eq, not_true_eq_false, if_false]
  split
  · rfl
  · split
    · rfl
    · split <;> rfl

/-- With a channel token that `strtol` consumes completely, the `knob` / `slider`
branch does not depend on `controlSurfaceMap`, for every state of the
tokenizer. -/
theorem directiveKnob_numeric (A : FloatArith) (st : ParseState A.F) (what : List Char)
    (t1 t2 t3 t4 t5 : TokState) (ch : Nat) (cv mn mx : Option Nat) (tok : List Char)
    (ht2 : tokenize t1 none delimiters = some (some ch, t2))
    (ht3 : tokenize t2 none delimiters = some (cv, t3))
    (ht4 : tokenize t3 none delimiters = some (mn, t4))
    (ht5 : tokenize t4 none delimiters = some (mx, t5))
    (hs : cstrAt t5.buf ch = some tok) (hnum : (strtol tok).2 = tok.length)
    (csm : Option ControlSurfaceMap) :
    directiveKnob A { st with controlSurfaceMap := csm } t1 what
      = (directiveKnob A st t1 what).map (fun s => { s with controlSurfaceMap := csm }) := by
  unfold directiveKnob
  rw [ht2]
  simp only [ht3, ht4, ht5]
  cases cv with
  | none => rfl
  | some cvp =>
    cases mn with
    | none => rfl
    | some mnp =>
      cases mx with
      | none => rfl
      | some mxp =>
        simp only [hs]
        cases cstrAt t5.buf cvp <;> cases cstrAt t5.buf mnp <;> cases cstrAt t5.buf mxp <;>
          simp only [hnum, ne_eq, not_true_eq_false, if_false] <;> rfl


/-- With a channel token that `strtol` consumes completely, a `button` branch that
completes either reports the missing command and changes nothing, or stores a
command under the integer `strtol` returned, for every state of the tokenizer. -/
theorem directiveButton_numeric_key {F : Type} (st st1 : ParseState F) (t1 t2 : TokState)
    (ch : Nat) (tok : List Char) (ht2 : tokenize t1 none delimiters = some (some ch, t2))
    (hs : cstrAt t2.buf ch = some tok) (hnum : (strtol tok).2 = tok.length)
    (h : directiveButton st t1 = some st1) :
    (st1.stderr = st.stderr ++ [⟨some st.lineno, Diag.insufficient "button".toList⟩] ∧
      st1.success = false ∧ st1.new_config = st.new_config) ∨
    (st1.stderr = st.stderr ∧ st1.success = st.success ∧
      ∃ cmd, st1.new_config = { st.new_config with
        buttons := assign st.new_config.buttons (toInt32 (strtol tok).1) cmd }) := by
  unfold directiveButton at h
  rw [ht2] at h
  simp only [hs, hnum, ne_eq, not_true_eq_false, if_false] at h
  split at h
  · cases h
  · split at h
    · cases h
      left
      simp [ParseState.fail]
    · split at h
      · cases h
      · cases h
        right
        exact ⟨rfl, rfl, _, rfl⟩

/-- With a channel token that `strtol` consumes completely, a `knob` / `slider`
branch that completes with all four parameters stores the mapping under the
integer `strtol` returned, for every state of the tokenizer. -/
theorem directiveKnob_numeric_key (A : FloatArith) (st st1 : ParseState A.F)
    (what : List Char) (t1 t2 t3 t4 t5 : TokState) (ch cv mn mx : Nat) (tok : List Char)
    (ht2 : tokenize t1 none delimiters = some (some ch, t2))
    (ht3 : tokenize t2 none delimiters = some (some cv, t3))
    (ht4 : tokenize t3 none delimiters = some (some mn, t4))
    (ht5 : tokenize t4 none delimiters = some (some mx, t5))
    (hs : cstrAt t5.buf ch = some tok) (hnum : (strtol tok).2 = tok.length)
    (h : directiveKnob A st t1 what = some st1) :
    st1.stderr = st.stderr ∧ st1.success = st.success ∧
      ∃ mapping, st1.new_config = { st.new_config with
        knobs := assign st.new_config.knobs (toInt32 (strtol tok).1) mapping } := by
  unfold directiveKnob at h
  rw [ht2] at h
  simp only [ht3, ht4, ht5, hs] at h
  revert h
  cases cstrAt t5.buf cv <;> cases cstrAt t5.buf mn <;> cases cstrAt t5.buf mx <;>
    simp only [hnum, ne_eq, not_true_eq_false, if_false] <;> intro h <;> cases h
  exact ⟨rfl, rfl, _, rfl⟩

/-! ## Theorems: the outcome of a parse -/

/-- Every message written by the loop carries a line number. -/
theorem processLines_stderr_lineno (A : FloatArith) (chunks : List (List Char)) :
    ∀ (st st1 : ParseState A.F), processLines A st chunks = some st1 →
      (∀ d ∈ st.stderr, d.lineno ≠ none) → (∀ d ∈ st1.stderr, d.lineno ≠ none) := by
  induction chunks with
  | nil =>
    intro st st1 h hinv
    simp only [processLines] at h
    cases h
    exact hinv
  | cons chunk rest ih =>
    intro st st1 h hinv
    simp only [processLines] at h
    split at h
    · cases h
    · rename_i st2 h2
      refine ih st2 st1 h ?_
      obtain ⟨_, he⟩ := processLine_effect A st st2 chunk h2
      rcases he with ⟨_, hd⟩ | ⟨_, d, hd⟩
      · rw [hd]; exact hinv
      · rw [hd]
        intro x hx
        rcases List.mem_append.1 hx with hx | hx
        · exact hinv x hx
        · rw [List.mem_singleton.1 hx]; simp

/-- C11. Password policy: a call of `ReadConfigFile` that completes returns true
iff no line failed (no message with a line number was written) and the password
of the working configuration is not empty after the last line; and when it
returns true the committed configuration is the working configuration, so its
password is not empty. -/
theorem C11_password_policy (A : FloatArith) (g_config : KorgiConfig A.F)
    (controlSurfaceMap : Option ControlSurfaceMap) (stack text : List Char)
    (r : ReadResult A.F)
    (hrun : ReadConfigFile A g_config controlSurfaceMap stack (some text) = some r) :
    (r.ret = true ↔ ((∀ d ∈ r.stderr, d.lineno = none) ∧ r.new_config.password ≠ [])) ∧
    (r.ret = true → r.g_config = r.new_config ∧ r.g_config.password ≠ []) := by
  simp only [ReadConfigFile] at hrun
  split at hrun
  · cases hrun
  rename_i st hst
  cases hrun
  have hinv := processLines_success_iff A _ _ st hst (by simp)
  have hnum := processLines_stderr_lineno A _ _ st hst (by simp)
  have hret : (finishRead g_config st).ret
      = (st.success && !decide (st.new_config.password.length = 0)) := rfl
  have hcfg : (finishRead g_config st).new_config = st.new_config := rfl
  have hiff : (finishRead g_config st).ret = true ↔
      ((∀ d ∈ (finishRead g_config st).stderr, d.lineno = none) ∧
        (finishRead g_config st).new_config.password ≠ []) := by
    rw [hret, hcfg]
    constructor
    · intro h
      simp only [Bool.and_eq_true, Bool.not_eq_true', decide_eq_false_iff_not,
        List.length_eq_zero] at h
      refine ⟨?_, h.2⟩
      intro d hd
      simp only [finishRead, hinv.1 h.1] at hd
      split at hd
      · simp at hd; rw [hd]
      · simp at hd
    · rintro ⟨hno, hpw⟩
      have hs : st.stderr = [] := by
        cases hst2 : st.stderr with
        | nil => rfl
        | cons d ds =>
          exfalso
          have hd : d ∈ st.stderr := by rw [hst2]; simp
          apply hnum d hd
          apply hno d
          simp only [finishRead]
          split
          · exact List.mem_append_left _ hd
          · exact hd
      simp only [Bool.and_eq_true, Bool.not_eq_true', decide_eq_false_iff_not,
        List.length_eq_zero]
      exact ⟨hinv.2 hs, hpw⟩
  refine ⟨hiff, ?_⟩
  intro h
  have hg : (finishRead g_config st).g_config
      = if (finishRead g_config st).ret = true then st.new_config else g_config := rfl
  rw [hg, h, if_pos rfl, hcfg]
  exact ⟨rfl, (hiff.1 h).2⟩

/-- Witness for C11: a file with a password and one button, read from the initial
state. -/
theorem C11_password_policy_witness :
    ∃ r, ReadConfigFile exactArith (g_config_init ℚ) none []
        (some "password x\nbutton 41 say hello\n".toList) = some r ∧
      r.ret = true ∧ r.g_config.password ≠ [] :=
  have hrun : ∃ r, ReadConfigFile exactArith (g_config_init ℚ) none []
      (some "password x\nbutton 41 say hello\n".toList) = some r ∧ r.ret = true :=
    ⟨_, rfl, rfl⟩
  hrun.elim fun r hr =>
    ⟨r, hr.1, hr.2, ((C11_password_policy exactArith _ _ _ _ r hr.1).2 hr.2).2⟩

/-- C16. A line that fails is not always recorded: a `button` line without a
channel token lacks a parameter, but the branch calls `strlen` on the null pointer
`tokenize` returned before it tests it, so the parse of a file with such a line is
undefined, whatever the configuration, the active profile and the content of the
line buffer are; no message is written and the lines that follow are not
processed. -/
theorem C16_bare_button_line_undefined (A : FloatArith) (g_config : KorgiConfig A.F)
    (controlSurfaceMap : Option ControlSurfaceMap) (stack : List Char) :
    ReadConfigFile A g_config controlSurfaceMap stack
      (some "password x\nbutton\nconnect 10.0.0.1\n".toList) = none :=
  rfl

/-- C17. A comment can influence the parse: with the profile `nanoKONTROL2`
active, the lines `button stop#say hi` and `button stop#bye` agree up to their
first `#`, yet both are accepted and store different commands, the text of their
comments, for channel 42; the line truncated at the `#`, `button stop`, fails and
stores nothing. -/
theorem C17_comment_text_becomes_command :
    (processLine exactArith exampleState "button stop#say hi\n".toList).map
        (fun s => (s.success, s.stderr, s.new_config.buttons 42))
      = some (true, [], some "say hi\n".toList) ∧
    (processLine exactArith exampleState "button stop#bye\n".toList).map
        (fun s => (s.success, s.stderr, s.new_config.buttons 42))
      = some (true, [], some "bye\n".toList) ∧
    (processLine exactArith exampleState "button stop\n".toList).map
        (fun s => (s.success, s.stderr, s.new_config.buttons 42))
      = some (false, [⟨some 1, Diag.insufficient "button".toList⟩], none) :=
  ⟨rfl, rfl, rfl⟩

/-! ## Theorems: interpolation over exact arithmetic -/

theorem normalize_exact (raw : Nat) :
    normalize exactArith raw = max 0 (min 1 ((raw : ℚ) / 127)) := by
  show (if decide ((0 : ℕ) < (if decide (((raw : ℚ) / ((127 : ℕ) : ℚ)) < ((1 : ℕ) : ℚ))
      then ((raw : ℚ) / ((127 : ℕ) : ℚ)) else ((1 : ℕ) : ℚ))) = true
      then (if decide (((raw : ℚ) / ((127 : ℕ) : ℚ)) < ((1 : ℕ) : ℚ))
        then ((raw : ℚ) / ((127 : ℕ) : ℚ)) else ((1 : ℕ) : ℚ)) else ((0 : ℕ) : ℚ)) = _
  simp only [decide_eq_true_eq, Nat.cast_ofNat, Nat.cast_zero, Nat.cast_one]
  have h0 : (0 : ℚ) ≤ (raw : ℚ) / 127 := by positivity
  by_cases h1 : (raw : ℚ) / 127 < 1
  · rw [if_pos h1, min_eq_right h1.le, max_eq_right h0]
    split
    · rfl
    · rename_i h2
      exact le_antisymm (not_lt.1 h2) h0 |>.symm
  · rw [if_neg h1, min_eq_left (not_lt.1 h1), max_eq_right zero_le_one, if_pos zero_lt_one]

theorem interpolate_exact (k : KnobMapping ℚ) (raw : Nat) :
    interpolateExact k raw
      = k.min_value + (k.max_value - k.min_value) * max 0 (min 1 ((raw : ℚ) / 127)) := by
  have h : interpolateExact k raw
      = k.min_value * (((1 : ℕ) : ℚ) - max 0 (min 1 ((raw : ℚ) / 127)))
        + k.max_value * max 0 (min 1 ((raw : ℚ) / 127)) := by
    rw [← normalize_exact]
    rfl
  rw [h]
  push_cast
  ring

/-- C20. Interpolation stays in range and saturates, over exact arithmetic: for a
knob mapping with `min_value ≤ max_value` the value computed by `HandleMidiInput`
lies between `min_value` and `max_value` for every raw value, does not decrease
when the raw value grows, is `min_value` at raw value 0 and is `max_value` for
every raw value from 127 on. -/
theorem C20_interpolation_range (k : KnobMapping ℚ) (hk : k.min_value ≤ k.max_value) :
    (∀ raw : Nat, k.min_value ≤ interpolateExact k raw ∧
        interpolateExact k raw ≤ k.max_value) ∧
    (∀ a b : Nat, a ≤ b → interpolateExact k a ≤ interpolateExact k b) ∧
    interpolateExact k 0 = k.min_value ∧
    (∀ raw : Nat, 127 ≤ raw → interpolateExact k raw = k.max_value) := by
  have hd : (0 : ℚ) ≤ k.max_value - k.min_value := sub_nonneg.2 hk
  have ht0 : ∀ raw : Nat, (0 : ℚ) ≤ max 0 (min 1 ((raw : ℚ) / 127)) :=
    fun raw => le_max_left _ _
  have ht1 : ∀ raw : Nat, max 0 (min 1 ((raw : ℚ) / 127)) ≤ (1 : ℚ) :=
    fun raw => max_le zero_le_one (min_le_left _ _)
  refine ⟨?_, ?_, ?_, ?_⟩
  · intro raw
    rw [interpolate_exact]
    constructor
    · nlinarith [ht0 raw]
    · nlinarith [ht1 raw]
  · intro a b hab
    rw [interpolate_exact, interpolate_exact]
    have hq : (a : ℚ) / 127 ≤ (b : ℚ) / 127 := by
      have : (a : ℚ) ≤ (b : ℚ) := by exact_mod_cast hab
      linarith
    have hm : max 0 (min 1 ((a : ℚ) / 127)) ≤ max 0 (min 1 ((b : ℚ) / 127)) :=
      max_le_max le_rfl (min_le_min le_rfl hq)
    nlinarith
  · rw [interpolate_exact]
    simp
  · intro raw hraw
    rw [interpolate_exact]
    have hq : (1 : ℚ) ≤ (raw : ℚ) / 127 := by
      have : (127 : ℚ) ≤ (raw : ℚ) := by exact_mod_cast hraw
      linarith
    rw [min_eq_left hq, max_eq_right zero_le_one]
    ring

/-- Witness for C20: the mapping of `sensitivity` onto the interval from 0 to 5. -/
theorem C20_interpolation_range_witness :
    ((0 : ℚ) ≤ 5) ∧ interpolateExact ⟨"sensitivity".toList, 0, 5⟩ 200 = 5 :=
  ⟨by norm_num,
    (C20_interpolation_range ⟨"sensitivity".toList, 0, 5⟩ (by norm_num)).2.2.2 200
      (by norm_num)⟩

/-! ## Theorems: the text and the tokens of a line -/

theorem lineText_plain (chunk : List Char) :
    ∀ c ∈ lineText chunk, c ≠ NUL ∧ c ≠ HASH ∧ c ≠ LF := by
  intro c hc
  have h := List.mem_takeWhile_imp hc
  simpa [and_assoc] using h

theorem lineText_split (chunk : List Char) :
    ∃ b, chunk = lineText chunk ++ b ∧
      (b = [] ∨ ∃ d t, b = d :: t ∧ (d = NUL ∨ d = HASH ∨ d = LF)) := by
  refine ⟨chunk.dropWhile (fun c => decide (c ≠ NUL) && decide (c ≠ HASH) && decide (c ≠ LF)),
    (List.takeWhile_append_dropWhile _ _).symm, ?_⟩
  cases hb : chunk.dropWhile
      (fun c => decide (c ≠ NUL) && decide (c ≠ HASH) && decide (c ≠ LF)) with
  | nil => exact Or.inl rfl
  | cons d t =>
    right
    refine ⟨d, t, rfl, ?_⟩
    have h := List.head_dropWhile_not
      (fun c => decide (c ≠ NUL) && decide (c ≠ HASH) && decide (c ≠ LF)) chunk
      (by rw [hb]; simp)
    simp only [hb, List.head_cons] at h
    by_cases h1 : d = NUL
    · exact Or.inl h1
    by_cases h2 : d = HASH
    · exact Or.inr (Or.inl h2)
    by_cases h3 : d = LF
    · exact Or.inr (Or.inr h3)
    simp [h1, h2, h3] at h

theorem strchrFrom_total (c : Char) (l : List Char) (p : Nat) (h : NUL ∈ l) :
    ∃ r, strchrFrom c l p = some r ∧ ∀ t, r = some t → p ≤ t ∧ t < p + l.length := by
  induction l generalizing p with
  | nil => simp at h
  | cons x l ih =>
    simp only [strchrFrom]
    by_cases hx : x = NUL
    · simp [hx]
    · by_cases hc : x = c
      · subst hc
        simp [hx]
      · have hl : NUL ∈ l := by
          rcases List.mem_cons.1 h with e | e
          · exact absurd e.symm hx
          · exact e
        obtain ⟨r, hr, hb⟩ := ih (p + 1) hl
        refine ⟨r, by simp [hx, hc, hr], ?_⟩
        intro t ht
        have := hb t ht
        simp only [List.length_cons]
        omega

theorem cutAt_total (c : Char) (l : List Char) (h : NUL ∈ l) :
    ∃ u, cutAt c l = some u ∧ u.length = l.length := by
  obtain ⟨r, hr, _⟩ := strchrFrom_total c l 0 h
  unfold cutAt
  rw [hr]
  cases r with
  | none => exact ⟨l, rfl, rfl⟩
  | some t => exact ⟨l.set t NUL, rfl, by simp⟩

theorem strchrFrom_shift (c : Char) (l : List Char) (p k : Nat) :
    strchrFrom c l (p + k) = (strchrFrom c l p).map (fun r => r.map (fun t => t + k)) := by
  induction l generalizing p with
  | nil => rfl
  | cons x l ih =>
    simp only [strchrFrom]
    by_cases hx : x = NUL
    · simp [hx]
    · by_cases hc : x = c
      · subst hc
        simp [hx]
      · have e : p + k + 1 = p + 1 + k := by omega
        simp only [hx, hc, if_false, e, ih]

theorem cutAt_append (c : Char) (X t u : List Char) (hX : ∀ x ∈ X, x ≠ NUL ∧ x ≠ c)
    (h : cutAt c t = some u) : cutAt c (X ++ t) = some (X ++ u) := by
  unfold cutAt at h ⊢
  rw [strchrFrom_append _ _ _ _ hX, strchrFrom_shift]
  cases hr : strchrFrom c t 0 with
  | none => rw [hr] at h; cases h
  | some r =>
    rw [hr] at h
    cases r with
    | none =>
      simp only [Option.some.injEq] at h
      subst h
      rfl
    | some k =>
      simp only [Option.some.injEq] at h
      subst h
      simp only [Option.map_some', Nat.zero_add]
      rw [Nat.add_comm, List.set_append_right _ _ (by omega)]
      simp

/-- The two cuts of the loop body leave the text of the line and a terminator at
the start of `linebuf`. -/
theorem processLine_cut (A : FloatArith) (st : ParseState A.F) (chunk : List Char) :
    ∃ z, processLine A st chunk
      = dispatchLine A { st with lineno := st.lineno + 1 } (lineText chunk ++ NUL :: z) := by
  obtain ⟨b, hb, hcase⟩ := lineText_split chunk
  have hX := lineText_plain chunk
  have hXH : ∀ x ∈ lineText chunk, x ≠ NUL ∧ x ≠ HASH := fun x hx => ⟨(hX x hx).1, (hX x hx).2.1⟩
  have hXL : ∀ x ∈ lineText chunk, x ≠ NUL ∧ x ≠ LF := fun x hx => ⟨(hX x hx).1, (hX x hx).2.2⟩
  generalize lineText chunk = X at *
  subst hb
  unfold processLine
  simp only
  generalize List.drop ((X ++ b).length + 1) st.linebuf = rest
  rcases hcase with rfl | ⟨d, t, rfl, hd | hd | hd⟩
  · refine ⟨rest, ?_⟩
    simp only [List.append_nil]
    rw [cutAt_absent HASH X _ hXH]
    simp only
    rw [cutAt_absent LF X _ hXL]
  · subst hd
    refine ⟨t ++ NUL :: rest, ?_⟩
    simp only [List.append_assoc, List.cons_append]
    rw [cutAt_absent HASH X _ hXH]
    simp only
    rw [cutAt_absent LF X _ hXL]
  · subst hd
    refine ⟨t ++ NUL :: rest, ?_⟩
    simp only [List.append_assoc, List.cons_append]
    rw [cutAt_present HASH (by decide) X _ hXH]
    simp only
    rw [cutAt_absent LF X _ hXL]
  · subst hd
    obtain ⟨u, hu, _⟩ := cutAt_total HASH (t ++ NUL :: rest) (by simp)
    refine ⟨u, ?_⟩
    have hXLF : ∀ x ∈ X ++ [LF], x ≠ NUL ∧ x ≠ HASH := by
      intro x hx
      rcases List.mem_append.1 hx with h | h
      · exact hXH x h
      · rw [List.mem_singleton.1 h]; exact ⟨by decide, by decide⟩
    have e : X ++ LF :: t ++ NUL :: rest = (X ++ [LF]) ++ (t ++ NUL :: rest) := by simp
    rw [e, cutAt_append HASH _ _ _ hXLF hu]
    simp only [List.append_assoc, List.singleton_append]
    rw [cutAt_present LF (by decide) X _ hXL]

theorem skipDelimiters_le (dl : List Char) (l : List Char) (n n1 : Nat)
    (h : skipDelimiters dl l n = some n1) : n ≤ n1 := by
  induction l generalizing n with
  | nil => simp [skipDelimiters] at h
  | cons c l ih =>
    simp only [skipDelimiters] at h
    split at h
    · cases h; exact le_rfl
    · split at h
      · have := ih _ h; omega
      · cases h; exact le_rfl

theorem scanToken_le (dl : List Char) (l : List Char) (n n3 : Nat) (b : Bool)
    (h : scanToken dl l n = some (n3, b)) :
    n ≤ n3 ∧ (b = true → ∃ c, l.get? (n3 - n) = some c ∧ c ≠ NUL) := by
  induction l generalizing n with
  | nil => simp [scanToken] at h
  | cons c l ih =>
    simp only [scanToken] at h
    split at h
    · cases h; exact ⟨le_rfl, by simp⟩
    · rename_i hc
      split at h
      · cases h
        exact ⟨le_rfl, fun _ => ⟨c, by simp, hc⟩⟩
      · obtain ⟨h1, h2⟩ := ih _ h
        refine ⟨by omega, fun hb => ?_⟩
        obtain ⟨x, hx, hxn⟩ := h2 hb
        refine ⟨x, ?_, hxn⟩
        have e : n3 - n = (n3 - (n + 1)) + 1 := by omega
        rw [e]
        simpa using hx

theorem cstr_get (l s : List Char) (h : cstr l = some s) : l.get? s.length = some NUL := by
  induction l generalizing s with
  | nil => simp [cstr] at h
  | cons c l ih =>
    simp only [cstr] at h
    split at h
    · rename_i hc
      cases h
      simp [hc]
    · cases hr : cstr l with
      | none => simp [hr] at h
      | some s1 =>
        simp only [hr, Option.map_some', Option.some.injEq] at h
        subst h
        simpa using ih s1 hr

theorem cstr_set (l s : List Char) (n : Nat) (h : cstr l = some s) (hn : s.length < n) :
    cstr (l.set n NUL) = some s := by
  induction l generalizing s n with
  | nil => simp [cstr] at h
  | cons c l ih =>
    cases n with
    | zero => omega
    | succ m =>
      simp only [List.set_cons_succ, cstr] at h ⊢
      split at h
      · rename_i hc
        cases h
        simp [hc]
      · rename_i hc
        cases hr : cstr l with
        | none => simp [hr] at h
        | some s1 =>
          simp only [hr, Option.map_some', Option.some.injEq] at h
          subst h
          simp only [List.length_cons] at hn
          simp [hc, ih s1 m hr (by omega)]

/-- A call of `tokenize` moves the cursor forward and writes at most one
terminator, at or after the old cursor, over a character that is not a
terminator. -/
theorem tokenize_writes (st st1 : TokState) (r : Option Nat) (dl : List Char)
    (h : tokenize st none dl = some (r, st1)) :
    st.next ≤ st1.next ∧
    (st1.buf = st.buf ∨ ∃ n3 c, st.next ≤ n3 ∧ st.buf.get? n3 = some c ∧ c ≠ NUL ∧
      st1.buf = st.buf.set n3 NUL) := by
  unfold tokenize at h
  simp only at h
  split at h
  · cases h
  rename_i n1 h1
  have hle1 := skipDelimiters_le _ _ _ _ h1
  split at h
  · cases h
  rename_i c hc
  split at h
  · cases h
    exact ⟨hle1, Or.inl rfl⟩
  split at h
  · cases h
  · rename_i n3 h3
    obtain ⟨hle3, hw⟩ := scanToken_le _ _ _ _ _ h3
    obtain ⟨x, hx, hxn⟩ := hw rfl
    cases h
    have hn2 : n1 ≤ (if c = DQUOTE then n1 + 1 else n1) := by split <;> omega
    refine ⟨by simp only; omega, Or.inr ⟨n3, x, by omega, ?_, hxn, rfl⟩⟩
    simp only [List.get?_eq_getElem?, List.getElem?_drop] at hx ⊢
    rw [← hx]
    congr 1
    omega
  · rename_i n3 h3
    obtain ⟨hle3, _⟩ := scanToken_le _ _ _ _ _ h3
    cases h
    have hn2 : n1 ≤ (if c = DQUOTE then n1 + 1 else n1) := by split <;> omega
    exact ⟨by simp only; omega, Or.inl rfl⟩

/-- A token read before the cursor stays readable after a further call of
`tokenize`. -/
theorem tokenize_keeps (st st1 : TokState) (r : Option Nat) (dl : List Char) (p : Nat)
    (s : List Char) (h : tokenize st none dl = some (r, st1))
    (hc : cstrAt st.buf p = some s) (hp : p + s.length ≤ st.next) :
    cstrAt st1.buf p = some s ∧ p + s.length ≤ st1.next := by
  obtain ⟨hle, hw⟩ := tokenize_writes st st1 r dl h
  refine ⟨?_, by omega⟩
  rcases hw with e | ⟨n3, c, hn3, hg, hcn, e⟩
  · rw [e]; exact hc
  · rw [e]
    unfold cstrAt at hc ⊢
    have hget := cstr_get _ _ hc
    simp only [List.get?_eq_getElem?, List.getElem?_drop] at hget hg
    have hne : n3 ≠ p + s.length := by
      intro e2
      rw [e2, hget] at hg
      cases hg
      exact hcn rfl
    rw [List.drop_set, if_neg (by omega)]
    exact cstr_set _ _ _ hc (by omega)

theorem dropWhile_run (p : Char → Bool) (a b : List Char) (ha : ∀ c ∈ a, p c = true)
    (hb : b = [] ∨ ∃ d t, b = d :: t ∧ p d = false) : (a ++ b).dropWhile p = b := by
  induction a with
  | nil =>
    rcases hb with rfl | ⟨d, t, rfl, hd⟩
    · rfl
    · simp [List.dropWhile, hd]
  | cons x a ih =>
    have hx := ha x (by simp)
    simp only [List.cons_append, List.dropWhile, hx]
    exact ih (fun c hc => ha c (by simp [hc]))

/-- One call of `tokenize` with the text `rest` left to read: it returns `NULL`
when the specification gives no token for `rest`, and else the first token of the
specification, leaving to read the text after that token and the character that
ends it.  The cursor ends one past the terminator written over that character, or
on the terminator of the text when the token ran to the end of the text. -/
theorem tokenize_step_text (st : TokState) (rest z : List Char) (h : AtText st rest z) :
    (specTokensFrom LexMode.between rest = [] ∧
      ∃ st1, tokenize st none delimiters = some (none, st1) ∧ st1.buf = st.buf) ∨
    (∃ tok more p st1 rest1, specTokensFrom LexMode.between rest = tok :: more ∧
      tokenize st none delimiters = some (some p, st1) ∧
      cstrAt st1.buf p = some tok ∧
      ((st1.next = p + tok.length + 1 ∧ afterToken rest = some rest1) ∨
        (st1.next = p + tok.length ∧ rest1 = [] ∧ afterToken rest = none)) ∧
      AtText st1 rest1 z ∧ specTokensFrom LexMode.between rest1 = more) := by
  obtain ⟨hnul, done, hbuf, hnext⟩ := h
  obtain ⟨ds, r1, hsplit, hds, hr1⟩ := run_split (fun c => decide (c ∈ delimiters)) rest
  subst hsplit
  have hds1 : ∀ c ∈ ds, c ≠ NUL ∧ c ∈ delimiters := by
    intro c hc
    exact ⟨fun e => hnul (by simp [← e, hc]), by simpa using hds c hc⟩
  have hdrop : (ds ++ r1).dropWhile (fun c => decide (c ∈ delimiters)) = r1 :=
    dropWhile_run _ ds r1 hds hr1
  rw [spec_between_run ds r1 (fun c hc => (hds1 c hc).2)]
  rcases hr1 with rfl | ⟨c, r2, rfl, hcd⟩
  · left
    have ht := tokenize_end st done ds z (by simpa using hbuf) hnext hds1
    exact ⟨by simp [specTokensFrom], _, ht, rfl⟩
  · right
    have hcd1 : c ∉ delimiters := by simpa using hcd
    have hcn : c ≠ NUL := fun e => hnul (by simp [← e])
    have hr2n : NUL ∉ r2 := fun e => hnul (by simp [e])
    by_cases hq : c = DQUOTE
    · subst hq
      obtain ⟨w, r3, hsplit, hw, hr3⟩ := run_split (fun c => decide (c ≠ DQUOTE)) r2
      subst hsplit
      have hw1 : ∀ c ∈ w, c ≠ NUL ∧ c ≠ DQUOTE := by
        intro c hc
        exact ⟨fun e => hr2n (by simp [← e, hc]), by simpa using hw c hc⟩
      have hwn : NUL ∉ w := fun e => (hw1 _ e).1 rfl
      have hdrop2 : (w ++ r3).dropWhile (fun x => decide (x ≠ DQUOTE)) = r3 :=
        dropWhile_run _ w r3 hw hr3
      have hspec : specTokensFrom LexMode.between (DQUOTE :: (w ++ r3))
          = specTokensFrom (LexMode.quoted w.reverse) r3 := by
        have hqd : DQUOTE ∉ delimiters := by decide
        simp only [specTokensFrom, hqd, if_false, if_true]
        rw [spec_quoted_run w r3 [] (fun c hc => (hw1 c hc).2)]
        simp
      rw [hspec]
      rcases hr3 with rfl | ⟨d, tail, rfl, hd⟩
      · have ht := tokenize_quoted_open st done ds w z (by simpa using hbuf) hnext hds1 hw1
        have hc : cstrAt st.buf (done.length + ds.length + 1) = some w :=
          cstrAt_token _ (done ++ ds ++ [DQUOTE]) w z _ (by simpa using hbuf)
            (by simp +arith) hwn
        have haft : afterToken (ds ++ DQUOTE :: (w ++ [])) = none := by
          unfold afterToken
          rw [hdrop]
          simp only [if_true, hdrop2]
        refine ⟨w, [], _, _, [], by simp [specTokensFrom], ht, hc, Or.inr ⟨rfl, rfl, haft⟩,
          ⟨by simp, done ++ ds ++ DQUOTE :: w, by simpa using hbuf, by simp +arith⟩, rfl⟩
      · have hdq : d = DQUOTE := by simpa using hd
        subst hdq
        have ht := tokenize_quoted_closed st done ds w (tail ++ NUL :: z)
          (by simpa using hbuf) hnext hds1 hw1
        have hc : cstrAt (done ++ (ds ++ DQUOTE :: (w ++ NUL :: (tail ++ NUL :: z))))
            (done.length + ds.length + 1) = some w :=
          cstrAt_token _ (done ++ ds ++ [DQUOTE]) w (tail ++ NUL :: z) _ (by simp)
            (by simp +arith) hwn
        have haft : afterToken (ds ++ DQUOTE :: (w ++ DQUOTE :: tail)) = some tail := by
          unfold afterToken
          rw [hdrop]
          simp only [if_true, hdrop2]
        refine ⟨w, specTokensFrom LexMode.between tail, _, _, tail,
          by simp [specTokensFrom], ht, hc, Or.inl ⟨rfl, haft⟩,
          ⟨fun e => hr2n (by simp [e]), done ++ ds ++ DQUOTE :: w ++ [NUL], by simp,
            by simp +arith⟩, rfl⟩
    · obtain ⟨w0, r3, hsplit, hw, hr3⟩ := run_split (fun c => decide (c ∉ delimiters)) r2
      subst hsplit
      have hw1 : ∀ x ∈ c :: w0, x ≠ NUL ∧ x ∉ delimiters := by
        intro x hx
        rcases List.mem_cons.1 hx with h | h
        · rw [h]; exact ⟨hcn, hcd1⟩
        · exact ⟨fun e => hr2n (by simp [← e, h]), by simpa using hw x h⟩
      have hwn : NUL ∉ c :: w0 := fun e => (hw1 _ e).1 rfl
      have hdrop2 : (w0 ++ r3).dropWhile (fun x => decide (x ∉ delimiters)) = r3 :=
        dropWhile_run _ w0 r3 hw hr3
      have hspec : specTokensFrom LexMode.between (c :: (w0 ++ r3))
          = specTokensFrom (LexMode.word (c :: w0).reverse) r3 := by
        simp only [specTokensFrom, hcd1, hq, if_false]
        rw [spec_word_run w0 r3 [c] (fun x hx => (hw1 x (by simp [hx])).2)]
        simp
      rw [hspec]
      rcases hr3 with rfl | ⟨d, tail, rfl, hd⟩
      · have ht := tokenize_word_end st done ds (c :: w0) z (by simpa using hbuf) hnext hds1
          hw1 (by simp) (by simpa using hq)
        have hc : cstrAt st.buf (done.length + ds.length) = some (c :: w0) :=
          cstrAt_token _ (done ++ ds) (c :: w0) z _ (by simpa using hbuf)
            (by simp +arith) hwn
        have haft : afterToken (ds ++ c :: (w0 ++ [])) = none := by
          unfold afterToken
          rw [hdrop]
          simp only [hq, if_false, hdrop2]
        refine ⟨c :: w0, [], _, _, [], by simp [specTokensFrom], ht, hc,
          Or.inr ⟨rfl, rfl, haft⟩,
          ⟨by simp, done ++ ds ++ c :: w0, by simpa using hbuf, by simp +arith⟩, rfl⟩
      · have hdd : d ∈ delimiters := by simpa using hd
        have hdn : d ≠ NUL := fun e => hr2n (by simp [← e])
        have ht := tokenize_word_delim st done ds (c :: w0) (tail ++ NUL :: z) d
          (by simpa using hbuf) hnext hds1 hw1 (by simp) (by simpa using hq) hdn hdd
        have hc : cstrAt (done ++ (ds ++ (c :: w0 ++ NUL :: (tail ++ NUL :: z))))
            (done.length + ds.length) = some (c :: w0) :=
          cstrAt_token _ (done ++ ds) (c :: w0) (tail ++ NUL :: z) _ (by simp)
            (by simp +arith) hwn
        have haft : afterToken (ds ++ c :: (w0 ++ d :: tail)) = some tail := by
          unfold afterToken
          rw [hdrop]
          simp only [hq, if_false, hdrop2]
        refine ⟨c :: w0, specTokensFrom LexMode.between tail, _, _, tail,
          by simp [specTokensFrom, hdd], ht, hc, Or.inl ⟨rfl, haft⟩,
          ⟨fun e => hr2n (by simp [e]), done ++ ds ++ c :: w0 ++ [NUL], by simp,
            by simp +arith⟩, rfl⟩

/-- One call of `tokenize` with the text `rest` left to read, without the bytes
after the terminator of the text. -/
theorem tokenize_step (st : TokState) (rest : List Char) (h : AtRest st rest) :
    (specTokensFrom LexMode.between rest = [] ∧
      ∃ st1, tokenize st none delimiters = some (none, st1) ∧ st1.buf = st.buf) ∨
    (∃ tok more p st1 rest1, specTokensFrom LexMode.between rest = tok :: more ∧
      tokenize st none delimiters = some (some p, st1) ∧
      cstrAt st1.buf p = some tok ∧
      (st1.next = p + tok.length + 1 ∨ (st1.next = p + tok.length ∧ rest1 = [])) ∧
      AtRest st1 rest1 ∧ specTokensFrom LexMode.between rest1 = more) := by
  obtain ⟨hnul, done, z, hbuf, hnext⟩ := h
  rcases tokenize_step_text st rest z ⟨hnul, done, hbuf, hnext⟩ with h1 |
    ⟨tok, more, p, st1, rest1, hs, ht, hc, hnx, ⟨hn1, d1, hb1, hx1⟩, hm⟩
  · exact Or.inl h1
  · refine Or.inr ⟨tok, more, p, st1, rest1, hs, ht, hc, ?_, ⟨hn1, d1, z, hb1, hx1⟩, hm⟩
    rcases hnx with ⟨e, _⟩ | ⟨e, e2, _⟩
    · exact Or.inl e
    · exact Or.inr ⟨e, e2⟩

/-! ## Theorems: two runs side by side -/

theorem keptOrSame_refl {T : Type} (a b : T) : KeptOrSame a b a b := Or.inl ⟨rfl, rfl⟩

theorem keptOrSame_same {T : Type} (a b c : T) : KeptOrSame a b c c := Or.inr rfl

theorem configSim_refl {F : Type} (a b : KorgiConfig F) : ConfigSim a b a b :=
  ⟨keptOrSame_refl _ _, keptOrSame_refl _ _, keptOrSame_refl _ _, keptOrSame_refl _ _,
    keptOrSame_refl _ _, fun _ => keptOrSame_refl _ _, fun _ => keptOrSame_refl _ _⟩

theorem keptOrSame_assign {T : Type} (m m' : Int → Option T) (key : Int) (v : T) (k : Int) :
    KeptOrSame (m k) (m' k) (assign m key v k) (assign m' key v k) := by
  unfold KeptOrSame assign
  by_cases h : k = key
  · right; simp [h]
  · left; simp [h]

theorem mapControl_rel (cfin c c' : Option ControlSurfaceMap) (hc : CsmRel cfin c c')
    (name : List Char) (r : Option ControlSurface) (hr : mapControl c name = some r) :
    mapControl c' name = some r := by
  rcases hc with e | ⟨e, _⟩
  · rw [← e]; exact hr
  · simp [e, mapControl] at hr

theorem setControlSurfaceType_rel (cfin c c' c1 : Option ControlSurfaceMap)
    (name : List Char) (b : Bool) (hc : CsmRel cfin c c')
    (h : setControlSurfaceType c name = (b, c1)) :
    ∃ c1', setControlSurfaceType c' name = (b, c1') ∧ CsmRel cfin c1 c1' := by
  unfold setControlSurfaceType at h ⊢
  cases hl : controlSurfaces.lookup name with
  | none =>
    rw [hl] at h
    simp only [Prod.mk.injEq] at h
    exact ⟨c', by rw [h.1], by rw [← h.2]; exact hc⟩
  | some m =>
    rw [hl] at h
    simp only [Prod.mk.injEq] at h
    exact ⟨some m, by rw [h.1], by rw [← h.2]; exact Or.inl rfl⟩

theorem directiveConnect_sim {F : Type} (cfin : Option ControlSurfaceMap) (st st' st1 : ParseState F) (t1 : TokState)
    (hs : StateSim cfin st st') (h : directiveConnect st t1 = some st1) :
    ∃ st1', directiveConnect st' t1 = some st1' ∧ StepSim cfin st st' st1 st1' := by
  obtain ⟨hc, hsu, hln, hse⟩ := hs
  unfold directiveConnect at h
  repeat' first
    | split at h
    | dsimp only at h
  all_goals (cases h)
  all_goals (simp only [directiveConnect, *])
  all_goals (refine ⟨_, rfl, ?_⟩)
  all_goals (simp [StepSim, StateSim, ConfigSim, ParseState.fail, keptOrSame_refl,
    keptOrSame_assign, keptOrSame_same, hc, hsu, hln, hse])

theorem directivePassword_sim {F : Type} (cfin : Option ControlSurfaceMap) (st st' st1 : ParseState F) (t1 : TokState)
    (hs : StateSim cfin st st') (h : directivePassword st t1 = some st1) :
    ∃ st1', directivePassword st' t1 = some st1' ∧ StepSim cfin st st' st1 st1' := by
  obtain ⟨hc, hsu, hln, hse⟩ := hs
  unfold directivePassword at h
  repeat' first
    | split at h
    | dsimp only at h
  all_goals (cases h)
  all_goals (simp only [directivePassword, *])
  all_goals (refine ⟨_, rfl, ?_⟩)
  all_goals (simp [StepSim, StateSim, ConfigSim, ParseState.fail, keptOrSame_refl,
    keptOrSame_assign, keptOrSame_same, hc, hsu, hln, hse])

theorem directiveDevice_sim {F : Type} (cfin : Option ControlSurfaceMap) (st st' st1 : ParseState F) (t1 : TokState)
    (hs : StateSim cfin st st') (h : directiveDevice st t1 = some st1) :
    ∃ st1', directiveDevice st' t1 = some st1' ∧ StepSim cfin st st' st1 st1' := by
  obtain ⟨hc, hsu, hln, hse⟩ := hs
  unfold directiveDevice at h
  repeat' first
    | split at h
    | dsimp only at h
  all_goals (cases h)
  all_goals (simp only [directiveDevice, *])
  all_goals (refine ⟨_, rfl, ?_⟩)
  all_goals (simp [StepSim, StateSim, ConfigSim, ParseState.fail, keptOrSame_refl,
    keptOrSame_assign, keptOrSame_same, hc, hsu, hln, hse])

theorem directiveDeviceName_sim {F : Type} (cfin : Option ControlSurfaceMap) (st st' st1 : ParseState F) (t1 : TokState)
    (hs : StateSim cfin st st') (h : directiveDeviceName st t1 = some st1) :
    ∃ st1', directiveDeviceName st' t1 = some st1' ∧ StepSim cfin st st' st1 st1' := by
  obtain ⟨hc, hsu, hln, hse⟩ := hs
  unfold directiveDeviceName at h
  repeat' first
    | split at h
    | dsimp only at h
  all_goals (cases h)
  all_goals (simp only [directiveDeviceName, *])
  all_goals (refine ⟨_, rfl, ?_⟩)
  all_goals (simp [StepSim, StateSim, ConfigSim, ParseState.fail, keptOrSame_refl,
    keptOrSame_assign, keptOrSame_same, hc, hsu, hln, hse])

theorem directiveDeviceMap_sim {F : Type} (cfin : Option ControlSurfaceMap) (st st' st1 : ParseState F) (t1 : TokState)
    (hs : StateSim cfin st st') (h : directiveDeviceMap st t1 = some st1) :
    ∃ st1', directiveDeviceMap st' t1 = some st1' ∧ StepSim cfin st st' st1 st1' := by
  obtain ⟨hc, hsu, hln, hse⟩ := hs
  have hm := fun name b c1 =>
    setControlSurfaceType_rel cfin st.controlSurfaceMap st'.controlSurfaceMap c1 name b hc
  unfold directiveDeviceMap at h
  repeat' first
    | split at h
    | dsimp only at h
  all_goals (cases h)
  all_goals (first
    | (have hmc2 := hm _ _ _ (by assumption)
       obtain ⟨c1', hset, hrel⟩ := hmc2
       simp only [directiveDeviceMap, *])
    | simp only [directiveDeviceMap, *])
  all_goals (refine ⟨_, rfl, ?_⟩)
  all_goals (simp [StepSim, StateSim, ConfigSim, ParseState.fail, keptOrSame_refl,
    keptOrSame_assign, keptOrSame_same, hc, hsu, hln, hse])
  all_goals assumption

theorem directiveButton_sim {F : Type} (cfin : Option ControlSurfaceMap) (st st' st1 : ParseState F) (t1 : TokState)
    (hs : StateSim cfin st st') (h : directiveButton st t1 = some st1) :
    ∃ st1', directiveButton st' t1 = some st1' ∧ StepSim cfin st st' st1 st1' := by
  obtain ⟨hc, hsu, hln, hse⟩ := hs
  have hm := mapControl_rel _ _ _ hc
  unfold directiveButton at h
  repeat' first
    | split at h
    | dsimp only at h
  all_goals (cases h)
  all_goals (first
    | (have hmc2 := hm _ _ (by assumption)
       simp only [directiveButton, *, ↓reduceIte, ne_eq, not_true_eq_false, not_false_eq_true])
    | simp only [directiveButton, *, ↓reduceIte, ne_eq, not_true_eq_false, not_false_eq_true])
  all_goals (refine ⟨_, rfl, ?_⟩)
  all_goals (simp [StepSim, StateSim, ConfigSim, ParseState.fail, keptOrSame_refl,
    keptOrSame_assign, keptOrSame_same, hc, hsu, hln, hse])

theorem directiveKnob_sim (A : FloatArith) (cfin : Option ControlSurfaceMap) (st st' st1 : ParseState A.F) (t1 : TokState) (what : List Char)
    (hs : StateSim cfin st st') (h : directiveKnob A st t1 what = some st1) :
    ∃ st1', directiveKnob A st' t1 what = some st1' ∧ StepSim cfin st st' st1 st1' := by
  obtain ⟨hc, hsu, hln, hse⟩ := hs
  have hm := mapControl_rel _ _ _ hc
  unfold directiveKnob at h
  repeat' first
    | split at h
    | dsimp only at h
  all_goals (cases h)
  all_goals (first
    | (have hmc2 := hm _ _ (by assumption)
       simp only [directiveKnob, *, ↓reduceIte, ne_eq, not_true_eq_false, not_false_eq_true])
    | simp only [directiveKnob, *, ↓reduceIte, ne_eq, not_true_eq_false, not_false_eq_true])
  all_goals (refine ⟨_, rfl, ?_⟩)
  all_goals (simp [StepSim, StateSim, ConfigSim, ParseState.fail, keptOrSame_refl,
    keptOrSame_assign, keptOrSame_same, hc, hsu, hln, hse])

theorem dispatchLine_sim (A : FloatArith) (cfin : Option ControlSurfaceMap) (st st' st1 : ParseState A.F) (buf : List Char)
    (hs : StateSim cfin st st') (h : dispatchLine A st buf = some st1) :
    ∃ st1', dispatchLine A st' buf = some st1' ∧ StepSim cfin st st' st1 st1' := by
  unfold dispatchLine at h ⊢
  split at h
  · cases h
  · rename_i t1 ht1
    cases h
    exact ⟨_, rfl, hs, rfl, configSim_refl _ _⟩
  rename_i cmd t1 ht1
  split at h
  · cases h
  rename_i command hcmd
  split at h
  · rename_i hd; rw [if_pos hd]; exact directiveConnect_sim cfin st st' st1 t1 hs h
  rename_i hd1; rw [if_neg hd1]
  split at h
  · rename_i hd; rw [if_pos hd]; exact directivePassword_sim cfin st st' st1 t1 hs h
  rename_i hd2; rw [if_neg hd2]
  split at h
  · rename_i hd; rw [if_pos hd]; exact directiveDevice_sim cfin st st' st1 t1 hs h
  rename_i hd3; rw [if_neg hd3]
  split at h
  · rename_i hd; rw [if_pos hd]; exact directiveDeviceName_sim cfin st st' st1 t1 hs h
  rename_i hd4; rw [if_neg hd4]
  split at h
  · rename_i hd; rw [if_pos hd]; exact directiveDeviceMap_sim cfin st st' st1 t1 hs h
  rename_i hd5; rw [if_neg hd5]
  split at h
  · rename_i hd; rw [if_pos hd]; exact directiveButton_sim cfin st st' st1 t1 hs h
  rename_i hd6; rw [if_neg hd6]
  split at h
  · rename_i hd; rw [if_pos hd]; exact directiveKnob_sim A cfin st st' st1 t1 command hs h
  rename_i hd7; rw [if_neg hd7]
  cases h
  obtain ⟨hc, hsu, hln, hse⟩ := hs
  refine ⟨_, rfl, ?_⟩
  simp [StepSim, StateSim, ConfigSim, ParseState.fail, keptOrSame_refl, hc, hln, hse]

theorem processLine_sim (A : FloatArith) (cfin : Option ControlSurfaceMap) (st st' st1 : ParseState A.F) (chunk : List Char)
    (hs : StateSim cfin st st') (hlb : st.linebuf = st'.linebuf)
    (h : processLine A st chunk = some st1) :
    ∃ st1', processLine A st' chunk = some st1' ∧ StepSim cfin st st' st1 st1' := by
  unfold processLine at h ⊢
  simp only [← hlb]
  simp only at h
  split at h
  · cases h
  rename_i buf1 h1
  split at h
  · cases h
  rename_i buf2 h2
  obtain ⟨hc, hsu, hln, hse⟩ := hs
  exact dispatchLine_sim A cfin { st with lineno := st.lineno + 1 } { st' with lineno := st'.lineno + 1 }
    st1 buf2 ⟨hc, hsu, by simp [hln], hse⟩ h

theorem keptOrSame_trans {T : Type} (a b a1 b1 a2 b2 : T) (h1 : KeptOrSame a b a1 b1)
    (h2 : KeptOrSame a1 b1 a2 b2) : KeptOrSame a b a2 b2 := by
  unfold KeptOrSame at *
  rcases h2 with ⟨e1, e2⟩ | e
  · rw [e1, e2]; exact h1
  · exact Or.inr e

theorem configSim_trans {F : Type} (a b a1 b1 a2 b2 : KorgiConfig F)
    (h1 : ConfigSim a b a1 b1) (h2 : ConfigSim a1 b1 a2 b2) : ConfigSim a b a2 b2 := by
  obtain ⟨p1, p2, p3, p4, p5, p6, p7⟩ := h1
  obtain ⟨q1, q2, q3, q4, q5, q6, q7⟩ := h2
  exact ⟨keptOrSame_trans _ _ _ _ _ _ p1 q1, keptOrSame_trans _ _ _ _ _ _ p2 q2,
    keptOrSame_trans _ _ _ _ _ _ p3 q3, keptOrSame_trans _ _ _ _ _ _ p4 q4,
    keptOrSame_trans _ _ _ _ _ _ p5 q5, fun k => keptOrSame_trans _ _ _ _ _ _ (p6 k) (q6 k),
    fun k => keptOrSame_trans _ _ _ _ _ _ (p7 k) (q7 k)⟩

theorem processLines_sim (A : FloatArith) (cfin : Option ControlSurfaceMap) (chunks : List (List Char)) :
    ∀ (st st' st1 : ParseState A.F), StateSim cfin st st' → st.linebuf = st'.linebuf →
      processLines A st chunks = some st1 →
      ∃ st1', processLines A st' chunks = some st1' ∧ StateSim cfin st1 st1' ∧
        ConfigSim st.new_config st'.new_config st1.new_config st1'.new_config := by
  induction chunks with
  | nil =>
    intro st st' st1 hs _ h
    simp only [processLines] at h ⊢
    cases h
    exact ⟨st', rfl, hs, configSim_refl _ _⟩
  | cons chunk rest ih =>
    intro st st' st1 hs hlb h
    simp only [processLines] at h ⊢
    split at h
    · cases h
    rename_i st2 h2
    obtain ⟨st2', hp, hs2, hlb2, hc2⟩ := processLine_sim A cfin st st' st2 chunk hs hlb h2
    rw [hp]
    obtain ⟨st1', hq, hs1, hc1⟩ := ih st2 st2' st1 hs2 hlb2 h
    exact ⟨st1', hq, hs1, configSim_trans _ _ _ _ _ _ hc2 hc1⟩

/-- A configuration that a second run treats like the first did is reproduced by
the second run when it starts from the result of the first. -/
theorem configSim_fixed {F : Type} (g n n2 : KorgiConfig F) (h : ConfigSim g n n n2) :
    n2 = n := by
  obtain ⟨p1, p2, p3, p4, p5, p6, p7⟩ := h
  have key : ∀ {T : Type} (a b c : T), KeptOrSame a b b c → c = b := by
    intro T a b c hk
    rcases hk with ⟨_, e⟩ | e
    · exact e
    · exact e.symm
  cases n
  cases n2
  simp only [KorgiConfig.mk.injEq]
  exact ⟨key _ _ _ p1, key _ _ _ p2, key _ _ _ p3, key _ _ _ p4, key _ _ _ p5,
    funext fun k => key _ _ _ (p6 k), funext fun k => key _ _ _ (p7 k)⟩

/-! ## Theorems: what a line leaves as it was -/

theorem mem_of_lookup_profile (name : List Char) (m : ControlSurfaceMap) :
    ∀ (l : List (List Char × ControlSurfaceMap)), l.lookup name = some m → (name, m) ∈ l := by
  intro l
  induction l with
  | nil => intro h; simp [List.lookup] at h
  | cons p l ih =>
    intro h
    obtain ⟨k, v⟩ := p
    simp only [List.lookup] at h
    split at h
    · rename_i hk
      have hak : name = k := by simpa using hk
      cases h
      simp [hak]
    · exact List.mem_cons_of_mem _ (ih h)

theorem setControlSurfaceType_result (c c1 : Option ControlSurfaceMap) (name : List Char)
    (b : Bool) (h : setControlSurfaceType c name = (b, c1)) :
    c1 = c ∨ IsCatalogProfile c1 := by
  unfold setControlSurfaceType at h
  cases hl : controlSurfaces.lookup name with
  | none =>
    rw [hl] at h
    simp only [Prod.mk.injEq] at h
    exact Or.inl h.2.symm
  | some m =>
    rw [hl] at h
    simp only [Prod.mk.injEq] at h
    exact Or.inr ⟨(name, m), mem_of_lookup_profile _ _ _ hl, h.2.symm⟩

theorem directiveConnect_frame {F : Type} (st st1 : ParseState F) (t1 : TokState)
    (h : directiveConnect st t1 = some st1) :
    st1.controlSurfaceMap = st.controlSurfaceMap ∧
    st1.new_config.password = st.new_config.password ∧
    st1.new_config.device = st.new_config.device ∧
    st1.new_config.device_name = st.new_config.device_name ∧
    st1.new_config.buttons = st.new_config.buttons ∧
    st1.new_config.knobs = st.new_config.knobs := by
  unfold directiveConnect at h
  repeat' first
    | split at h
    | dsimp only at h
  all_goals (cases h)
  all_goals (simp [ParseState.fail])

theorem directivePassword_frame {F : Type} (st st1 : ParseState F) (t1 : TokState)
    (h : directivePassword st t1 = some st1) :
    st1.controlSurfaceMap = st.controlSurfaceMap ∧
    st1.new_config.address = st.new_config.address ∧
    st1.new_config.port = st.new_config.port ∧
    st1.new_config.device = st.new_config.device ∧
    st1.new_config.device_name = st.new_config.device_name ∧
    st1.new_config.buttons = st.new_config.buttons ∧
    st1.new_config.knobs = st.new_config.knobs := by
  unfold directivePassword at h
  repeat' first
    | split at h
    | dsimp only at h
  all_goals (cases h)
  all_goals (simp [ParseState.fail])

theorem directiveDevice_frame {F : Type} (st st1 : ParseState F) (t1 : TokState)
    (h : directiveDevice st t1 = some st1) :
    st1.controlSurfaceMap = st.controlSurfaceMap ∧
    st1.new_config.address = st.new_config.address ∧
    st1.new_config.port = st.new_config.port ∧
    st1.new_config.password = st.new_config.password ∧
    st1.new_config.device_name = st.new_config.device_name ∧
    st1.new_config.buttons = st.new_config.buttons ∧
    st1.new_config.knobs = st.new_config.knobs := by
  unfold directiveDevice at h
  repeat' first
    | split at h
    | dsimp only at h
  all_goals (cases h)
  all_goals (simp [ParseState.fail])

theorem directiveDeviceName_frame {F : Type} (st st1 : ParseState F) (t1 : TokState)
    (h : directiveDeviceName st t1 = some st1) :
    st1.controlSurfaceMap = st.controlSurfaceMap ∧
    st1.new_config.address = st.new_config.address ∧
    st1.new_config.port = st.new_config.port ∧
    st1.new_config.password = st.new_config.password ∧
    st1.new_config.device = st.new_config.device ∧
    st1.new_config.buttons = st.new_config.buttons ∧
    st1.new_config.knobs = st.new_config.knobs := by
  unfold directiveDeviceName at h
  repeat' first
    | split at h
    | dsimp only at h
  all_goals (cases h)
  all_goals (simp [ParseState.fail])

theorem directiveDeviceMap_frame {F : Type} (st st1 : ParseState F) (t1 : TokState)
    (h : directiveDeviceMap st t1 = some st1) :
    (st1.controlSurfaceMap = st.controlSurfaceMap ∨ IsCatalogProfile st1.controlSurfaceMap) ∧
    st1.new_config = st.new_config := by
  have hm := fun name b c1 => setControlSurfaceType_result st.controlSurfaceMap c1 name b
  unfold directiveDeviceMap at h
  repeat' first
    | split at h
    | dsimp only at h
  all_goals (cases h)
  all_goals (first
    | (have hmc := hm _ _ _ (by assumption)
       simp [ParseState.fail, hmc])
    | simp [ParseState.fail])

theorem directiveButton_frame {F : Type} (st st1 : ParseState F) (t1 : TokState)
    (h : directiveButton st t1 = some st1) :
    st1.controlSurfaceMap = st.controlSurfaceMap ∧
    st1.new_config.address = st.new_config.address ∧
    st1.new_config.port = st.new_config.port ∧
    st1.new_config.password = st.new_config.password ∧
    st1.new_config.device = st.new_config.device ∧
    st1.new_config.device_name = st.new_config.device_name ∧
    st1.new_config.knobs = st.new_config.knobs := by
  unfold directiveButton at h
  repeat' first
    | split at h
    | dsimp only at h
  all_goals (cases h)
  all_goals (simp [ParseState.fail])

theorem directiveKnob_frame (A : FloatArith) (st st1 : ParseState A.F) (t1 : TokState)
    (what : List Char) (h : directiveKnob A st t1 what = some st1) :
    st1.controlSurfaceMap = st.controlSurfaceMap ∧
    st1.new_config.address = st.new_config.address ∧
    st1.new_config.port = st.new_config.port ∧
    st1.new_config.password = st.new_config.password ∧
    st1.new_config.device = st.new_config.device ∧
    st1.new_config.device_name = st.new_config.device_name ∧
    st1.new_config.buttons = st.new_config.buttons := by
  unfold directiveKnob at h
  repeat' first
    | split at h
    | dsimp only at h
  all_goals (cases h)
  all_goals (simp [ParseState.fail])

/-- The first call of `tokenize` of the loop body on a buffer that holds the
text `X` of a line: without a token the line is skipped, else the branch of the
first token of the specification is taken, with the rest of the text left to
read. -/
theorem dispatchLine_first (A : FloatArith) (st : ParseState A.F) (X z : List Char)
    (hX : NUL ∉ X) :
    (specTokens X = [] ∧
      ∃ buf, dispatchLine A st (X ++ NUL :: z) = some { st with linebuf := buf }) ∨
    (∃ cmd more t1 rest1, specTokens X = cmd :: more ∧ AtRest t1 rest1 ∧
      specTokensFrom LexMode.between rest1 = more ∧
      dispatchLine A st (X ++ NUL :: z) =
        (if cmd = "connect".toList then directiveConnect st t1
        else if cmd = "password".toList then directivePassword st t1
        else if cmd = "device".toList then directiveDevice st t1
        else if cmd = "device_name".toList then directiveDeviceName st t1
        else if cmd = "device_map".toList then directiveDeviceMap st t1
        else if cmd = "button".toList then directiveButton st t1
        else if cmd = "knob".toList ∨ cmd = "slider".toList then directiveKnob A st t1 cmd
        else some ({ st with linebuf := t1.buf }.fail (Diag.unknownDirective cmd)))) := by
  have hr : AtRest { buf := X ++ NUL :: z, next := 0 } X := ⟨hX, [], z, rfl, rfl⟩
  rcases tokenize_step _ X hr with ⟨hs, t1, ht1, _⟩ |
    ⟨tok, more, p, t1, rest1, hs, ht1, hc, _, hr1, hmore⟩
  · left
    refine ⟨hs, t1.buf, ?_⟩
    unfold dispatchLine
    rw [tokenize_restart]
    simp only [ht1]
  · right
    refine ⟨tok, more, t1, rest1, hs, hr1, hmore, ?_⟩
    unfold dispatchLine
    rw [tokenize_restart]
    simp only [ht1, hc]

/-- A `connect` line with fewer than two parameters leaves the port as it was. -/
theorem directiveConnect_port {F : Type} (st st1 : ParseState F) (t1 : TokState)
    (rest1 : List Char) (h : directiveConnect st t1 = some st1) (hr : AtRest t1 rest1)
    (hlen : (specTokensFrom LexMode.between rest1).length < 2) :
    st1.new_config.port = st.new_config.port := by
  unfold directiveConnect at h
  rcases tokenize_step t1 rest1 hr with ⟨_, t2, ht2, _⟩ |
    ⟨tok, more, p, t2, rest2, hs, ht2, hc, _, hr2, hmore⟩
  · simp only [ht2] at h
    repeat' first
      | split at h
      | dsimp only at h
    all_goals (cases h)
    all_goals (simp [ParseState.fail])
  · simp only [ht2] at h
    rcases tokenize_step t2 rest2 hr2 with ⟨_, t3, ht3, _⟩ |
      ⟨tok3, more3, p3, t3, rest3, hs3, ht3, hc3, _, hr3, hmore3⟩
    · simp only [ht3] at h
      repeat' first
        | split at h
        | dsimp only at h
      all_goals (cases h)
      all_goals (simp [ParseState.fail])
    · rw [hs, ← hmore, hs3] at hlen
      simp only [List.length_cons] at hlen
      omega

theorem assign_ne {T : Type} (m : Int → Option T) (key k : Int) (v : T)
    (h : assign m key v k ≠ m k) : key = k := by
  by_contra hne
  apply h
  unfold assign
  rw [if_neg (fun e => hne e.symm)]

theorem tokenChannel_alias (c : Option ControlSurfaceMap) (tok : List Char)
    (surf : ControlSurface) (hn : (strtol tok).2 ≠ tok.length)
    (h : mapControl c tok = some (some surf)) : tokenChannel c tok = some surf.channel := by
  unfold tokenChannel
  rw [if_pos hn]
  cases c with
  | none => simp [mapControl] at h
  | some m =>
    simp only [mapControl, Option.some.injEq] at h
    simp [h]

theorem tokenChannel_numeric (c : Option ControlSurfaceMap) (tok : List Char)
    (hn : ¬ (strtol tok).2 ≠ tok.length) :
    tokenChannel c tok = some (toInt32 (strtol tok).1) := by
  unfold tokenChannel
  rw [if_neg hn]

/-- A `button` line changes `buttons` only at the channel its channel token, the
next token of the specification, stands for. -/
theorem directiveButton_key {F : Type} (st st1 : ParseState F) (t1 : TokState)
    (rest1 : List Char) (k : Int) (h : directiveButton st t1 = some st1) (hr : AtRest t1 rest1)
    (hk : st1.new_config.buttons k ≠ st.new_config.buttons k) :
    ∃ tok more, specTokensFrom LexMode.between rest1 = tok :: more ∧
      tokenChannel st.controlSurfaceMap tok = some k := by
  unfold directiveButton at h
  rcases tokenize_step t1 rest1 hr with ⟨_, t2, ht2, _⟩ |
    ⟨tok, more, p, t2, rest2, hs, ht2, hc, _, hr2, hmore⟩
  · simp only [ht2] at h
    cases h
  · refine ⟨tok, more, hs, ?_⟩
    simp only [ht2, hc] at h
    repeat' first
      | split at h
      | dsimp only at h
    all_goals (cases h)
    all_goals (first
      | (exfalso; apply hk; simp [ParseState.fail]; done)
      | skip)
    all_goals (have hkey := assign_ne _ _ _ _ hk)
    all_goals (rw [← hkey])
    all_goals (first
      | exact tokenChannel_alias _ _ _ (by assumption) (by assumption)
      | exact tokenChannel_numeric _ _ (by assumption))

/-- A `knob` or `slider` line changes `knobs` only at the channel its channel
token, the next token of the specification, stands for. -/
theorem directiveKnob_key (A : FloatArith) (st st1 : ParseState A.F) (t1 : TokState)
    (what rest1 : List Char) (k : Int) (h : directiveKnob A st t1 what = some st1)
    (hr : AtRest t1 rest1) (hk : st1.new_config.knobs k ≠ st.new_config.knobs k) :
    ∃ tok more, specTokensFrom LexMode.between rest1 = tok :: more ∧
      tokenChannel st.controlSurfaceMap tok = some k := by
  unfold directiveKnob at h
  rcases tokenize_step t1 rest1 hr with ⟨_, t2, ht2, _⟩ |
    ⟨tok, more, p, t2, rest2, hs, ht2, hc, hnx, hr2, hmore⟩
  · simp only [ht2] at h
    repeat' first
      | split at h
      | dsimp only at h
    all_goals (cases h)
    all_goals (exfalso; apply hk; simp [ParseState.fail])
  · refine ⟨tok, more, hs, ?_⟩
    have hp : p + tok.length ≤ t2.next := by
      rcases hnx with e | ⟨e, _⟩ <;> omega
    simp only [ht2] at h
    split at h
    · cases h
    rename_i cvar t3 ht3
    obtain ⟨hc3, hp3⟩ := tokenize_keeps _ _ _ _ _ _ ht3 hc hp
    split at h
    · cases h
    rename_i vmin t4 ht4
    obtain ⟨hc4, hp4⟩ := tokenize_keeps _ _ _ _ _ _ ht4 hc3 hp3
    split at h
    · cases h
    rename_i vmax t5 ht5
    obtain ⟨hc5, _⟩ := tokenize_keeps _ _ _ _ _ _ ht5 hc4 hp4
    have hinj : ∀ s, cstrAt t5.buf p = some s → s = tok := by
      intro s hs
      rw [hc5] at hs
      exact (Option.some.inj hs).symm
    clear hc5
    repeat' first
      | split at h
      | dsimp only at h
    all_goals (cases h)
    all_goals (first
      | (exfalso; apply hk; simp [ParseState.fail]; done)
      | skip)
    all_goals (simp only [Option.some.injEq] at *; subst_vars)
    all_goals (have e := hinj _ (by assumption); subst e)
    all_goals (have hkey := assign_ne _ _ _ _ hk)
    all_goals (rw [← hkey])
    all_goals (first
      | exact tokenChannel_alias _ _ _ (by assumption) (by assumption)
      | exact tokenChannel_numeric _ _ (by assumption))

theorem frame_of_same {F : Type} (csm0 : Option ControlSurfaceMap)
    (ls : List (List (List Char))) (st st1 : ParseState F)
    (h1 : st1.new_config = st.new_config) (h2 : st1.controlSurfaceMap = st.controlSurfaceMap) :
    Frame csm0 ls st st1 := by
  simp [Frame, h1, h2]

theorem frame_append {F : Type} (csm0 : Option ControlSurfaceMap)
    (l1 l2 : List (List (List Char))) (st st1 st2 : ParseState F)
    (h1 : Frame csm0 l1 st st1) (h2 : Frame csm0 l2 st1 st2) :
    Frame csm0 (l1 ++ l2) st st2 := by
  obtain ⟨a1, a2, a3, a4, a5, a6, a7, a8⟩ := h1
  obtain ⟨b1, b2, b3, b4, b5, b6, b7, b8⟩ := h2
  have hl : ∀ {p : List (List Char) → Prop}, (∀ t ∈ l1 ++ l2, p t) → (∀ t ∈ l1, p t) :=
    fun h t ht => h t (List.mem_append_left _ ht)
  have hr : ∀ {p : List (List Char) → Prop}, (∀ t ∈ l1 ++ l2, p t) → (∀ t ∈ l2, p t) :=
    fun h t ht => h t (List.mem_append_right _ ht)
  refine ⟨fun h => ?_, fun h => ?_, fun h => ?_, fun h => ?_, fun h => ?_, fun k h => ?_,
    fun k h => ?_, fun h => ?_⟩
  · rw [b1 (hr h), a1 (hl h)]
  · rw [b2 (hr h), a2 (hl h)]
  · rw [b3 (hr h), a3 (hl h)]
  · rw [b4 (hr h), a4 (hl h)]
  · rw [b5 (hr h), a5 (hl h)]
  · rw [b6 k (hr h), a6 k (hl h)]
  · rw [b7 k (hr h), a7 k (hl h)]
  · rw [b8 (hr h), a8 (hl h)]

theorem namesChannel_of_ok (csm0 c : Option ControlSurfaceMap) (tok : List Char) (k : Int)
    (hok : CsmOk csm0 c) (h : tokenChannel c tok = some k) : namesChannel csm0 tok k = true := by
  unfold namesChannel
  rcases hok with e | ⟨p, hp, e⟩
  · subst e
    simp [h]
  · subst e
    simp only [Bool.or_eq_true, decide_eq_true_eq, List.any_eq_true]
    exact Or.inr ⟨p, hp, h⟩

theorem csmOk_step (csm0 c c1 : Option ControlSurfaceMap) (hok : CsmOk csm0 c)
    (h : c1 = c ∨ IsCatalogProfile c1) : CsmOk csm0 c1 := by
  rcases h with e | e
  · rw [e]; exact hok
  · exact Or.inr e

/-- What one line leaves as it was, in terms of the tokens the specification gives
for its text. -/
theorem dispatchLine_frame (A : FloatArith) (csm0 : Option ControlSurfaceMap)
    (st st1 : ParseState A.F) (X z : List Char) (hX : NUL ∉ X)
    (hok : CsmOk csm0 st.controlSurfaceMap)
    (h : dispatchLine A st (X ++ NUL :: z) = some st1) :
    CsmOk csm0 st1.controlSurfaceMap ∧ Frame csm0 [specTokens X] st st1 := by
  rcases dispatchLine_first A st X z hX with ⟨_, buf, hd⟩ |
    ⟨cmd, more, t1, rest1, hs, hr, hmore, hd⟩
  · rw [hd] at h
    cases h
    exact ⟨hok, frame_of_same _ _ _ _ rfl rfl⟩
  rw [hd] at h
  rw [hs]
  by_cases h1 : cmd = "connect".toList
  · rw [if_pos h1] at h
    obtain ⟨f0, f1, f2, f3, f4, f5⟩ := directiveConnect_frame st st1 t1 h
    refine ⟨by rw [f0]; exact hok, ?_⟩
    refine ⟨fun hh => ?_, fun hh => ?_, fun _ => f1, fun _ => f2, fun _ => f3,
      fun k _ => by rw [f4], fun k _ => by rw [f5], fun _ => f0⟩
    · simp [hasDirective, h1] at hh
    · apply directiveConnect_port st st1 t1 rest1 h hr
      rw [hmore]
      have hg : givesPort (cmd :: more) = false := hh _ (by simp)
      match more, hg with
      | [], _ => simp
      | [_], _ => simp
      | _ :: _ :: _, hg => simp [givesPort, h1] at hg
  rw [if_neg h1] at h
  by_cases h2 : cmd = "password".toList
  · rw [if_pos h2] at h
    obtain ⟨f0, f1, f2, f3, f4, f5, f6⟩ := directivePassword_frame st st1 t1 h
    refine ⟨by rw [f0]; exact hok, ?_⟩
    refine ⟨fun _ => f1, fun _ => f2, fun hh => ?_, fun _ => f3, fun _ => f4,
      fun k _ => by rw [f5], fun k _ => by rw [f6], fun _ => f0⟩
    simp [hasDirective, h2] at hh
  rw [if_neg h2] at h
  by_cases h3 : cmd = "device".toList
  · rw [if_pos h3] at h
    obtain ⟨f0, f1, f2, f3, f4, f5, f6⟩ := directiveDevice_frame st st1 t1 h
    refine ⟨by rw [f0]; exact hok, ?_⟩
    refine ⟨fun _ => f1, fun _ => f2, fun _ => f3, fun hh => ?_, fun _ => f4,
      fun k _ => by rw [f5], fun k _ => by rw [f6], fun _ => f0⟩
    simp [hasDirective, h3] at hh
  rw [if_neg h3] at h
  by_cases h4 : cmd = "device_name".toList
  · rw [if_pos h4] at h
    obtain ⟨f0, f1, f2, f3, f4, f5, f6⟩ := directiveDeviceName_frame st st1 t1 h
    refine ⟨by rw [f0]; exact hok, ?_⟩
    refine ⟨fun _ => f1, fun _ => f2, fun _ => f3, fun _ => f4, fun hh => ?_,
      fun k _ => by rw [f5], fun k _ => by rw [f6], fun _ => f0⟩
    simp [hasDirective, h4] at hh
  rw [if_neg h4] at h
  by_cases h5 : cmd = "device_map".toList
  · rw [if_pos h5] at h
    obtain ⟨f0, f1⟩ := directiveDeviceMap_frame st st1 t1 h
    refine ⟨csmOk_step _ _ _ hok f0, ?_⟩
    refine ⟨fun _ => by rw [f1], fun _ => by rw [f1], fun _ => by rw [f1], fun _ => by rw [f1],
      fun _ => by rw [f1], fun k _ => by rw [f1], fun k _ => by rw [f1], fun hh => ?_⟩
    simp [hasDirective, h5] at hh
  rw [if_neg h5] at h
  by_cases h6 : cmd = "button".toList
  · rw [if_pos h6] at h
    obtain ⟨f0, f1, f2, f3, f4, f5, f6⟩ := directiveButton_frame st st1 t1 h
    refine ⟨by rw [f0]; exact hok, ?_⟩
    refine ⟨fun _ => f1, fun _ => f2, fun _ => f3, fun _ => f4, fun _ => f5,
      fun k hh => ?_, fun k _ => by rw [f6], fun _ => f0⟩
    by_contra hk
    obtain ⟨tok, more1, hs1, hch⟩ := directiveButton_key st st1 t1 rest1 k h hr hk
    have hn := namesChannel_of_ok csm0 _ tok k hok hch
    have hg : assignsButton csm0 k (cmd :: more) = false := hh _ (by simp)
    rw [← hmore, hs1] at hg
    simp [assignsButton, h6, hn] at hg
  rw [if_neg h6] at h
  by_cases h7 : cmd = "knob".toList ∨ cmd = "slider".toList
  · rw [if_pos h7] at h
    obtain ⟨f0, f1, f2, f3, f4, f5, f6⟩ := directiveKnob_frame A st st1 t1 cmd h
    refine ⟨by rw [f0]; exact hok, ?_⟩
    refine ⟨fun _ => f1, fun _ => f2, fun _ => f3, fun _ => f4, fun _ => f5,
      fun k _ => by rw [f6], fun k hh => ?_, fun _ => f0⟩
    by_contra hk
    obtain ⟨tok, more1, hs1, hch⟩ := directiveKnob_key A st st1 t1 cmd rest1 k h hr hk
    have hn := namesChannel_of_ok csm0 _ tok k hok hch
    have hg : assignsKnob csm0 k (cmd :: more) = false := hh _ (by simp)
    rw [← hmore, hs1] at hg
    rcases h7 with e | e
    · simp [assignsKnob, e, hn] at hg
    · simp [assignsKnob, e, hn] at hg
  rw [if_neg h7] at h
  cases h
  exact ⟨hok, frame_of_same _ _ _ _ rfl rfl⟩

/-- What one call of `fgets` and the loop body leave as they were. -/
theorem processLine_frame (A : FloatArith) (csm0 : Option ControlSurfaceMap)
    (st st1 : ParseState A.F) (chunk : List Char) (hok : CsmOk csm0 st.controlSurfaceMap)
    (h : processLine A st chunk = some st1) :
    CsmOk csm0 st1.controlSurfaceMap ∧ Frame csm0 [lineTokens chunk] st st1 := by
  obtain ⟨z, hz⟩ := processLine_cut A st chunk
  rw [hz] at h
  have hX : NUL ∉ lineText chunk := fun hm => (lineText_plain chunk _ hm).1 rfl
  exact dispatchLine_frame A csm0 { st with lineno := st.lineno + 1 } st1 _ z hX hok h

/-- What the lines of a file leave as they were. -/
theorem processLines_frame (A : FloatArith) (csm0 : Option ControlSurfaceMap)
    (chunks : List (List Char)) :
    ∀ (st st1 : ParseState A.F), CsmOk csm0 st.controlSurfaceMap →
      processLines A st chunks = some st1 →
      CsmOk csm0 st1.controlSurfaceMap ∧ Frame csm0 (chunks.map lineTokens) st st1 := by
  induction chunks with
  | nil =>
    intro st st1 hok h
    simp only [processLines] at h
    cases h
    exact ⟨hok, frame_of_same _ _ _ _ rfl rfl⟩
  | cons chunk rest ih =>
    intro st st1 hok h
    simp only [processLines] at h
    split at h
    · cases h
    rename_i st2 h2
    obtain ⟨hok2, hf2⟩ := processLine_frame A csm0 st st2 chunk hok h2
    obtain ⟨hok1, hf1⟩ := ih st2 st1 hok2 h
    exact ⟨hok1, frame_append csm0 [lineTokens chunk] _ st st2 st1 hf2 hf1⟩

theorem isCatalogProfile_eq (c : Option ControlSurfaceMap) (h : IsCatalogProfile c) :
    c = some controlMap_Korg_nanoKONTROL2 := by
  obtain ⟨p, hp, e⟩ := h
  simp only [controlSurfaces, List.mem_singleton] at hp
  rw [e, hp]

/-- What a completed call of `ReadConfigFile` on a file that could be opened
leaves behind, in terms of the state after the loop. -/
theorem ReadConfigFile_run (A : FloatArith) (g_config : KorgiConfig A.F)
    (controlSurfaceMap : Option ControlSurfaceMap) (stack text : List Char)
    (r : ReadResult A.F)
    (hrun : ReadConfigFile A g_config controlSurfaceMap stack (some text) = some r) :
    ∃ st, processLines A
        { new_config := g_config, controlSurfaceMap := controlSurfaceMap, linebuf := stack,
          success := true, lineno := 0, stderr := [] } (fileLines text) = some st ∧
      r = finishRead g_config st := by
  simp only [ReadConfigFile] at hrun
  split at hrun
  · cases hrun
  rename_i st hst
  cases hrun
  exact ⟨st, hst, rfl⟩

/-- The committed configuration after a completed call is the working
configuration or the configuration committed before. -/
theorem finishRead_g_config {F : Type} (g : KorgiConfig F) (st : ParseState F) :
    (finishRead g st).g_config = st.new_config ∨ (finishRead g st).g_config = g := by
  have e : (finishRead g st).g_config
      = if (st.success && !decide (st.new_config.password.length = 0)) = true
        then st.new_config else g := rfl
  rw [e]
  split
  · exact Or.inl rfl
  · exact Or.inr rfl

theorem processLines_split (A : FloatArith) (pre post : List (List Char)) (l : List Char) :
    ∀ (st st2 : ParseState A.F), processLines A st (pre ++ l :: post) = some st2 →
      ∃ sa sb, processLines A st pre = some sa ∧ processLine A sa l = some sb ∧
        processLines A sb post = some st2 := by
  induction pre with
  | nil =>
    intro st st2 h
    simp only [List.nil_append, processLines] at h
    split at h
    · cases h
    rename_i sb hsb
    exact ⟨st, sb, rfl, hsb, h⟩
  | cons c pre ih =>
    intro st st2 h
    simp only [List.cons_append, processLines] at h
    split at h
    · cases h
    rename_i s1 hs1
    obtain ⟨sa, sb, h1, h2, h3⟩ := ih s1 st2 h
    refine ⟨sa, sb, ?_, h2, h3⟩
    simp only [processLines, hs1]
    exact h1

/-- A `device_map` line with a parameter calls `setControlSurfaceType` on it. -/
theorem directiveDeviceMap_sets {F : Type} (st st1 : ParseState F) (t1 : TokState)
    (rest1 name : List Char) (more : List (List Char))
    (h : directiveDeviceMap st t1 = some st1) (hr : AtRest t1 rest1)
    (hs : specTokensFrom LexMode.between rest1 = name :: more) :
    st1.controlSurfaceMap = (setControlSurfaceType st.controlSurfaceMap name).2 := by
  unfold directiveDeviceMap at h
  rcases tokenize_step t1 rest1 hr with ⟨he, _⟩ |
    ⟨tok, more1, p, t2, rest2, hs1, ht2, hc, _, _, _⟩
  · rw [he] at hs
    cases hs
  · rw [hs1] at hs
    simp only [List.cons.injEq] at hs
    obtain ⟨e, _⟩ := hs
    subst e
    simp only [ht2, hc] at h
    split at h
    · rename_i csm hset
      cases h
      simp [ParseState.fail, hset]
    · rename_i csm hset
      cases h
      simp [hset]

theorem dispatchLine_device_map (A : FloatArith) (st st1 : ParseState A.F)
    (X z name : List Char) (more : List (List Char)) (hX : NUL ∉ X)
    (hs : specTokens X = "device_map".toList :: name :: more)
    (h : dispatchLine A st (X ++ NUL :: z) = some st1) :
    st1.controlSurfaceMap = (setControlSurfaceType st.controlSurfaceMap name).2 := by
  rcases dispatchLine_first A st X z hX with ⟨he, _⟩ |
    ⟨cmd, more1, t1, rest1, hs1, hr, hmore, hd⟩
  · rw [he] at hs
    cases hs
  · rw [hs1] at hs
    simp only [List.cons.injEq] at hs
    obtain ⟨e, e2⟩ := hs
    subst e
    rw [hd] at h
    rw [if_neg (by decide), if_neg (by decide), if_neg (by decide), if_neg (by decide),
      if_pos rfl] at h
    exact directiveDeviceMap_sets st st1 t1 rest1 name more h hr (by rw [hmore, e2])

theorem processLine_device_map (A : FloatArith) (st st1 : ParseState A.F)
    (chunk name : List Char) (more : List (List Char))
    (hs : lineTokens chunk = "device_map".toList :: name :: more)
    (h : processLine A st chunk = some st1) :
    st1.controlSurfaceMap = (setControlSurfaceType st.controlSurfaceMap name).2 := by
  obtain ⟨z, hz⟩ := processLine_cut A st chunk
  rw [hz] at h
  have hX : NUL ∉ lineText chunk := fun hm => (lineText_plain chunk _ hm).1 rfl
  exact dispatchLine_device_map A { st with lineno := st.lineno + 1 } st1 _ z name more hX hs h

theorem assign_self {T : Type} (m : Int → Option T) (key : Int) (v : T) :
    assign m key v key = some v := by
  simp [assign]

theorem finishRead_of_ret {F : Type} (g : KorgiConfig F) (st : ParseState F)
    (h : (finishRead g st).ret = true) : (finishRead g st).g_config = st.new_config := by
  have e : (finishRead g st).g_config
      = if (st.success && !decide (st.new_config.password.length = 0)) = true
        then st.new_config else g := rfl
  have h2 : (st.success && !decide (st.new_config.password.length = 0)) = true := h
  rw [e, if_pos h2]

/-- Every channel of the profile `nanoKONTROL2` is a MIDI channel number. -/
theorem nanoKONTROL2_channel_range (a : List Char) (s : ControlSurface)
    (h : controlMap_Korg_nanoKONTROL2.lookup a = some s) : 0 ≤ s.channel ∧ s.channel ≤ 127 := by
  have hall : ∀ p ∈ controlMap_Korg_nanoKONTROL2, 0 ≤ p.2.channel ∧ p.2.channel ≤ 127 := by
    decide
  exact hall (a, s) (mem_of_lookup a s _ h)

/-- A channel a token can stand for is the value of the token, for a token that
`strtol` converts completely, and else a MIDI channel number of the catalog. -/
theorem namesChannel_cases (csm0 : Option ControlSurfaceMap) (tok : List Char) (k : Int)
    (hcsm : csm0 = none ∨ IsCatalogProfile csm0) (h : namesChannel csm0 tok k = true) :
    ((strtol tok).2 = tok.length ∧ k = toInt32 (strtol tok).1) ∨
    ((strtol tok).2 ≠ tok.length ∧ 0 ≤ k ∧ k ≤ 127) := by
  have key : ∀ c, (c = none ∨ IsCatalogProfile c) → tokenChannel c tok = some k →
      ((strtol tok).2 = tok.length ∧ k = toInt32 (strtol tok).1) ∨
      ((strtol tok).2 ≠ tok.length ∧ 0 ≤ k ∧ k ≤ 127) := by
    intro c hc ht
    unfold tokenChannel at ht
    by_cases hn : (strtol tok).2 ≠ tok.length
    · rw [if_pos hn] at ht
      rcases hc with e | e
      · rw [e] at ht
        cases ht
      · rw [isCatalogProfile_eq c e] at ht
        simp only at ht
        cases hl : controlMap_Korg_nanoKONTROL2.lookup tok with
        | none => rw [hl] at ht; cases ht
        | some s =>
          rw [hl] at ht
          simp only [Option.map_some', Option.some.injEq] at ht
          subst ht
          exact Or.inr ⟨hn, nanoKONTROL2_channel_range tok s hl⟩
    · rw [if_neg hn] at ht
      simp only [Option.some.injEq] at ht
      exact Or.inl ⟨not_not.1 hn, ht.symm⟩
  unfold namesChannel at h
  simp only [Bool.or_eq_true, decide_eq_true_eq, List.any_eq_true] at h
  rcases h with h | ⟨p, hp, h⟩
  · exact key _ hcsm h
  · exact key _ (Or.inr ⟨p, hp, rfl⟩) h

/-- A line free of `NUL` and of the comment character, ended by its line feed:
after the two cuts `linebuf` holds the line and two terminators, that of the cut
and that of `fgets`. -/
theorem processLine_plain_lf (A : FloatArith) (st : ParseState A.F) (X : List Char)
    (hX : ∀ x ∈ X, x ≠ NUL ∧ x ≠ HASH ∧ x ≠ LF) :
    processLine A st (X ++ [LF])
      = dispatchLine A { st with lineno := st.lineno + 1 }
          (X ++ NUL :: NUL :: st.linebuf.drop (X.length + 1 + 1)) := by
  have hLF : LF ≠ NUL := by decide
  have hLH : LF ≠ HASH := by decide
  unfold processLine
  have hXL : ∀ x ∈ X ++ [LF], x ≠ NUL ∧ x ≠ HASH := by
    intro x hx
    rcases List.mem_append.1 hx with h | h
    · exact ⟨(hX x h).1, (hX x h).2.1⟩
    · rw [List.mem_singleton.1 h]; exact ⟨hLF, hLH⟩
  simp only
  rw [cutAt_absent HASH (X ++ [LF]) _ hXL]
  simp only [List.append_assoc, List.singleton_append, List.length_append, List.length_singleton]
  rw [cutAt_present LF hLF X _ (fun x hx => ⟨(hX x hx).1, (hX x hx).2.2⟩)]

/-- The `button` branch on a channel token that is ended by a delimiter or a
closing quote: the text after that character is the command; the line is
rejected when that text is empty. -/
theorem directiveButton_text {F : Type} (st : ParseState F) (t1 : TokState)
    (rest1 z tok cmd : List Char) (more : List (List Char)) (hr : AtText t1 rest1 z)
    (hs : specTokensFrom LexMode.between rest1 = tok :: more)
    (ha : afterToken rest1 = some cmd) :
    ∃ buf, directiveButton st t1 =
      (if cmd = [] then
        some ({ st with linebuf := buf }.fail (Diag.insufficient "button".toList))
      else if (strtol tok).2 ≠ tok.length then
        match mapControl st.controlSurfaceMap tok with
        | none => none
        | some none =>
            some ({ st with linebuf := buf }.fail (Diag.invalidChannel "button".toList tok))
        | some (some surf) =>
            if surf.type ≠ SurfaceType.Button then
              some ({ st with linebuf := buf }.fail (Diag.wrongKind tok "button".toList))
            else
              some { st with linebuf := buf, new_config := { st.new_config with
                buttons := assign st.new_config.buttons surf.channel cmd } }
      else
        some { st with linebuf := buf, new_config := { st.new_config with
          buttons := assign st.new_config.buttons (toInt32 (strtol tok).1) cmd } }) := by
  rcases tokenize_step_text t1 rest1 z hr with ⟨he, _⟩ |
    ⟨tok1, more1, p, t2, rest2, hs1, ht2, hc, hnx, ⟨hn2, done, hb2, hx2⟩, _⟩
  · rw [he] at hs
    cases hs
  rw [hs1] at hs
  simp only [List.cons.injEq] at hs
  obtain ⟨e, _⟩ := hs
  subst e
  rcases hnx with ⟨hnext, haft⟩ | ⟨_, _, haft⟩
  swap
  · rw [haft] at ha
    cases ha
  rw [haft] at ha
  simp only [Option.some.injEq] at ha
  subst ha
  have hidx : p + tok1.length + 1 = done.length := by rw [← hnext, hx2]
  refine ⟨t2.buf, ?_⟩
  unfold directiveButton
  simp only [ht2, hc, hidx]
  have hcmd : cstrAt t2.buf done.length = some rest2 :=
    cstrAt_token _ done rest2 z _ hb2 rfl hn2
  cases rest2 with
  | nil =>
    have hget : t2.buf.get? done.length = some NUL := by
      rw [hb2]
      exact get_at _ _ _ _ rfl
    simp only [hget, if_true]
  | cons c0 cmd1 =>
    have hc0 : c0 ≠ NUL := fun e => hn2 (by simp [e])
    have hget : t2.buf.get? done.length = some c0 := by
      rw [hb2]
      exact get_at _ _ _ _ rfl
    rw [if_neg (List.cons_ne_nil c0 cmd1)]
    simp only [hget, hcmd, hc0, if_false]

/-- The `button` branch on a channel token that runs to the end of the text of
the line, when the byte after the terminator of the text is a terminator too:
the branch finds no command. -/
theorem directiveButton_end {F : Type} (st : ParseState F) (t1 : TokState)
    (rest1 z tok : List Char) (more : List (List Char)) (hr : AtText t1 rest1 (NUL :: z))
    (hs : specTokensFrom LexMode.between rest1 = tok :: more)
    (ha : afterToken rest1 = none) :
    ∃ buf, directiveButton st t1 =
      some ({ st with linebuf := buf }.fail (Diag.insufficient "button".toList)) := by
  rcases tokenize_step_text t1 rest1 (NUL :: z) hr with ⟨he, _⟩ |
    ⟨tok1, more1, p, t2, rest2, hs1, ht2, hc, hnx, ⟨hn2, done, hb2, hx2⟩, _⟩
  · rw [he] at hs
    cases hs
  rcases hnx with ⟨_, haft⟩ | ⟨hnext, hr2, _⟩
  · rw [haft] at ha
    cases ha
  subst hr2
  have hidx : p + tok1.length + 1 = done.length + 1 := by rw [← hnext, hx2]
  refine ⟨t2.buf, ?_⟩
  unfold directiveButton
  simp only [ht2, hc, hidx]
  have hget : t2.buf.get? (done.length + 1) = some NUL := by
    rw [hb2]
    have e : done ++ ([] ++ NUL :: NUL :: z) = (done ++ [NUL]) ++ NUL :: z := by simp
    rw [e]
    exact get_at _ _ _ _ (by simp)
  simp only [hget, if_true]

/-- The first call of `tokenize` of the loop body on a `button` line with a
channel token: the `button` branch is taken with the text after the directive
token left to read. -/
theorem dispatchLine_button_first (A : FloatArith) (st : ParseState A.F) (X z tok : List Char)
    (more : List (List Char)) (hX : NUL ∉ X)
    (hs : specTokens X = "button".toList :: tok :: more) :
    ∃ t1 rest1, afterToken X = some rest1 ∧ AtText t1 rest1 z ∧
      specTokensFrom LexMode.between rest1 = tok :: more ∧
      dispatchLine A st (X ++ NUL :: z) = directiveButton st t1 := by
  have hr : AtText { buf := X ++ NUL :: z, next := 0 } X z := ⟨hX, [], rfl, rfl⟩
  rcases tokenize_step_text _ X z hr with ⟨he, _⟩ |
    ⟨cmd, more1, p, t1, rest1, hs1, ht1, hc, hnx, hr1, hmore⟩
  · rw [specTokens, he] at hs
    cases hs
  rw [specTokens, hs1] at hs
  simp only [List.cons.injEq] at hs
  obtain ⟨e, e2⟩ := hs
  subst e
  rcases hnx with ⟨_, haft⟩ | ⟨_, hr2, _⟩
  swap
  · subst hr2
    rw [e2] at hmore
    simp [specTokensFrom] at hmore
  refine ⟨t1, rest1, haft, hr1, by rw [hmore, e2], ?_⟩
  unfold dispatchLine
  rw [tokenize_restart]
  simp only [ht1, hc]
  rw [if_neg (by decide), if_neg (by decide), if_neg (by decide), if_neg (by decide),
    if_neg (by decide)]
  exact if_pos trivial

/-- A `button` line whose channel token is ended by a delimiter or a closing
quote: what the loop body does with the channel token `tok` and the text `cmd`
after that character. -/
theorem processLine_button_text (A : FloatArith) (st : ParseState A.F)
    (chunk tok cmd : List Char) (more : List (List Char))
    (htoks : lineTokens chunk = "button".toList :: tok :: more)
    (hcmd : buttonCommand (lineText chunk) = some cmd) :
    ∃ buf, processLine A st chunk =
      (if cmd = [] then
        some ({ st with lineno := st.lineno + 1, linebuf := buf }.fail
          (Diag.insufficient "button".toList))
      else if (strtol tok).2 ≠ tok.length then
        match mapControl st.controlSurfaceMap tok with
        | none => none
        | some none =>
            some ({ st with lineno := st.lineno + 1, linebuf := buf }.fail
              (Diag.invalidChannel "button".toList tok))
        | some (some surf) =>
            if surf.type ≠ SurfaceType.Button then
              some ({ st with lineno := st.lineno + 1, linebuf := buf }.fail
                (Diag.wrongKind tok "button".toList))
            else
              some { st with
                lineno := st.lineno + 1
                linebuf := buf
                new_config := { st.new_config with
                  buttons := assign st.new_config.buttons surf.channel cmd } }
      else
        some { st with
          lineno := st.lineno + 1
          linebuf := buf
          new_config := { st.new_config with
            buttons := assign st.new_config.buttons (toInt32 (strtol tok).1) cmd } }) := by
  obtain ⟨z, hz⟩ := processLine_cut A st chunk
  have hX : NUL ∉ lineText chunk := fun hm => (lineText_plain chunk _ hm).1 rfl
  obtain ⟨t1, rest1, haft, hr1, hs1, hd⟩ :=
    dispatchLine_button_first A { st with lineno := st.lineno + 1 } (lineText chunk) z tok more
      hX htoks
  unfold buttonCommand at hcmd
  rw [haft] at hcmd
  obtain ⟨buf, hb⟩ := directiveButton_text { st with lineno := st.lineno + 1 } t1 rest1 z tok
    cmd more hr1 hs1 hcmd
  exact ⟨buf, by rw [hz, hd, hb]⟩

/-- A `button` line whose channel token is ended by the line feed of the line:
the loop body finds no command. -/
theorem processLine_button_end (A : FloatArith) (st : ParseState A.F)
    (chunk tok : List Char) (more : List (List Char))
    (htoks : lineTokens chunk = "button".toList :: tok :: more)
    (hcmd : buttonCommand (lineText chunk) = none) (hlf : chunk = lineText chunk ++ [LF]) :
    ∃ buf, processLine A st chunk =
      some ({ st with lineno := st.lineno + 1, linebuf := buf }.fail
        (Diag.insufficient "button".toList)) := by
  have hz := processLine_plain_lf A st (lineText chunk) (lineText_plain chunk)
  rw [← hlf] at hz
  have hX : NUL ∉ lineText chunk := fun hm => (lineText_plain chunk _ hm).1 rfl
  obtain ⟨t1, rest1, haft, hr1, hs1, hd⟩ :=
    dispatchLine_button_first A { st with lineno := st.lineno + 1 } (lineText chunk)
      (NUL :: st.linebuf.drop ((lineText chunk).length + 1 + 1)) tok more hX htoks
  unfold buttonCommand at hcmd
  rw [haft] at hcmd
  obtain ⟨buf, hb⟩ := directiveButton_end { st with lineno := st.lineno + 1 } t1 rest1 _ tok
    more hr1 hs1 hcmd
  exact ⟨buf, by rw [hz, hd, hb]⟩

/-- The `knob` / `slider` branch on a line with four parameters: what it does
with the channel token `tok` and the tokens `cvar`, `vmin`, `vmax` that follow
it. -/
theorem directiveKnob_text (A : FloatArith) (st : ParseState A.F) (t1 : TokState)
    (what rest1 tok cvar vmin vmax : List Char) (more : List (List Char))
    (hr : AtRest t1 rest1)
    (hs : specTokensFrom LexMode.between rest1 = tok :: cvar :: vmin :: vmax :: more) :
    ∃ buf, directiveKnob A st t1 what =
      (if (strtol tok).2 ≠ tok.length then
        match mapControl st.controlSurfaceMap tok with
        | none => none
        | some none => some ({ st with linebuf := buf }.fail (Diag.invalidChannel what tok))
        | some (some surf) =>
            if (decide (what = "knob".toList) && decide (surf.type ≠ SurfaceType.RotaryKnob)) ||
                (!decide (what = "knob".toList) && decide (surf.type ≠ SurfaceType.Slider)) then
              some ({ st with linebuf := buf }.fail (Diag.wrongKind tok what))
            else
              some { st with linebuf := buf, new_config := { st.new_config with
                knobs := assign st.new_config.knobs surf.channel
                  { name := cvar, min_value := A.atof vmin, max_value := A.atof vmax } } }
      else
        some { st with linebuf := buf, new_config := { st.new_config with
          knobs := assign st.new_config.knobs (toInt32 (strtol tok).1)
            { name := cvar, min_value := A.atof vmin, max_value := A.atof vmax } } }) := by
  have step : ∀ (t : TokState) (rest x : List Char) (xs : List (List Char)), AtRest t rest →
      specTokensFrom LexMode.between rest = x :: xs →
      ∃ p t' rest', tokenize t none delimiters = some (some p, t') ∧
        cstrAt t'.buf p = some x ∧ p + x.length ≤ t'.next ∧ AtRest t' rest' ∧
        specTokensFrom LexMode.between rest' = xs := by
    intro t rest x xs hat hsp
    rcases tokenize_step t rest hat with ⟨he, _⟩ |
      ⟨x1, xs1, p, t', rest', hs1, ht, hc, hnx, hr', hm⟩
    · rw [he] at hsp
      cases hsp
    · rw [hs1] at hsp
      simp only [List.cons.injEq] at hsp
      obtain ⟨e1, e2⟩ := hsp
      subst e1
      subst e2
      refine ⟨p, t', rest', ht, hc, ?_, hr', hm⟩
      rcases hnx with e | ⟨e, _⟩ <;> omega
  obtain ⟨p2, t2, r2, ht2, hc2, hp2, hr2, hs2⟩ := step t1 rest1 _ _ hr hs
  obtain ⟨p3, t3, r3, ht3, hc3, hp3, hr3, hs3⟩ := step t2 r2 _ _ hr2 hs2
  obtain ⟨p4, t4, r4, ht4, hc4, hp4, hr4, hs4⟩ := step t3 r3 _ _ hr3 hs3
  obtain ⟨p5, t5, r5, ht5, hc5, hp5, _, _⟩ := step t4 r4 _ _ hr4 hs4
  obtain ⟨hc23, hp23⟩ := tokenize_keeps _ _ _ _ _ _ ht3 hc2 hp2
  obtain ⟨hc24, hp24⟩ := tokenize_keeps _ _ _ _ _ _ ht4 hc23 hp23
  obtain ⟨hc25, _⟩ := tokenize_keeps _ _ _ _ _ _ ht5 hc24 hp24
  obtain ⟨hc34, hp34⟩ := tokenize_keeps _ _ _ _ _ _ ht4 hc3 hp3
  obtain ⟨hc35, _⟩ := tokenize_keeps _ _ _ _ _ _ ht5 hc34 hp34
  obtain ⟨hc45, _⟩ := tokenize_keeps _ _ _ _ _ _ ht5 hc4 hp4
  refine ⟨t5.buf, ?_⟩
  unfold directiveKnob
  simp only [ht2, ht3, ht4, ht5, hc25, hc35, hc45, hc5]

/-- A `knob` or `slider` line with four parameters: what the loop body does with
the channel token and the three tokens after it. -/
theorem processLine_knob_text (A : FloatArith) (st : ParseState A.F)
    (chunk what tok cvar vmin vmax : List Char) (more : List (List Char))
    (hwhat : what = "knob".toList ∨ what = "slider".toList)
    (htoks : lineTokens chunk = what :: tok :: cvar :: vmin :: vmax :: more) :
    ∃ buf, processLine A st chunk =
      (if (strtol tok).2 ≠ tok.length then
        match mapControl st.controlSurfaceMap tok with
        | none => none
        | some none =>
            some ({ st with lineno := st.lineno + 1, linebuf := buf }.fail
              (Diag.invalidChannel what tok))
        | some (some surf) =>
            if (decide (what = "knob".toList) && decide (surf.type ≠ SurfaceType.RotaryKnob)) ||
                (!decide (what = "knob".toList) && decide (surf.type ≠ SurfaceType.Slider)) then
              some ({ st with lineno := st.lineno + 1, linebuf := buf }.fail
                (Diag.wrongKind tok what))
            else
              some { st with
                lineno := st.lineno + 1
                linebuf := buf
                new_config := { st.new_config with
                  knobs := assign st.new_config.knobs surf.channel
                    { name := cvar, min_value := A.atof vmin, max_value := A.atof vmax } } }
      else
        some { st with
          lineno := st.lineno + 1
          linebuf := buf
          new_config := { st.new_config with
            knobs := assign st.new_config.knobs (toInt32 (strtol tok).1)
              { name := cvar, min_value := A.atof vmin, max_value := A.atof vmax } } }) := by
  obtain ⟨z, hz⟩ := processLine_cut A st chunk
  have hX : NUL ∉ lineText chunk := fun hm => (lineText_plain chunk _ hm).1 rfl
  rcases dispatchLine_first A { st with lineno := st.lineno + 1 } (lineText chunk) z hX with
    ⟨he, _⟩ | ⟨cmd, more1, t1, rest1, hs1, hr, hmore, hd⟩
  · rw [lineTokens, he] at htoks
    cases htoks
  rw [lineTokens, hs1] at htoks
  simp only [List.cons.injEq] at htoks
  obtain ⟨e, e2⟩ := htoks
  subst e
  obtain ⟨buf, hb⟩ := directiveKnob_text A { st with lineno := st.lineno + 1 } t1 cmd rest1
    tok cvar vmin vmax more hr (by rw [hmore, e2])
  refine ⟨buf, ?_⟩
  rw [hz, hd]
  have hne : cmd ≠ "connect".toList ∧ cmd ≠ "password".toList ∧ cmd ≠ "device".toList ∧
      cmd ≠ "device_name".toList ∧ cmd ≠ "device_map".toList ∧ cmd ≠ "button".toList := by
    rcases hwhat with e | e <;> (rw [e]; decide)
  rw [if_neg hne.1, if_neg hne.2.1, if_neg hne.2.2.1, if_neg hne.2.2.2.1,
    if_neg hne.2.2.2.2.1, if_neg hne.2.2.2.2.2, if_pos hwhat, hb]

/-! ## Theorems: further bytes in the line buffer -/

theorem skipDelimiters_ext (dl l e : List Char) (n n1 : Nat)
    (h : skipDelimiters dl l n = some n1) : skipDelimiters dl (l ++ e) n = some n1 := by
  induction l generalizing n with
  | nil => simp [skipDelimiters] at h
  | cons c l ih =>
    simp only [List.cons_append, skipDelimiters] at h ⊢
    split
    · rename_i hc; rw [if_pos hc] at h; exact h
    · rename_i hc
      rw [if_neg hc] at h
      split
      · rename_i hd; rw [if_pos hd] at h; exact ih _ h
      · rename_i hd; rw [if_neg hd] at h; exact h

theorem scanToken_ext (dl l e : List Char) (n : Nat) (r : Nat × Bool)
    (h : scanToken dl l n = some r) : scanToken dl (l ++ e) n = some r := by
  induction l generalizing n with
  | nil => simp [scanToken] at h
  | cons c l ih =>
    simp only [List.cons_append, scanToken] at h ⊢
    split
    · rename_i hc; rw [if_pos hc] at h; exact h
    · rename_i hc
      rw [if_neg hc] at h
      split
      · rename_i hd; rw [if_pos hd] at h; exact h
      · rename_i hd; rw [if_neg hd] at h; exact ih _ h

theorem cstr_ext (l e s : List Char) (h : cstr l = some s) : cstr (l ++ e) = some s := by
  induction l generalizing s with
  | nil => simp [cstr] at h
  | cons c l ih =>
    simp only [List.cons_append, cstr] at h ⊢
    split
    · rename_i hc; rw [if_pos hc] at h; exact h
    · rename_i hc
      rw [if_neg hc] at h
      cases hr : cstr l with
      | none => simp [hr] at h
      | some s1 =>
        rw [hr] at h
        show Option.map (fun s => c :: s) (cstr (l ++ e)) = some s
        rw [ih s1 hr]
        exact h

theorem strchrFrom_ext (c : Char) (l e : List Char) (p : Nat) (r : Option Nat)
    (h : strchrFrom c l p = some r) : strchrFrom c (l ++ e) p = some r := by
  induction l generalizing p with
  | nil => simp [strchrFrom] at h
  | cons x l ih =>
    simp only [List.cons_append, strchrFrom] at h ⊢
    split
    · rename_i hc; rw [if_pos hc] at h; exact h
    · rename_i hc
      rw [if_neg hc] at h
      split
      · rename_i hd; rw [if_pos hd] at h; exact h
      · rename_i hd; rw [if_neg hd] at h; exact ih _ h

theorem drop_ext (l e : List Char) (n : Nat) (h : l.drop n ≠ []) :
    (l ++ e).drop n = l.drop n ++ e := by
  have hn : n < l.length := by
    by_contra hc
    exact h (List.drop_eq_nil_of_le (by omega))
  exact List.drop_append_of_le_length (by omega)

theorem cstrAt_ext (b e s : List Char) (p : Nat) (h : cstrAt b p = some s) :
    cstrAt (b ++ e) p = some s := by
  unfold cstrAt at h ⊢
  have hne : b.drop p ≠ [] := by
    intro hnil
    rw [hnil] at h
    simp [cstr] at h
  rw [drop_ext b e p hne]
  exact cstr_ext _ _ _ h

theorem get_ext (b e : List Char) (i : Nat) (c : Char) (h : b.get? i = some c) :
    (b ++ e).get? i = some c := by
  have hi : i < b.length := by
    by_contra hc
    rw [List.get?_eq_none.2 (by omega)] at h
    cases h
  simp only [List.get?_eq_getElem?] at h ⊢
  rw [List.getElem?_append_left hi]
  exact h

theorem strchrFrom_lt (c : Char) (l : List Char) (p t : Nat)
    (h : strchrFrom c l p = some (some t)) : t < p + l.length := by
  induction l generalizing p with
  | nil => simp [strchrFrom] at h
  | cons x l ih =>
    simp only [strchrFrom] at h
    split at h
    · cases h
    · split at h
      · simp only [Option.some.injEq] at h
        subst h
        simp
      · have := ih _ h
        simp only [List.length_cons]
        omega

theorem cutAt_ext (c : Char) (b e b1 : List Char) (h : cutAt c b = some b1) :
    cutAt c (b ++ e) = some (b1 ++ e) := by
  unfold cutAt at h ⊢
  cases hr : strchrFrom c b 0 with
  | none => rw [hr] at h; cases h
  | some r =>
    rw [hr] at h
    rw [strchrFrom_ext c b e 0 r hr]
    cases r with
    | none =>
      simp only [Option.some.injEq] at h ⊢
      rw [h]
    | some t =>
      simp only [Option.some.injEq] at h ⊢
      subst h
      have ht := strchrFrom_lt c b 0 t hr
      rw [List.set_append_left _ _ (by omega)]

/-- A call of `tokenize` that is defined on a buffer does the same on a longer
buffer and leaves the further bytes alone. -/
theorem tokenize_ext_none (st st1 : TokState) (r : Option Nat) (dl e : List Char)
    (h : tokenize st none dl = some (r, st1)) :
    tokenize { buf := st.buf ++ e, next := st.next } none dl
      = some (r, { buf := st1.buf ++ e, next := st1.next }) := by
  unfold tokenize at h ⊢
  simp only at h ⊢
  generalize st.next = next at h ⊢
  split at h
  · cases h
  rename_i n1 h1
  have hne1 : st.buf.drop next ≠ [] := by
    intro hnil
    rw [hnil] at h1
    simp [skipDelimiters] at h1
  rw [drop_ext _ e _ hne1, skipDelimiters_ext _ _ e _ _ h1]
  simp only
  split at h
  · cases h
  rename_i c hc
  rw [get_ext _ e _ _ hc]
  simp only
  split at h
  · rename_i hcn
    cases h
    rw [if_pos hcn]
  rename_i hcn
  rw [if_neg hcn]
  split at h
  · cases h
  · rename_i n3 h3
    cases h
    have hne3 : st.buf.drop (if c = DQUOTE then n1 + 1 else n1) ≠ [] := by
      intro hnil
      rw [hnil] at h3
      simp [scanToken] at h3
    rw [drop_ext _ e _ hne3, scanToken_ext _ _ e _ _ h3]
    simp only
    obtain ⟨hle, hw⟩ := scanToken_le _ _ _ _ _ h3
    obtain ⟨x, hx, _⟩ := hw rfl
    have hlt : n3 < st.buf.length := by
      by_contra hcon
      simp only [List.get?_eq_getElem?, List.getElem?_drop] at hx
      rw [List.getElem?_eq_none (by omega)] at hx
      cases hx
    rw [List.set_append_left _ _ hlt]
  · rename_i n3 h3
    cases h
    have hne3 : st.buf.drop (if c = DQUOTE then n1 + 1 else n1) ≠ [] := by
      intro hnil
      rw [hnil] at h3
      simp [scanToken] at h3
    rw [drop_ext _ e _ hne3, scanToken_ext _ _ e _ _ h3]

theorem tokenize_ext (st st1 : TokState) (str r : Option Nat) (dl e : List Char)
    (h : tokenize st str dl = some (r, st1)) :
    tokenize { buf := st.buf ++ e, next := st.next } str dl
      = some (r, { buf := st1.buf ++ e, next := st1.next }) := by
  cases str with
  | none => exact tokenize_ext_none st st1 r dl e h
  | some p =>
    rw [tokenize_restart] at h ⊢
    exact tokenize_ext_none _ st1 r dl e h

theorem tokenize_ext_eq (st : TokState) (str : Option Nat) (dl e : List Char)
    (h : (tokenize st str dl).isSome = true) :
    tokenize { buf := st.buf ++ e, next := st.next } str dl
      = (tokenize st str dl).map (fun x => (x.1, { buf := x.2.buf ++ e, next := x.2.next })) := by
  cases ht : tokenize st str dl with
  | none => rw [ht] at h; cases h
  | some x =>
    obtain ⟨r, st1⟩ := x
    rw [tokenize_ext st st1 str r dl e ht]
    rfl

theorem cstrAt_ext_eq (b e : List Char) (p : Nat) (h : (cstrAt b p).isSome = true) :
    cstrAt (b ++ e) p = cstrAt b p := by
  cases hc : cstrAt b p with
  | none => rw [hc] at h; cases h
  | some s => exact cstrAt_ext b e s p hc

theorem get_ext_eq (b e : List Char) (i : Nat) (h : (b.get? i).isSome = true) :
    (b ++ e).get? i = b.get? i := by
  cases hc : b.get? i with
  | none => rw [hc] at h; cases h
  | some c => exact get_ext b e i c hc

theorem directiveConnect_ext {F : Type} (st st1 : ParseState F) (t1 : TokState)
    (e lb : List Char) (h : directiveConnect st t1 = some st1) :
    directiveConnect { st with linebuf := lb } { buf := t1.buf ++ e, next := t1.next }
      = some { st1 with linebuf := st1.linebuf ++ e } := by
  unfold directiveConnect at h ⊢
  repeat' first
    | split at h
    | dsimp only at h
  all_goals (cases h)
  all_goals (first
    | rfl
    | (simp only [tokenize_ext_eq, cstrAt_ext_eq, get_ext_eq, *, Option.isSome_some,
        Option.map_some', ↓reduceIte, ne_eq, not_true_eq_false, not_false_eq_true]
       done)
    | (simp only [tokenize_ext_eq, cstrAt_ext_eq, get_ext_eq, *, Option.isSome_some,
        Option.map_some', ↓reduceIte, ne_eq, not_true_eq_false, not_false_eq_true]
       rfl))

theorem directivePassword_ext {F : Type} (st st1 : ParseState F) (t1 : TokState)
    (e lb : List Char) (h : directivePassword st t1 = some st1) :
    directivePassword { st with linebuf := lb } { buf := t1.buf ++ e, next := t1.next }
      = some { st1 with linebuf := st1.linebuf ++ e } := by
  unfold directivePassword at h ⊢
  repeat' first
    | split at h
    | dsimp only at h
  all_goals (cases h)
  all_goals (first
    | rfl
    | (simp only [tokenize_ext_eq, cstrAt_ext_eq, get_ext_eq, *, Option.isSome_some,
        Option.map_some', ↓reduceIte, ne_eq, not_true_eq_false, not_false_eq_true]
       done)
    | (simp only [tokenize_ext_eq, cstrAt_ext_eq, get_ext_eq, *, Option.isSome_some,
        Option.map_some', ↓reduceIte, ne_eq, not_true_eq_false, not_false_eq_true]
       rfl))

theorem directiveDevice_ext {F : Type} (st st1 : ParseState F) (t1 : TokState)
    (e lb : List Char) (h : directiveDevice st t1 = some st1) :
    directiveDevice { st with linebuf := lb } { buf := t1.buf ++ e, next := t1.next }
      = some { st1 with linebuf := st1.linebuf ++ e } := by
  unfold directiveDevice at h ⊢
  repeat' first
    | split at h
    | dsimp only at h
  all_goals (cases h)
  all_goals (first
    | rfl
    | (simp only [tokenize_ext_eq, cstrAt_ext_eq, get_ext_eq, *, Option.isSome_some,
        Option.map_some', ↓reduceIte, ne_eq, not_true_eq_false, not_false_eq_true]
       done)
    | (simp only [tokenize_ext_eq, cstrAt_ext_eq, get_ext_eq, *, Option.isSome_some,
        Option.map_some', ↓reduceIte, ne_eq, not_true_eq_false, not_false_eq_true]
       rfl))

theorem directiveDeviceName_ext {F : Type} (st st1 : ParseState F) (t1 : TokState)
    (e lb : List Char) (h : directiveDeviceName st t1 = some st1) :
    directiveDeviceName { st with linebuf := lb } { buf := t1.buf ++ e, next := t1.next }
      = some { st1 with linebuf := st1.linebuf ++ e } := by
  unfold directiveDeviceName at h ⊢
  repeat' first
    | split at h
    | dsimp only at h
  all_goals (cases h)
  all_goals (first
    | rfl
    | (simp only [tokenize_ext_eq, cstrAt_ext_eq, get_ext_eq, *, Option.isSome_some,
        Option.map_some', ↓reduceIte, ne_eq, not_true_eq_false, not_false_eq_true]
       done)
    | (simp only [tokenize_ext_eq, cstrAt_ext_eq, get_ext_eq, *, Option.isSome_some,
        Option.map_some', ↓reduceIte, ne_eq, not_true_eq_false, not_false_eq_true]
       rfl))

theorem directiveDeviceMap_ext {F : Type} (st st1 : ParseState F) (t1 : TokState)
    (e lb : List Char) (h : directiveDeviceMap st t1 = some st1) :
    directiveDeviceMap { st with linebuf := lb } { buf := t1.buf ++ e, next := t1.next }
      = some { st1 with linebuf := st1.linebuf ++ e } := by
  unfold directiveDeviceMap at h ⊢
  repeat' first
    | split at h
    | dsimp only at h
  all_goals (cases h)
  all_goals (first
    | rfl
    | (simp only [tokenize_ext_eq, cstrAt_ext_eq, get_ext_eq, *, Option.isSome_some,
        Option.map_some', ↓reduceIte, ne_eq, not_true_eq_false, not_false_eq_true]
       done)
    | (simp only [tokenize_ext_eq, cstrAt_ext_eq, get_ext_eq, *, Option.isSome_some,
        Option.map_some', ↓reduceIte, ne_eq, not_true_eq_false, not_false_eq_true]
       rfl))

theorem directiveButton_ext {F : Type} (st st1 : ParseState F) (t1 : TokState)
    (e lb : List Char) (h : directiveButton st t1 = some st1) :
    directiveButton { st with linebuf := lb } { buf := t1.buf ++ e, next := t1.next }
      = some { st1 with linebuf := st1.linebuf ++ e } := by
  unfold directiveButton at h ⊢
  repeat' first
    | split at h
    | dsimp only at h
  all_goals (cases h)
  all_goals (first
    | rfl
    | (simp only [tokenize_ext_eq, cstrAt_ext_eq, get_ext_eq, *, Option.isSome_some,
        Option.map_some', ↓reduceIte, ne_eq, not_true_eq_false, not_false_eq_true]
       done)
    | (simp only [tokenize_ext_eq, cstrAt_ext_eq, get_ext_eq, *, Option.isSome_some,
        Option.map_some', ↓reduceIte, ne_eq, not_true_eq_false, not_false_eq_true]
       rfl))

theorem directiveKnob_ext (A : FloatArith) (st st1 : ParseState A.F) (t1 : TokState) (what : List Char)
    (e lb : List Char) (h : directiveKnob A st t1 what = some st1) :
    directiveKnob A { st with linebuf := lb } { buf := t1.buf ++ e, next := t1.next } what
      = some { st1 with linebuf := st1.linebuf ++ e } := by
  unfold directiveKnob at h ⊢
  repeat' first
    | split at h
    | dsimp only at h
  all_goals (cases h)
  all_goals (first
    | rfl
    | (simp only [tokenize_ext_eq, cstrAt_ext_eq, get_ext_eq, *, Option.isSome_some,
        Option.map_some', ↓reduceIte, ne_eq, not_true_eq_false, not_false_eq_true]
       done)
    | (simp only [tokenize_ext_eq, cstrAt_ext_eq, get_ext_eq, *, Option.isSome_some,
        Option.map_some', ↓reduceIte, ne_eq, not_true_eq_false, not_false_eq_true]
       rfl))

theorem dispatchLine_ext (A : FloatArith) (st st1 : ParseState A.F) (buf e lb : List Char)
    (h : dispatchLine A st buf = some st1) :
    dispatchLine A { st with linebuf := lb } (buf ++ e)
      = some { st1 with linebuf := st1.linebuf ++ e } := by
  unfold dispatchLine at h ⊢
  split at h
  · cases h
  · rename_i t1 ht1
    cases h
    rw [tokenize_ext { buf := buf, next := 0 } _ _ _ _ e ht1]
  rename_i cmd t1 ht1
  rw [tokenize_ext { buf := buf, next := 0 } _ _ _ _ e ht1]
  simp only
  split at h
  · cases h
  rename_i command hcmd
  rw [cstrAt_ext _ e _ _ hcmd]
  simp only
  split at h
  · rename_i hd; rw [if_pos hd]; exact directiveConnect_ext st st1 t1 e lb h
  rename_i hd1; rw [if_neg hd1]
  split at h
  · rename_i hd; rw [if_pos hd]; exact directivePassword_ext st st1 t1 e lb h
  rename_i hd2; rw [if_neg hd2]
  split at h
  · rename_i hd; rw [if_pos hd]; exact directiveDevice_ext st st1 t1 e lb h
  rename_i hd3; rw [if_neg hd3]
  split at h
  · rename_i hd; rw [if_pos hd]; exact directiveDeviceName_ext st st1 t1 e lb h
  rename_i hd4; rw [if_neg hd4]
  split at h
  · rename_i hd; rw [if_pos hd]; exact directiveDeviceMap_ext st st1 t1 e lb h
  rename_i hd5; rw [if_neg hd5]
  split at h
  · rename_i hd; rw [if_pos hd]; exact directiveButton_ext st st1 t1 e lb h
  rename_i hd6; rw [if_neg hd6]
  split at h
  · rename_i hd; rw [if_pos hd]; exact directiveKnob_ext A st st1 t1 command e lb h
  rename_i hd7; rw [if_neg hd7]
  cases h
  rfl

/-- One iteration of the loop that is defined on the bytes `linebuf` holds is
defined in the same way when `linebuf` holds further bytes after them. -/
theorem processLine_ext (A : FloatArith) (st st1 : ParseState A.F) (chunk e : List Char)
    (h : processLine A st chunk = some st1) :
    ∃ e1, processLine A { st with linebuf := st.linebuf ++ e } chunk
      = some { st1 with linebuf := st1.linebuf ++ e1 } := by
  refine ⟨e.drop (chunk.length + 1 - st.linebuf.length), ?_⟩
  unfold processLine at h ⊢
  simp only at h ⊢
  have hb : chunk ++ NUL :: List.drop (chunk.length + 1) (st.linebuf ++ e)
      = (chunk ++ NUL :: List.drop (chunk.length + 1) st.linebuf)
        ++ e.drop (chunk.length + 1 - st.linebuf.length) := by
    rw [List.drop_append_eq_append_drop]
    simp
  rw [hb]
  split at h
  · cases h
  rename_i buf1 h1
  rw [cutAt_ext _ _ _ _ h1]
  simp only
  split at h
  · cases h
  rename_i buf2 h2
  rw [cutAt_ext _ _ _ _ h2]
  simp only
  exact dispatchLine_ext A { st with lineno := st.lineno + 1 } st1 buf2 _ (st.linebuf ++ e) h

theorem processLines_ext (A : FloatArith) (chunks : List (List Char)) :
    ∀ (st st1 : ParseState A.F) (e : List Char), processLines A st chunks = some st1 →
      ∃ e1, processLines A { st with linebuf := st.linebuf ++ e } chunks
        = some { st1 with linebuf := st1.linebuf ++ e1 } := by
  induction chunks with
  | nil =>
    intro st st1 e h
    simp only [processLines] at h ⊢
    cases h
    exact ⟨e, rfl⟩
  | cons chunk rest ih =>
    intro st st1 e h
    simp only [processLines] at h ⊢
    split at h
    · cases h
    rename_i st2 h2
    obtain ⟨e2, hp⟩ := processLine_ext A st st2 chunk e h2
    rw [hp]
    exact ih st2 st1 e2 h

/-- A call of `ReadConfigFile` that completes without reading a byte of `linebuf`
beyond those in `stack` completes with the same result whatever further bytes
`linebuf` holds. -/
theorem ReadConfigFile_ext (A : FloatArith) (g_config : KorgiConfig A.F)
    (controlSurfaceMap : Option ControlSurfaceMap) (stack e : List Char)
    (file : Option (List Char)) (r : ReadResult A.F)
    (h : ReadConfigFile A g_config controlSurfaceMap stack file = some r) :
    ReadConfigFile A g_config controlSurfaceMap (stack ++ e) file = some r := by
  unfold ReadConfigFile at h ⊢
  cases file with
  | none => exact h
  | some text =>
    simp only at h ⊢
    split at h
    · cases h
    rename_i st hst
    cases h
    obtain ⟨e1, hp⟩ := processLines_ext A _ _ st e hst
    have hp2 : processLines A
        { new_config := g_config, controlSurfaceMap := controlSurfaceMap,
          linebuf := stack ++ e, success := true, lineno := 0, stderr := [] }
        (fgetsChunks (LINEBUF_SIZE - 1) text []) = some { st with linebuf := st.linebuf ++ e1 } :=
      hp
    rw [hp2]
    rfl

/-! ## Theorems: the claims on whole files -/

/-- Counterexample to C12 as stated: from the initial state, the file with the
lines `device_map nanoKONTROL2` and `foo` fails as a whole (unknown directive, no
password), and the active profile, none before the call, is `nanoKONTROL2` after
it. -/
theorem C12_failed_parse_changes_profile :
    (ReadConfigFile exactArith (g_config_init ℚ) none []
        (some "device_map nanoKONTROL2\nfoo\n".toList)).map
      (fun r => (r.ret, r.controlSurfaceMap, r.stderr))
    = some (false, some controlMap_Korg_nanoKONTROL2,
        [⟨some 2, Diag.unknownDirective "foo".toList⟩, ⟨none, Diag.passwordNotSpecified⟩]) :=
  rfl

/-- C12, amended. A `device_map` directive takes effect when its line is
processed, whatever the outcome of the parse: after a completed call of
`ReadConfigFile`, successful or not, the active profile is the catalog profile
named by the last `device_map` line of the file, when that line names one; it is
the profile active before the call when the file has no `device_map` line; and
in every case it is the profile active before the call or one of the catalog. -/
theorem C12_profile_after_parse (A : FloatArith) (g_config : KorgiConfig A.F)
    (controlSurfaceMap : Option ControlSurfaceMap) (stack text : List Char)
    (r : ReadResult A.F)
    (hrun : ReadConfigFile A g_config controlSurfaceMap stack (some text) = some r) :
    (∀ pre l post name more m, fileLines text = pre ++ l :: post →
      lineTokens l = "device_map".toList :: name :: more →
      controlSurfaces.lookup name = some m →
      (∀ l2 ∈ post, hasDirective "device_map".toList (lineTokens l2) = false) →
      r.controlSurfaceMap = some m) ∧
    ((∀ l ∈ fileLines text, hasDirective "device_map".toList (lineTokens l) = false) →
      r.controlSurfaceMap = controlSurfaceMap) ∧
    (r.controlSurfaceMap = controlSurfaceMap ∨ IsCatalogProfile r.controlSurfaceMap) := by
  obtain ⟨st, hst, hr⟩ := ReadConfigFile_run A g_config controlSurfaceMap stack text r hrun
  subst hr
  have hc : (finishRead g_config st).controlSurfaceMap = st.controlSurfaceMap := rfl
  rw [hc]
  obtain ⟨hok, hf⟩ := processLines_frame A controlSurfaceMap (fileLines text) _ st
    (Or.inl rfl) hst
  refine ⟨?_, ?_, hok⟩
  · intro pre l post name more m hsplit hl hm hpost
    rw [hsplit] at hst
    obtain ⟨sa, sb, _, hsb, hst2⟩ := processLines_split A pre post l _ st hst
    have hset := processLine_device_map A sa sb l name more hl hsb
    obtain ⟨_, hfp⟩ := processLines_frame A sb.controlSurfaceMap post sb st (Or.inl rfl) hst2
    have hkeep := hfp.2.2.2.2.2.2.2 (by simpa [List.forall_mem_map] using hpost)
    rw [hkeep, hset]
    simp [setControlSurfaceType, hm]
  · intro hno
    have hkeep := hf.2.2.2.2.2.2.2 (by simpa [List.forall_mem_map] using hno)
    exact hkeep

set_option maxRecDepth 100000 in
/-- Witness for C12, amended: the file of the counterexample. -/
theorem C12_profile_after_parse_witness :
    ∃ r, ReadConfigFile exactArith (g_config_init ℚ) none []
        (some "device_map nanoKONTROL2\nfoo\n".toList) = some r ∧ r.ret = false ∧
      r.controlSurfaceMap = some controlMap_Korg_nanoKONTROL2 :=
  have hrun : ∃ r, ReadConfigFile exactArith (g_config_init ℚ) none []
      (some "device_map nanoKONTROL2\nfoo\n".toList) = some r ∧ r.ret = false :=
    ⟨_, rfl, rfl⟩
  hrun.elim fun r hr =>
    ⟨r, hr.1, hr.2,
      (C12_profile_after_parse exactArith _ none [] _ r hr.1).1 []
        "device_map nanoKONTROL2\n".toList ["foo\n".toList] "nanoKONTROL2".toList []
        controlMap_Korg_nanoKONTROL2 (by decide) (by decide) (by decide) (by decide)⟩

/-- A `device_map` line without a parameter leaves the active profile as it
was. -/
theorem directiveDeviceMap_bare {F : Type} (st st1 : ParseState F) (t1 : TokState)
    (rest1 : List Char) (h : directiveDeviceMap st t1 = some st1) (hr : AtRest t1 rest1)
    (hs : specTokensFrom LexMode.between rest1 = []) :
    st1.controlSurfaceMap = st.controlSurfaceMap := by
  unfold directiveDeviceMap at h
  rcases tokenize_step t1 rest1 hr with ⟨_, t2, ht2, _⟩ |
    ⟨tok, more1, p, t2, rest2, hs1, _⟩
  · simp only [ht2] at h
    cases h
    rfl
  · rw [hs1] at hs
    cases hs

theorem processLine_device_map_bare (A : FloatArith) (st st1 : ParseState A.F)
    (chunk : List Char) (hs : lineTokens chunk = ["device_map".toList])
    (h : processLine A st chunk = some st1) :
    st1.controlSurfaceMap = st.controlSurfaceMap := by
  obtain ⟨z, hz⟩ := processLine_cut A st chunk
  rw [hz] at h
  have hX : NUL ∉ lineText chunk := fun hm => (lineText_plain chunk _ hm).1 rfl
  rcases dispatchLine_first A { st with lineno := st.lineno + 1 } (lineText chunk) z hX with
    ⟨he, _⟩ | ⟨cmd, more1, t1, rest1, hs1, hr, hmore, hd⟩
  · rw [lineTokens, he] at hs
    cases hs
  · rw [lineTokens, hs1] at hs
    simp only [List.cons.injEq] at hs
    obtain ⟨e, e2⟩ := hs
    subst e
    rw [hd] at h
    rw [if_neg (by decide), if_neg (by decide), if_neg (by decide), if_neg (by decide),
      if_pos rfl] at h
    exact directiveDeviceMap_bare { st with lineno := st.lineno + 1 } st1 t1 rest1 h hr
      (by rw [hmore, e2])

/-- The active profile after a line of the file is the one `profileStep` gives
for the tokens of the line. -/
theorem processLine_profile (A : FloatArith) (st st1 : ParseState A.F) (chunk : List Char)
    (h : processLine A st chunk = some st1) :
    st1.controlSurfaceMap = profileStep st.controlSurfaceMap (lineTokens chunk) := by
  have hframe : hasDirective "device_map".toList (lineTokens chunk) = false →
      st1.controlSurfaceMap = st.controlSurfaceMap := by
    intro hno
    obtain ⟨_, hf⟩ := processLine_frame A st.controlSurfaceMap st st1 chunk (Or.inl rfl) h
    exact hf.2.2.2.2.2.2.2 (by simpa using hno)
  by_cases hd : hasDirective "device_map".toList (lineTokens chunk) = false
  · rw [hframe hd]
    unfold profileStep
    split
    · rename_i d name more e
      rw [e] at hd
      have hne : d ≠ "device_map".toList := by simpa [hasDirective] using hd
      rw [if_neg hne]
    · rfl
  · have hd2 : (lineTokens chunk).head? = some "device_map".toList := by
      simpa [hasDirective] using hd
    cases e : lineTokens chunk with
    | nil => rw [e] at hd2; cases hd2
    | cons d rest =>
      rw [e] at hd2
      simp only [List.head?_cons, Option.some.injEq] at hd2
      subst hd2
      cases rest with
      | nil =>
        rw [processLine_device_map_bare A st st1 chunk e h]
        rfl
      | cons name more =>
        rw [processLine_device_map A st st1 chunk name more e h]
        simp [profileStep]

/-- The active profile after the lines of a file is the one `profileAfter` gives
for their tokens. -/
theorem processLines_profile (A : FloatArith) (chunks : List (List Char)) :
    ∀ (st st1 : ParseState A.F), processLines A st chunks = some st1 →
      st1.controlSurfaceMap = profileAfter st.controlSurfaceMap (chunks.map lineTokens) := by
  induction chunks with
  | nil =>
    intro st st1 h
    simp only [processLines] at h
    cases h
    rfl
  | cons chunk rest ih =>
    intro st st1 h
    simp only [processLines] at h
    split at h
    · cases h
    rename_i st2 h2
    rw [ih st2 st1 h, processLine_profile A st st2 chunk h2]
    rfl

/-- The flag `success` is never set again: when it is set after some lines, it
was set before them. -/
theorem processLines_success_of (A : FloatArith) (chunks : List (List Char)) :
    ∀ (st st1 : ParseState A.F), processLines A st chunks = some st1 →
      st1.success = true → st.success = true := by
  induction chunks with
  | nil =>
    intro st st1 h hs
    simp only [processLines] at h
    cases h
    exact hs
  | cons chunk rest ih =>
    intro st st1 h hs
    simp only [processLines] at h
    split at h
    · cases h
    rename_i st2 h2
    have h3 := ih st2 st1 h hs
    obtain ⟨_, he⟩ := processLine_effect A st st2 chunk h2
    rcases he with ⟨e, _⟩ | ⟨e, _⟩
    · rw [← e]; exact h3
    · rw [e] at h3; cases h3

theorem finishRead_success {F : Type} (g : KorgiConfig F) (st : ParseState F)
    (h : (finishRead g st).ret = true) : st.success = true := by
  have h2 : (st.success && !decide (st.new_config.password.length = 0)) = true := h
  simp only [Bool.and_eq_true] at h2
  exact h2.1

set_option maxRecDepth 100000 in
/-- Counterexample to C13 as stated: from the initial state, the file with the
lines `password x`, `button 5 x` and `knob 5 c 0 1` is parsed successfully, and
channel 5 is a key of both `buttons` and `knobs` in the committed configuration;
the mapping of the earlier directive is still present. -/
theorem C13_channel_in_both_maps :
    (ReadConfigFile exactArith (g_config_init ℚ) none []
        (some "password x\nbutton 5 x\nknob 5 c 0 1\n".toList)).map
      (fun r => (r.ret, r.g_config.buttons 5, (r.g_config.knobs 5).map (fun m => m.name)))
    = some (true, some "x".toList, some "c".toList) :=
  rfl

/-- C13, amended. Last directive wins within each map: after a successful parse,
the entry of `buttons` for a channel is the command of the last `button` line of
the file for that channel, whatever `knob` and `slider` lines the file has for
it, and the entry of `knobs` is the mapping of the last `knob` or `slider` line
for that channel, whatever `button` lines the file has for it; so a channel with
directives of both sorts is a key of both maps.  The line `l` is any line of the
file with the channel token `tok`, a number or an alias: in a successful parse
the token stands for a channel `k` under the profile active at that line (the
one the `device_map` lines before it leave), and when no later line assigns `k`
in the same map, the entry of `k` is what `l` gives.  The command of a `button`
line is the text after the channel token and the one character that ends it. -/
theorem C13_last_directive_wins (A : FloatArith) (g_config : KorgiConfig A.F)
    (controlSurfaceMap : Option ControlSurfaceMap) (stack text : List Char)
    (r : ReadResult A.F) (pre post : List (List Char)) (l tok : List Char)
    (hrun : ReadConfigFile A g_config controlSurfaceMap stack (some text) = some r)
    (hret : r.ret = true) (hsplit : fileLines text = pre ++ l :: post) :
    (∀ more cmd, lineTokens l = "button".toList :: tok :: more →
      buttonCommand (lineText l) = some cmd →
      ∃ k, tokenChannel (profileAfter controlSurfaceMap (pre.map lineTokens)) tok = some k ∧
        ((∀ l2 ∈ post, assignsButton controlSurfaceMap k (lineTokens l2) = false) →
          r.g_config.buttons k = some cmd)) ∧
    (∀ what cvar vmin vmax more, (what = "knob".toList ∨ what = "slider".toList) →
      lineTokens l = what :: tok :: cvar :: vmin :: vmax :: more →
      ∃ k, tokenChannel (profileAfter controlSurfaceMap (pre.map lineTokens)) tok = some k ∧
        ((∀ l2 ∈ post, assignsKnob controlSurfaceMap k (lineTokens l2) = false) →
          r.g_config.knobs k
            = some { name := cvar, min_value := A.atof vmin, max_value := A.atof vmax })) := by
  obtain ⟨st, hst, hr⟩ := ReadConfigFile_run A g_config controlSurfaceMap stack text r hrun
  subst hr
  rw [finishRead_of_ret g_config st hret]
  have hsucc := finishRead_success g_config st hret
  rw [hsplit] at hst
  obtain ⟨sa, sb, hsa, hsb, hst2⟩ := processLines_split A pre post l _ st hst
  obtain ⟨hoka, _⟩ := processLines_frame A controlSurfaceMap pre _ sa (Or.inl rfl) hsa
  obtain ⟨hokb, _⟩ := processLine_frame A controlSurfaceMap sa sb l hoka hsb
  obtain ⟨_, hfp⟩ := processLines_frame A controlSurfaceMap post sb st hokb hst2
  have hprof := processLines_profile A pre _ sa hsa
  have hsb1 := processLines_success_of A post sb st hst2 hsucc
  rw [← hprof]
  constructor
  · intro more cmd htoks hcmd
    obtain ⟨buf, hb⟩ := processLine_button_text A sa l tok cmd more htoks hcmd
    rw [hb] at hsb
    split at hsb
    · cases hsb
      cases hsb1
    split at hsb
    · rename_i hnum
      split at hsb
      · cases hsb
      · cases hsb
        cases hsb1
      · rename_i surf hm
        split at hsb
        · cases hsb
          cases hsb1
        · cases hsb
          refine ⟨surf.channel, ?_, ?_⟩
          · cases hc : sa.controlSurfaceMap with
            | none => rw [hc] at hm; simp [mapControl] at hm
            | some m =>
              rw [hc] at hm
              simp only [mapControl, Option.some.injEq] at hm
              simp [tokenChannel, hnum, hm]
          · intro hpost
            rw [hfp.2.2.2.2.2.1 _ (by simpa [List.forall_mem_map] using hpost)]
            exact assign_self _ _ _
    · rename_i hnum
      cases hsb
      refine ⟨toInt32 (strtol tok).1, ?_, ?_⟩
      · simp [tokenChannel, hnum]
      · intro hpost
        rw [hfp.2.2.2.2.2.1 _ (by simpa [List.forall_mem_map] using hpost)]
        exact assign_self _ _ _
  · intro what cvar vmin vmax more hwhat htoks
    obtain ⟨buf, hb⟩ := processLine_knob_text A sa l what tok cvar vmin vmax more hwhat htoks
    rw [hb] at hsb
    split at hsb
    · rename_i hnum
      split at hsb
      · cases hsb
      · cases hsb
        cases hsb1
      · rename_i surf hm
        split at hsb
        · cases hsb
          cases hsb1
        · cases hsb
          refine ⟨surf.channel, ?_, ?_⟩
          · cases hc : sa.controlSurfaceMap with
            | none => rw [hc] at hm; simp [mapControl] at hm
            | some m =>
              rw [hc] at hm
              simp only [mapControl, Option.some.injEq] at hm
              simp [tokenChannel, hnum, hm]
          · intro hpost
            rw [hfp.2.2.2.2.2.2.1 _ (by simpa [List.forall_mem_map] using hpost)]
            exact assign_self _ _ _
    · rename_i hnum
      cases hsb
      refine ⟨toInt32 (strtol tok).1, ?_, ?_⟩
      · simp [tokenChannel, hnum]
      · intro hpost
        rw [hfp.2.2.2.2.2.2.1 _ (by simpa [List.forall_mem_map] using hpost)]
        exact assign_self _ _ _

set_option maxRecDepth 100000 in
/-- Witness for C13, amended: in the file `aliasButtonFile` the line
`button 41 a` is followed by the line `button play b`, whose alias stands for
channel 41 under the profile of the `device_map` line, and by a `knob` line for
channel 41; the command of the alias line is the entry of `buttons`, and the
mapping of the `knob` line is the entry of `knobs`. -/
theorem C13_last_directive_wins_witness :
    ∃ r, ReadConfigFile exactArith (g_config_init ℚ) none [] (some aliasButtonFile)
          = some r ∧ r.ret = true ∧
      r.g_config.buttons 41 = some "b".toList ∧
      (r.g_config.knobs 41).map (fun m => m.name) = some "c".toList := by
  have hrun : ∃ r, ReadConfigFile exactArith (g_config_init ℚ) none [] (some aliasButtonFile)
        = some r ∧ r.ret = true :=
    ⟨_, rfl, rfl⟩
  obtain ⟨r, hr1, hr2⟩ := hrun
  refine ⟨r, hr1, hr2, ?_, ?_⟩
  · obtain ⟨k, hk, h⟩ := (C13_last_directive_wins exactArith _ none [] _ r
      ["password x\n".toList, "device_map nanoKONTROL2\n".toList, "button 41 a\n".toList]
      ["knob 41 c 0 1\n".toList] "button play b\n".toList "play".toList hr1 hr2
      (by decide)).1 ["b".toList] "b".toList (by decide) (by decide)
    have e : tokenChannel (profileAfter none
        (["password x\n".toList, "device_map nanoKONTROL2\n".toList,
          "button 41 a\n".toList].map lineTokens)) "play".toList = some 41 := by decide
    rw [e] at hk
    cases hk
    exact h (by decide)
  · obtain ⟨k, hk, h⟩ := (C13_last_directive_wins exactArith _ none [] _ r
      ["password x\n".toList, "device_map nanoKONTROL2\n".toList, "button 41 a\n".toList,
        "button play b\n".toList]
      [] "knob 41 c 0 1\n".toList "41".toList hr1 hr2
      (by decide)).2 "knob".toList "c".toList "0".toList "1".toList [] (Or.inl rfl) (by decide)
    have e : tokenChannel (profileAfter none
        (["password x\n".toList, "device_map nanoKONTROL2\n".toList, "button 41 a\n".toList,
          "button play b\n".toList].map lineTokens)) "41".toList = some 41 := by decide
    rw [e] at hk
    cases hk
    rw [h (by decide)]
    rfl

set_option maxRecDepth 100000 in
/-- Counterexample to C14 as stated: from the initial state, the file with the
lines `password x`, `button 500 y` and `knob -1 c 0 1` is parsed successfully,
and the committed configuration has the key 500 in `buttons` and the key -1 in
`knobs`. -/
theorem C14_key_out_of_range :
    (ReadConfigFile exactArith (g_config_init ℚ) none []
        (some "password x\nbutton 500 y\nknob -1 c 0 1\n".toList)).map
      (fun r => (r.ret, r.g_config.buttons 500, (r.g_config.knobs (-1)).map (fun m => m.name)))
    = some (true, some "y".toList, some "c".toList) :=
  rfl

/-- C14, amended. Channel keys: after a completed call of `ReadConfigFile`, every
key whose entry in `buttons` differs from the one committed before comes from a
`button` line of the file, and either the channel token of that line is one that
`strtol` converts completely and the key is its value converted to `int`,
whatever it is, or the token is an alias and the key is a MIDI channel number in
0..127; likewise for `knobs` and the `knob` and `slider` lines.  The active
profile before the call is none or one of the catalog. -/
theorem C14_channel_keys (A : FloatArith) (g_config : KorgiConfig A.F)
    (controlSurfaceMap : Option ControlSurfaceMap) (stack text : List Char)
    (r : ReadResult A.F)
    (hcsm : controlSurfaceMap = none ∨ IsCatalogProfile controlSurfaceMap)
    (hrun : ReadConfigFile A g_config controlSurfaceMap stack (some text) = some r) :
    (∀ k, r.g_config.buttons k ≠ g_config.buttons k →
      ∃ l ∈ fileLines text, ∃ tok more, lineTokens l = "button".toList :: tok :: more ∧
        (((strtol tok).2 = tok.length ∧ k = toInt32 (strtol tok).1) ∨
          ((strtol tok).2 ≠ tok.length ∧ 0 ≤ k ∧ k ≤ 127))) ∧
    (∀ k, r.g_config.knobs k ≠ g_config.knobs k →
      ∃ l ∈ fileLines text, ∃ what tok more, lineTokens l = what :: tok :: more ∧
        (what = "knob".toList ∨ what = "slider".toList) ∧
        (((strtol tok).2 = tok.length ∧ k = toInt32 (strtol tok).1) ∨
          ((strtol tok).2 ≠ tok.length ∧ 0 ≤ k ∧ k ≤ 127))) := by
  obtain ⟨st, hst, hr⟩ := ReadConfigFile_run A g_config controlSurfaceMap stack text r hrun
  subst hr
  obtain ⟨_, hf⟩ := processLines_frame A controlSurfaceMap (fileLines text) _ st
    (Or.inl rfl) hst
  have hb := hf.2.2.2.2.2.1
  have hk := hf.2.2.2.2.2.2.1
  simp only [List.forall_mem_map] at hb hk
  constructor
  · intro k hne
    rcases finishRead_g_config g_config st with e | e
    · rw [e] at hne
      by_contra hcon
      apply hne
      apply hb k
      intro l hl
      by_contra hass
      apply hcon
      have hat : assignsButton controlSurfaceMap k (lineTokens l) = true := by
        simpa using hass
      unfold assignsButton at hat
      split at hat
      · rename_i cmd tok more htoks
        simp only [Bool.and_eq_true, decide_eq_true_eq] at hat
        exact ⟨l, hl, tok, more, by rw [htoks, hat.1],
          namesChannel_cases _ _ _ hcsm hat.2⟩
      · cases hat
    · rw [e] at hne
      exact absurd rfl hne
  · intro k hne
    rcases finishRead_g_config g_config st with e | e
    · rw [e] at hne
      by_contra hcon
      apply hne
      apply hk k
      intro l hl
      by_contra hass
      apply hcon
      have hat : assignsKnob controlSurfaceMap k (lineTokens l) = true := by
        simpa using hass
      unfold assignsKnob at hat
      split at hat
      · rename_i cmd tok more htoks
        simp only [Bool.and_eq_true, Bool.or_eq_true, decide_eq_true_eq] at hat
        exact ⟨l, hl, cmd, tok, more, htoks, hat.1, namesChannel_cases _ _ _ hcsm hat.2⟩
      · cases hat
    · rw [e] at hne
      exact absurd rfl hne

set_option maxRecDepth 100000 in
/-- Witness for C14, amended: the file of the counterexample. -/
theorem C14_channel_keys_witness :
    ∃ r, ReadConfigFile exactArith (g_config_init ℚ) none []
        (some "password x\nbutton 500 y\nknob -1 c 0 1\n".toList) = some r ∧
      ∃ l ∈ fileLines "password x\nbutton 500 y\nknob -1 c 0 1\n".toList,
        ∃ tok more, lineTokens l = "button".toList :: tok :: more ∧
          (((strtol tok).2 = tok.length ∧ (500 : Int) = toInt32 (strtol tok).1) ∨
            ((strtol tok).2 ≠ tok.length ∧ (0 : Int) ≤ 500 ∧ (500 : Int) ≤ 127)) :=
  have hrun : ∃ r, ReadConfigFile exactArith (g_config_init ℚ) none []
      (some "password x\nbutton 500 y\nknob -1 c 0 1\n".toList) = some r ∧
      r.g_config.buttons 500 ≠ (g_config_init ℚ).buttons 500 :=
    ⟨_, rfl, by decide⟩
  hrun.elim fun r hr =>
    ⟨r, hr.1, (C14_channel_keys exactArith _ none [] _ r (Or.inl rfl) hr.1).1 500 hr.2⟩

/-- C15. Parser idempotence: when a call of `ReadConfigFile` on a file completes
and returns true, a second call on the same file, started from the committed
configuration and the active profile the first call left, completes too, returns
true and leaves the same committed configuration and the same active profile.
The lists `stack` and `stack2` are the bytes the two calls find in the
uninitialised array `linebuf`: either the first call reads no byte of it before
writing it (`stack = []`, the reading of C), and then the bytes the second call
finds do not matter, or both calls find the same bytes.  The active profile
before the first call is none or one of the catalog, as it is in every state of
the program. -/
theorem C15_parser_idempotence (A : FloatArith) (g_config : KorgiConfig A.F)
    (controlSurfaceMap : Option ControlSurfaceMap) (stack stack2 text : List Char)
    (r : ReadResult A.F)
    (hcsm : controlSurfaceMap = none ∨ IsCatalogProfile controlSurfaceMap)
    (hstack : stack = [] ∨ stack2 = stack)
    (hrun : ReadConfigFile A g_config controlSurfaceMap stack (some text) = some r)
    (hret : r.ret = true) :
    ∃ r2, ReadConfigFile A r.g_config r.controlSurfaceMap stack2 (some text) = some r2 ∧
      r2.ret = true ∧ r2.g_config = r.g_config ∧
      r2.controlSurfaceMap = r.controlSurfaceMap := by
  have hrun2 : ReadConfigFile A g_config controlSurfaceMap stack2 (some text) = some r := by
    rcases hstack with e | e
    · have h := ReadConfigFile_ext A g_config controlSurfaceMap stack stack2 (some text) r hrun
      rw [e, List.nil_append] at h
      exact h
    · rw [e]; exact hrun
  clear hrun hstack
  obtain ⟨st, hst, hr⟩ := ReadConfigFile_run A g_config controlSurfaceMap stack2 text r hrun2
  subst hr
  have hret2 : (st.success && !decide (st.new_config.password.length = 0)) = true := hret
  have hg : (finishRead g_config st).g_config = st.new_config := by
    show (if (st.success && !decide (st.new_config.password.length = 0)) = true
      then st.new_config else g_config) = st.new_config
    rw [if_pos hret2]
  have hc : (finishRead g_config st).controlSurfaceMap = st.controlSurfaceMap := rfl
  rw [hg, hc]
  obtain ⟨hok, _⟩ := processLines_frame A controlSurfaceMap (fileLines text) _ st
    (Or.inl rfl) hst
  have hrel : CsmRel st.controlSurfaceMap controlSurfaceMap st.controlSurfaceMap := by
    rcases hcsm with e | e
    · exact Or.inr ⟨e, rfl⟩
    · left
      rcases hok with e2 | e2
      · exact e2.symm
      · rw [isCatalogProfile_eq _ e, isCatalogProfile_eq _ e2]
  obtain ⟨st2, hst2, ⟨hrel2, hsu, _, _⟩, hsim⟩ := processLines_sim A st.controlSurfaceMap
    (fileLines text)
    { new_config := g_config, controlSurfaceMap := controlSurfaceMap, linebuf := stack2,
      success := true, lineno := 0, stderr := [] }
    { new_config := st.new_config, controlSurfaceMap := st.controlSurfaceMap, linebuf := stack2,
      success := true, lineno := 0, stderr := [] }
    st ⟨hrel, rfl, rfl, rfl⟩ rfl hst
  have hcfg : st2.new_config = st.new_config := configSim_fixed _ _ _ hsim
  have hcsm2 : st2.controlSurfaceMap = st.controlSurfaceMap := by
    rcases hrel2 with e | ⟨_, e⟩
    · exact e.symm
    · exact e
  refine ⟨finishRead st.new_config st2, ?_, ?_, ?_, hcsm2⟩
  · simp only [ReadConfigFile]
    have hst2b : processLines A
        { new_config := st.new_config, controlSurfaceMap := st.controlSurfaceMap,
          linebuf := stack2, success := true, lineno := 0, stderr := [] }
        (fgetsChunks (LINEBUF_SIZE - 1) text []) = some st2 := hst2
    rw [hst2b]
  · show (st2.success && !decide (st2.new_config.password.length = 0)) = true
    rw [← hsu, hcfg]
    exact hret2
  · show (if (st2.success && !decide (st2.new_config.password.length = 0)) = true
      then st2.new_config else st.new_config) = st.new_config
    rw [← hsu, hcfg]
    simp

set_option maxRecDepth 100000 in
/-- Witness for C15: the file of the end-to-end example, read from the initial
state without reading a byte of `linebuf` before writing it, and read again with
other bytes in `linebuf`. -/
theorem C15_parser_idempotence_witness :
    ∃ r r2, ReadConfigFile exactArith (g_config_init ℚ) none []
        (some "password x\nconnect 10.0.0.1 1234\ndevice_map nanoKONTROL2\nbutton play say hello\n".toList) = some r ∧
      r.ret = true ∧
      ReadConfigFile exactArith r.g_config r.controlSurfaceMap "stale bytes".toList
        (some "password x\nconnect 10.0.0.1 1234\ndevice_map nanoKONTROL2\nbutton play say hello\n".toList) = some r2 ∧
      r2.g_config = r.g_config :=
  have hrun : ∃ r, ReadConfigFile exactArith (g_config_init ℚ) none []
      (some "password x\nconnect 10.0.0.1 1234\ndevice_map nanoKONTROL2\nbutton play say hello\n".toList) = some r ∧
      r.ret = true := ⟨_, rfl, rfl⟩
  hrun.elim fun r hr =>
    (C15_parser_idempotence exactArith _ none [] "stale bytes".toList _ r (Or.inl rfl)
      (Or.inl rfl) hr.1 hr.2).elim fun r2 h2 => ⟨r, r2, hr.1, hr.2, h2.1, h2.2.2.1⟩

/-- Counterexample to C18 as stated: with the profile `nanoKONTROL2` active, the
line `button stop` followed by three spaces has a channel token and no command
text after it, and it is accepted: no message is written and two spaces are
stored as the command of channel 42. -/
theorem C18_blank_command_accepted :
    (processLine exactArith exampleState "button stop   \n".toList).map
        (fun s => (s.success, s.stderr, s.new_config.buttons 42))
      = some (true, [], some "  ".toList) :=
  rfl

/-- C18, amended. For a line whose first two tokens are `button` and a channel
token: when the channel token is ended by a delimiter (or by its closing quote)
and more characters follow that one character before the end of the text of the
line, blanks included, the line is accepted, for a channel token that stands for
a channel, and stores exactly those characters, verbatim and untokenized, as the
command of that channel; when nothing follows that one character, the line fails
with the insufficient-parameters message and leaves the working configuration as
it was; and so it does when the channel token is ended by the line feed of the
line.  The text of the line ends at its first comment character, line feed or
`NUL`. -/
theorem C18_button_command_text (A : FloatArith) (st : ParseState A.F)
    (chunk tok : List Char) (more : List (List Char))
    (htoks : lineTokens chunk = "button".toList :: tok :: more) :
    (∀ cmd k, buttonCommand (lineText chunk) = some cmd → cmd ≠ [] →
      buttonChannel st.controlSurfaceMap tok = some k →
      ∃ st1, processLine A st chunk = some st1 ∧ LineAccepted st st1 ∧
        st1.new_config
          = { st.new_config with buttons := assign st.new_config.buttons k cmd }) ∧
    (buttonCommand (lineText chunk) = some [] →
      ∃ st1, processLine A st chunk = some st1 ∧
        LineRejected st st1 (Diag.insufficient "button".toList)) ∧
    (buttonCommand (lineText chunk) = none → chunk = lineText chunk ++ [LF] →
      ∃ st1, processLine A st chunk = some st1 ∧
        LineRejected st st1 (Diag.insufficient "button".toList)) := by
  refine ⟨?_, ?_, ?_⟩
  · intro cmd k hcmd hne hk
    obtain ⟨buf, hb⟩ := processLine_button_text A st chunk tok cmd more htoks hcmd
    rw [hb, if_neg hne]
    unfold buttonChannel at hk
    by_cases hn : (strtol tok).2 ≠ tok.length
    · rw [if_pos hn] at hk ⊢
      simp only at hk ⊢
      split at hk
      · rename_i surf hm
        rw [hm]
        simp only
        split at hk
        · cases hk
        · rename_i hty
          rw [if_neg hty]
          simp only [Option.some.injEq] at hk
          subst hk
          exact ⟨_, rfl, ⟨rfl, rfl⟩, rfl⟩
      · cases hk
    · rw [if_neg hn] at hk ⊢
      simp only [Option.some.injEq] at hk
      subst hk
      exact ⟨_, rfl, ⟨rfl, rfl⟩, rfl⟩
  · intro hcmd
    obtain ⟨buf, hb⟩ := processLine_button_text A st chunk tok [] more htoks hcmd
    rw [hb, if_pos rfl]
    exact ⟨_, rfl, rfl, rfl, rfl⟩
  · intro hcmd hlf
    obtain ⟨buf, hb⟩ := processLine_button_end A st chunk tok more htoks hcmd hlf
    rw [hb]
    exact ⟨_, rfl, rfl, rfl, rfl⟩

set_option maxRecDepth 100000 in
/-- Witness for C18, amended: with the profile `nanoKONTROL2` active, the line
`button stop` followed by three spaces stores two spaces for channel 42, and the
line `button stop` ended by its line feed is rejected. -/
theorem C18_button_command_text_witness :
    (∃ st1, processLine exactArith exampleState "button stop   \n".toList = some st1 ∧
      LineAccepted exampleState st1 ∧ st1.new_config.buttons 42 = some "  ".toList) ∧
    (∃ st1, processLine exactArith exampleState "button stop\n".toList = some st1 ∧
      LineRejected exampleState st1 (Diag.insufficient "button".toList)) :=
  ⟨((C18_button_command_text exactArith exampleState "button stop   \n".toList
        "stop".toList [] (by decide)).1 "  ".toList 42 (by decide) (by decide)
        (by decide)).elim fun st1 hs => ⟨st1, hs.1, hs.2.1, by rw [hs.2.2]; rfl⟩,
    (C18_button_command_text exactArith exampleState "button stop\n".toList
        "stop".toList [] (by decide)).2.2 (by decide) (by decide)⟩

/-- C19. Seed-from-previous frame: after a completed call of `ReadConfigFile` on a
file, the committed configuration has the address committed before when no line
of the file has the directive `connect`, the port committed before when no line
is a `connect` line with an address and a port, the password, the device and the
device name committed before when no line has the directive `password`, `device`,
`device_name`; and for every channel that no `button` line of the file assigns,
`buttons` has the entry committed before (or none, as before), likewise `knobs`
for every channel that no `knob` or `slider` line assigns. -/
theorem C19_seed_from_previous_frame (A : FloatArith) (g_config : KorgiConfig A.F)
    (controlSurfaceMap : Option ControlSurfaceMap) (stack text : List Char)
    (r : ReadResult A.F)
    (hrun : ReadConfigFile A g_config controlSurfaceMap stack (some text) = some r) :
    ((∀ l ∈ fileLines text, hasDirective "connect".toList (lineTokens l) = false) →
      r.g_config.address = g_config.address) ∧
    ((∀ l ∈ fileLines text, givesPort (lineTokens l) = false) →
      r.g_config.port = g_config.port) ∧
    ((∀ l ∈ fileLines text, hasDirective "password".toList (lineTokens l) = false) →
      r.g_config.password = g_config.password) ∧
    ((∀ l ∈ fileLines text, hasDirective "device".toList (lineTokens l) = false) →
      r.g_config.device = g_config.device) ∧
    ((∀ l ∈ fileLines text, hasDirective "device_name".toList (lineTokens l) = false) →
      r.g_config.device_name = g_config.device_name) ∧
    (∀ k, (∀ l ∈ fileLines text, assignsButton controlSurfaceMap k (lineTokens l) = false) →
      r.g_config.buttons k = g_config.buttons k) ∧
    (∀ k, (∀ l ∈ fileLines text, assignsKnob controlSurfaceMap k (lineTokens l) = false) →
      r.g_config.knobs k = g_config.knobs k) := by
  obtain ⟨st, hst, hr⟩ := ReadConfigFile_run A g_config controlSurfaceMap stack text r hrun
  subst hr
  obtain ⟨_, f1, f2, f3, f4, f5, f6, f7, _⟩ :=
    processLines_frame A controlSurfaceMap (fileLines text) _ st (Or.inl rfl) hst
  simp only [List.forall_mem_map] at f1 f2 f3 f4 f5 f6 f7
  rcases finishRead_g_config g_config st with e | e
  · rw [e]
    exact ⟨f1, f2, f3, f4, f5, f6, f7⟩
  · rw [e]
    exact ⟨fun _ => rfl, fun _ => rfl, fun _ => rfl, fun _ => rfl, fun _ => rfl,
      fun _ _ => rfl, fun _ _ => rfl⟩

set_option maxRecDepth 100000 in
/-- Witness for C19: a file with a password and one button keeps the address and
the mapping of every channel but 41. -/
theorem C19_seed_from_previous_frame_witness :
    ∃ r, ReadConfigFile exactArith (g_config_init ℚ) none []
        (some "password x\nbutton 41 say hello\n".toList) = some r ∧ r.ret = true ∧
      r.g_config.address = (g_config_init ℚ).address ∧
      r.g_config.buttons 42 = (g_config_init ℚ).buttons 42 :=
  have hrun : ∃ r, ReadConfigFile exactArith (g_config_init ℚ) none []
      (some "password x\nbutton 41 say hello\n".toList) = some r ∧ r.ret = true :=
    ⟨_, rfl, rfl⟩
  hrun.elim fun r hr =>
    ⟨r, hr.1, hr.2,
      (C19_seed_from_previous_frame exactArith _ none [] _ r hr.1).1 (by decide),
      (C19_seed_from_previous_frame exactArith _ none [] _ r hr.1).2.2.2.2.2.1 42 (by decide)⟩

/-! ## Theorems: a press of a mapped button -/

/-- The frame built from a command without NUL holds no NUL: the password is read up to its
terminator and the rest is fixed text. -/
theorem rconMessage_noNUL (password command : List Char) (h : NUL ∉ command) :
    NUL ∉ rconMessage password command := by
  have hp := c_str_noNUL password
  simp only [rconMessage, List.mem_append, List.mem_cons, List.mem_replicate, not_or]
  refine ⟨⟨⟨?_, ?_⟩, hp⟩, ?_, h⟩
  · decide
  · decide
  · decide

/-- In a reachable configuration the command of a mapped button is not empty, a press with a
value above zero makes the resolver emit exactly that command, the guard on the command is
passed, and when the frame and its terminator fit the 256 bytes of udp_message the frame is
handed to the transport. -/
theorem reachable_button_press (A : FloatArith) (g : KorgiConfig A.F) (midiChannel midiValue : Nat)
    (cmd : List Char) (hg : Reachable A g)
    (hch : midiChannel < 256) (hmap : g.buttons (midiChannel : Int) = some cmd)
    (hv : 0 < midiValue) (hv2 : midiValue < 256) :
    cmd ≠ [] ∧ resolveCommand A g midiChannel midiValue = some cmd ∧
    HandleMidiInput A g midiChannel midiValue ≠ some none ∧
    ((rconMessage g.password cmd).length < COMMAND_SIZE →
      HandleMidiInput A g midiChannel midiValue =
        some (some (rconMessage g.password cmd ++ [NUL]))) := by
  obtain ⟨hne, hnul, hlen⟩ := reachable_buttons A g hg _ _ hmap
  have hmod : midiChannel % 256 = midiChannel := Nat.mod_eq_of_lt hch
  have hvm : midiValue % 256 = midiValue := Nat.mod_eq_of_lt hv2
  have hres : resolveCommand A g midiChannel midiValue = some cmd := by
    simp [resolveCommand, hmod, hmap, hvm, hv, c_str_of_noNUL _ hnul, writeBuffer_of_fits _ hlen]
  refine ⟨hne, hres, ?_, ?_⟩
  · simp only [HandleMidiInput, hres, if_neg hne]
    cases writeBuffer (rconMessage g.password cmd) <;> simp
  · intro hfit
    simp only [HandleMidiInput, hres, if_neg hne, writeBuffer_of_fits _ hfit,
      c_str_of_noNUL _ (rconMessage_noNUL _ _ hnul)]

set_option maxRecDepth 100000 in
/-- C21. Code defect, the one of C7: after the file longPasswordFile (a password of 240
letters, then button 41 say hello) has been read from the initial configuration, the
configuration is reachable and maps channel 41 to the non-empty command say hello; a press of
that button (value 127) makes the resolver emit say hello, the guard on the command is
passed, and the frame of 260 bytes is then written into the 256 bytes of udp_message, so the
event has no defined result and no datagram is handed to the transport. -/
theorem C21_button_press_overflows_udp_message :
    ∃ g : KorgiConfig ℚ, Reachable exactArith g ∧
      g.buttons 41 = some "say hello".toList ∧
      resolveCommand exactArith g 41 127 = some "say hello".toList ∧
      (rconMessage g.password "say hello".toList).length + 1 = 260 ∧
      HandleMidiInput exactArith g 41 127 = none := by
  have hrun : ∃ r, ReadConfigFile exactArith (g_config_init ℚ) none (List.replicate 256 NUL)
      (some longPasswordFile) = some r ∧ r.g_config.buttons 41 = some "say hello".toList ∧
      resolveCommand exactArith r.g_config 41 127 = some "say hello".toList ∧
      (rconMessage r.g_config.password "say hello".toList).length + 1 = 260 ∧
      HandleMidiInput exactArith r.g_config 41 127 = none := ⟨_, rfl, rfl, rfl, rfl, rfl⟩
  exact hrun.elim fun r hr =>
    ⟨r.g_config, Reachable.read _ none (List.replicate 256 NUL) (some longPasswordFile) r
      Reachable.init (by decide) hr.1, hr.2⟩

/-! ## Theorems: the command of a knob -/

/-- The knob branch of the resolver, for every arithmetic: for a channel that is
a key of `knobs` and not of `buttons`, with `t` the value
`max(0, min(1, midiValue / 127))` and `v = min_value * (1 - t) + max_value * t`,
the command is the name of the variable, a space and `v` printed with three
decimals, when this text and its terminator fit the 256 bytes of `command`; the
write of a longer text is undefined. -/
theorem resolveCommand_knob (A : FloatArith) (g : KorgiConfig A.F) (midiChannel midiValue : Nat)
    (knob : KnobMapping A.F) (hch : midiChannel < 256) (hv : midiValue < 256)
    (hb : g.buttons (midiChannel : Int) = none) (hk : g.knobs (midiChannel : Int) = some knob)
    (t v : A.F) (text : List Char)
    (ht : t = A.max (A.ofNat 0) (A.min (A.ofNat 1) (A.div (A.ofNat midiValue) (A.ofNat 127))))
    (hval : v = A.add (A.mul knob.min_value (A.sub (A.ofNat 1) t)) (A.mul knob.max_value t))
    (htext : text = c_str knob.name ++ Char.ofNat 32 :: A.fmt3 v) :
    (text.length < COMMAND_SIZE → resolveCommand A g midiChannel midiValue = some text) ∧
    (COMMAND_SIZE ≤ text.length → resolveCommand A g midiChannel midiValue = none) := by
  have hmod : midiChannel % 256 = midiChannel := Nat.mod_eq_of_lt hch
  have hvm : midiValue % 256 = midiValue := Nat.mod_eq_of_lt hv
  have hres : resolveCommand A g midiChannel midiValue = writeBuffer text := by
    subst htext hval ht
    simp [resolveCommand, hmod, hvm, hb, hk, interpolate, normalize]
  rw [hres]
  constructor
  · intro hfit
    exact writeBuffer_of_fits _ hfit
  · intro hlong
    simp [writeBuffer, Nat.not_lt.2 hlong]

set_option maxRecDepth 100000 in
/-- The knob example of the specification in binary32 arithmetic: after the file
`sensitivityFile` has been read from the initial configuration, channel 16 is a
key of `knobs` with the values 0 and 5 and not a key of `buttons`, and the
commands for the raw values 0, 64 and 127 are `sensitivity 0.000`,
`sensitivity 2.520` and `sensitivity 5.000`. -/
theorem knob_examples_binary32 :
    (ReadConfigFile binary32Arith (g_config_init ℚ) none (List.replicate 256 NUL)
        (some sensitivityFile)).map
      (fun r => (r.ret, r.g_config.buttons 16, r.g_config.knobs 16,
        resolveCommand binary32Arith r.g_config 16 0,
        resolveCommand binary32Arith r.g_config 16 64,
        resolveCommand binary32Arith r.g_config 16 127))
    = some (true, none,
        some { name := "sensitivity".toList, min_value := (0 : ℚ), max_value := (5 : ℚ) },
        some "sensitivity 0.000".toList, some "sensitivity 2.520".toList,
        some "sensitivity 5.000".toList) := by
  with_unfolding_all rfl

set_option maxRecDepth 100000 in
/-- C6. Code defect, by the unchecked `sprintf` that is also behind C7 and C21:
after the file `longKnobFile` has been read from the initial configuration (the
parse succeeds), channel 1 is a key of `knobs` and not of `buttons`, with a
variable name of 230 characters and the values 0 and 1e30 (as a `float`); for the
raw value 127 the command of the claim, the name, a space and the value with
three decimals, has 266 characters, and its write into the 256 bytes of
`command` is undefined: no command is emitted. -/
theorem C6_knob_command_overflows_command :
    (ReadConfigFile binary32Arith (g_config_init ℚ) none (List.replicate 256 NUL)
        (some longKnobFile)).map
      (fun r => (r.ret, r.g_config.buttons 1, r.g_config.knobs 1,
        (r.g_config.knobs 1).map (fun knob =>
          (c_str knob.name ++ Char.ofNat 32 ::
            binary32Arith.fmt3 (interpolate binary32Arith knob 127)).length),
        resolveCommand binary32Arith r.g_config 1 127,
        HandleMidiInput binary32Arith r.g_config 1 127))
    = some (true, none,
        some { name := List.replicate 230 (Char.ofNat 97), min_value := (0 : ℚ),
               max_value := (1000000015047466219876688855040 : ℚ) },
        some 266, none, none) := by
  with_unfolding_all rfl

end Korgi
